import Mathlib

/-!
# CLV calculator: ranking engine, customer store, event store, request server

A shallow embedding of `Backend/clv_calculator.hpp` (the `Customer` record, the
Lomuto `partition` / `quicksort` pair, `addCustomer`, `displayTopCustomers`,
`displayAnalytics`), of the event loggers of `Backend/simple_auth_logger.hpp`
and `Backend/auth_logger.hpp` (`getRecentEvents`, `getAuthStatisticsJson`,
`extractJsonValue`, `logAuthEventFromJson`, `toJsonString`, `exportToCSV`, with
the `json` class of `Backend/json.hpp`), of the persistence code of
`Backend/clv_calculator.hpp` (`saveToJSON`, `loadFromJSON`), and of the request
server of `Backend/http_server.hpp` (`parseQuery`, `urlDecode`,
`createResponse`, `handleAPIRequest`, `handleClient`).

Modelling conventions.
* `vector<T>` is a `List T`; in-place mutation is explicit state passing.
* `double` is idealised as an exact rational `ℚ` (no rounding, no NaN, no
  infinities), except for the score invariant of the store, which is settled
  over IEEE 754 binary64 (`Double`, namespace `CLV.Binary64`).
* `int` indices are `Int` (the source lets `i = low - 1` reach `-1`); vector
  sizes are assumed to fit an `int`, so no wrap-around is modelled.
* An out-of-range element access (undefined behaviour in the source) reads a
  default and writes nothing; every theorem below stays inside the range.
* Console output is not modelled, the values printed are returned.
* `size_t` positions of the text scans are natural numbers below `2 ^ 64`
  with wrap-around; `std::stod` and the printing of a `double` are inputs.
-/

namespace CLV

/-- The `Customer` struct of `clv_calculator.hpp`. -/
structure Customer where
  id : String
  name : String
  averagePurchaseValue : ℚ
  purchaseFrequency : ℚ
  customerLifespan : ℚ
  clv : ℚ
deriving DecidableEq

/-- `Customer::calculateCLV`: the product of the three stored inputs. -/
def Customer.calculateCLV (c : Customer) : ℚ :=
  c.averagePurchaseValue * c.purchaseFrequency * c.customerLifespan

/-- The constructor `Customer::Customer`: stores the five arguments and sets
`clv` to `calculateCLV()` of the stored inputs. -/
def Customer.new (customerId customerName : String) (aov freq lifespan : ℚ) : Customer :=
  let c : Customer :=
    { id := customerId, name := customerName, averagePurchaseValue := aov,
      purchaseFrequency := freq, customerLifespan := lifespan, clv := 0 }
  { c with clv := c.calculateCLV }

/-- Element read `arr[k]` with an `int` index. -/
def getAt (arr : List Customer) (k : Int) : Option Customer :=
  if 0 ≤ k then arr[k.toNat]? else none

/-- The read `arr[k].clv`. -/
def clvAt (arr : List Customer) (k : Int) : ℚ :=
  match getAt arr k with
  | some c => c.clv
  | none => 0

/-- The call `swap(arr[a], arr[b])`. -/
def swapAt (arr : List Customer) (a b : Int) : List Customer :=
  match getAt arr a, getAt arr b with
  | some x, some y => (arr.set a.toNat y).set b.toNat x
  | _, _ => arr

/-- The `for (int j = low; j < high; j++)` loop of `partition`, with `n` the
number of iterations still to run; the state is the vector and `i`. -/
def partitionLoop (pivot : ℚ) : Nat → List Customer → Int → Int → List Customer × Int
  | 0, arr, i, _ => (arr, i)
  | n + 1, arr, i, j =>
    if clvAt arr j > pivot then
      partitionLoop pivot n (swapAt arr (i + 1) j) (i + 1) (j + 1)
    else
      partitionLoop pivot n arr i (j + 1)

/-- `CLVCalculator::partition`: pivot is the last element, elements with a
larger `clv` move left; returns the vector and the pivot's final index. -/
def partition (arr : List Customer) (low high : Int) : List Customer × Int :=
  let pivot := clvAt arr high
  let r := partitionLoop pivot (high - low).toNat arr (low - 1) low
  (swapAt r.1 (r.2 + 1) high, r.2 + 1)

/-- `CLVCalculator::quicksort` with an explicit recursion budget. -/
def quicksortFuel : Nat → List Customer → Int → Int → List Customer
  | 0, arr, _, _ => arr
  | fuel + 1, arr, low, high =>
    if low < high then
      let p := partition arr low high
      let arr1 := quicksortFuel fuel p.1 low (p.2 - 1)
      quicksortFuel fuel arr1 (p.2 + 1) high
    else arr

/-- `CLVCalculator::quicksort(arr, low, high)`; the budget `high - low + 1` is
never exhausted (`quicksortFuel_enough`). -/
def quicksort (arr : List Customer) (low high : Int) : List Customer :=
  quicksortFuel (high - low + 1).toNat arr low high

/-- The working copy of `displayTopCustomers`: `sortedCustomers` after
`quicksort(sortedCustomers, 0, sortedCustomers.size() - 1)`. -/
def sortedCopy (customers : List Customer) : List Customer :=
  quicksort customers 0 ((customers.length : Int) - 1)

/-- `CLVCalculator::displayTopCustomers(n)`: the customers it prints, in the
order printed (the empty store prints none). -/
def displayTopCustomers (customers : List Customer) (n : Int) : List Customer :=
  if customers.isEmpty then []
  else
    let sortedCustomers := sortedCopy customers
    let displayCount : Int := min n (sortedCustomers.length : Int)
    (List.range displayCount.toNat).filterMap fun i => sortedCustomers[i]?

/-- Every entry standing on a position of `low..high` satisfies `P`. -/
def RangeAll (P : Customer → Prop) (arr : List Customer) (low high : Int) : Prop :=
  ∀ k c, low ≤ k → k ≤ high → getAt arr k = some c → P c

/-- The vector `res` is `arr` with the entries of positions `low..high`
rearranged among themselves. -/
structure Shuffle (low high : Int) (arr res : List Customer) : Prop where
  length_eq : res.length = arr.length
  perm : res.Perm arr
  outside : ∀ k, k < low ∨ high < k → getAt res k = getAt arr k
  inside : ∀ P, RangeAll P arr low high → RangeAll P res low high

/-- Positions `low..high` are in descending order of `clv`. -/
def SortedRange (arr : List Customer) (low high : Int) : Prop :=
  ∀ a b x y, low ≤ a → a < b → b ≤ high → getAt arr a = some x → getAt arr b = some y →
    y.clv ≤ x.clv

/-- The duplicate-id scan at the head of `addCustomer`: true when some stored
customer has the given id. -/
def idExists (id : String) : List Customer → Bool
  | [] => false
  | customer :: rest => if customer.id = id then true else idExists id rest

/-- `CLVCalculator::addCustomer`: the store after the call. A duplicate id
returns first, a non-positive input returns second, otherwise the freshly
constructed customer is pushed at the back. -/
def addCustomer (customers : List Customer) (id name : String)
    (avgPurchaseValue purchaseFrequency lifespan : ℚ) : List Customer :=
  if idExists id customers then customers
  else if avgPurchaseValue ≤ 0 ∨ purchaseFrequency ≤ 0 ∨ lifespan ≤ 0 then customers
  else customers ++ [Customer.new id name avgPurchaseValue purchaseFrequency lifespan]

/-- The arguments of one `addCustomer` call. -/
structure AddCall where
  id : String
  name : String
  avgPurchaseValue : ℚ
  purchaseFrequency : ℚ
  lifespan : ℚ

/-- The store after a sequence of `addCustomer` calls, first call first. -/
def addAll (customers : List Customer) (calls : List AddCall) : List Customer :=
  calls.foldl
    (fun s c => addCustomer s c.id c.name c.avgPurchaseValue c.purchaseFrequency c.lifespan)
    customers

/-- The figures printed by `displayAnalytics`. -/
structure Analytics where
  totalCustomers : Nat
  averageCLV : ℚ
  highestCLV : ℚ
  lowestCLV : ℚ
  totalCLV : ℚ
deriving DecidableEq

/-- The `for (const auto& customer : customers)` loop of `displayAnalytics`;
the state is `(totalCLV, highestCLV, lowestCLV)`. -/
def analyticsLoop : List Customer → ℚ × ℚ × ℚ → ℚ × ℚ × ℚ
  | [], s => s
  | customer :: rest, (totalCLV, highestCLV, lowestCLV) =>
    analyticsLoop rest
      (totalCLV + customer.clv,
       if customer.clv > highestCLV then customer.clv else highestCLV,
       if customer.clv < lowestCLV then customer.clv else lowestCLV)

/-- `CLVCalculator::displayAnalytics`: `none` for the empty store (nothing is
computed), otherwise the printed figures; `highestCLV` starts at `0` and
`lowestCLV` at `customers[0].clv`. -/
def displayAnalytics (customers : List Customer) : Option Analytics :=
  match customers with
  | [] => none
  | first :: _ =>
    let r := analyticsLoop customers (0, 0, first.clv)
    some { totalCustomers := customers.length
           averageCLV := r.1 / (customers.length : ℚ)
           highestCLV := r.2.1
           lowestCLV := r.2.2
           totalCLV := r.1 }

/-- Customer `a` stands on an earlier position of `l` than customer `b`. -/
def Precedes (a b : Customer) (l : List Customer) : Prop :=
  ∃ i j : Nat, i < j ∧ l[i]? = some a ∧ l[j]? = some b

/-- A three-customer store with distinct values, out of order. -/
def sampleStore : List Customer :=
  [⟨"c1", "Alice", 1, 1, 1, 1⟩, ⟨"c2", "Bob", 3, 1, 1, 3⟩, ⟨"c3", "Carol", 2, 1, 1, 2⟩]

/-- Two customers of equal value, `t1` first. -/
def tiedStore : List Customer :=
  [⟨"t1", "Dan", 1, 1, 1, 1⟩, ⟨"t2", "Eve", 1, 1, 1, 1⟩]

/-- One valid customer, as stored by `addCustomer [] "c1" "Alice" 100 4 2`. -/
def aliceStore : List Customer := [⟨"c1", "Alice", 100, 4, 2, 800⟩]

end CLV

/-- The `SimpleAuthEvent` struct of `simple_auth_logger.hpp`. -/
structure SimpleAuthEvent where
  userId : String
  email : String
  displayName : String
  eventType : String
  provider : String
  timestamp : String
  sessionId : String
  userAgent : String
  platform : String
  deviceType : String
  browserName : String
  ipAddress : String
  currentUrl : String
  isNewUser : Bool
  timestampUnix : Int
deriving DecidableEq

/-- The `AuthEvent` struct of `auth_logger.hpp` (same fields). -/
structure AuthEvent where
  userId : String
  email : String
  displayName : String
  eventType : String
  provider : String
  timestamp : String
  sessionId : String
  userAgent : String
  platform : String
  deviceType : String
  browserName : String
  ipAddress : String
  currentUrl : String
  isNewUser : Bool
  timestampUnix : Int
deriving DecidableEq

/-- The copy loop shared by both `getRecentEvents`:
`for (i = start; i < authEvents.size(); i++) recent.push_back(authEvents[i])`,
with `n` the number of iterations still to run. -/
def recentLoop {α : Type} (authEvents : List α) : Nat → Nat → List α → List α
  | 0, _, recent => recent
  | n + 1, i, recent =>
    match authEvents[i]? with
    | some e => recentLoop authEvents n (i + 1) (recent ++ [e])
    | none => recent

namespace SimpleAuthLogger

/-- `SimpleAuthLogger::getRecentEvents(limit)`:
`start = max(0, (int)authEvents.size() - limit)`, then the copy loop. -/
def getRecentEvents (authEvents : List SimpleAuthEvent) (limit : Int) : List SimpleAuthEvent :=
  let start : Int := max 0 ((authEvents.length : Int) - limit)
  recentLoop authEvents (authEvents.length - start.toNat) start.toNat []

end SimpleAuthLogger

namespace AuthLogger

/-- `AuthLogger::getRecentEvents(limit)`: the same code over `AuthEvent`. -/
def getRecentEvents (authEvents : List AuthEvent) (limit : Int) : List AuthEvent :=
  let start : Int := max 0 ((authEvents.length : Int) - limit)
  recentLoop authEvents (authEvents.length - start.toNat) start.toNat []

end AuthLogger

/-- A login record of the given user with the given clock reading. -/
def sampleEvent (userId : String) (timestampUnix : Int) : SimpleAuthEvent :=
  { userId := userId, email := "a@b.com", displayName := "", eventType := "login",
    provider := "email", timestamp := "2024-01-01 00:00:00", sessionId := "",
    userAgent := "", platform := "", deviceType := "desktop", browserName := "",
    ipAddress := "127.0.0.1", currentUrl := "", isNewUser := false,
    timestampUnix := timestampUnix }

/-- Three stored records, in insertion order. -/
def sampleEvents : List SimpleAuthEvent :=
  [sampleEvent "u1" 1, sampleEvent "u2" 2, sampleEvent "u3" 3]

/-! ## Event store: ingestion, statistics, CSV export

`std::string` is a Lean `String` where it is only stored or compared, and its
list of characters (one per byte) where the source scans it. The server clock
(`getCurrentTimestamp()` and the millisecond count) is an input of the
ingestion functions. Writing files (`saveToJSON`, `saveToDailyFile`, which
catch their own errors) is not modelled; `exportToCSV` returns the text it
writes. Counters of type `int` are natural numbers. -/

/-- The double-quote character. -/
def dquote : Char := Char.ofNat 34

/-- The scan of `std::string::find`: the first position, counted from `i`, at
which `pat` begins in the rest of the string. -/
def findIn (pat : List Char) : List Char → Nat → Option Nat
  | [], i => if pat.isPrefixOf [] then some i else none
  | c :: cs, i => if pat.isPrefixOf (c :: cs) then some i else findIn pat cs (i + 1)

/-- `s.find(pat, pos)`: the first position `≥ pos` at which `pat` begins in
`s`, `none` for `npos`. -/
def strFind (s pat : List Char) (pos : Nat) : Option Nat :=
  if s.length < pos then none else findIn pat (s.drop pos) pos

/-- `s.substr(pos, n)` for `pos ≤ s.size()`. -/
def substr (s : List Char) (pos n : Nat) : List Char :=
  (s.drop pos).take n

namespace SimpleAuthLogger

/-- The key `extractJsonValue` searches for: the key between double quotes,
followed by a colon. -/
def searchKey (key : String) : List Char :=
  dquote :: (key.data ++ [dquote, ':'])

/-- `SimpleAuthLogger::extractJsonValue`: the text between the first two double
quotes that follow the first occurrence of the search key; empty when the key
or one of the quotes is not found. -/
def extractJsonValue (json key : String) : String :=
  match strFind json.data (searchKey key) 0 with
  | none => ""
  | some pos =>
    match strFind json.data [dquote] (pos + (searchKey key).length) with
    | none => ""
    | some pos1 =>
      match strFind json.data [dquote] (pos1 + 1) with
      | none => ""
      | some endPos => String.mk (substr json.data (pos1 + 1) (endPos - (pos1 + 1)))

/-- `SimpleAuthLogger::logAuthEvent`: the event is pushed at the back of the
in-memory sequence and `true` is returned. -/
def logAuthEvent (authEvents : List SimpleAuthEvent) (event : SimpleAuthEvent) :
    Bool × List SimpleAuthEvent :=
  (true, authEvents ++ [event])

/-- `SimpleAuthLogger::logAuthEventFromJson`, with the clock readings `now`
(`getCurrentTimestamp()`) and `nowUnix` (milliseconds since the epoch). -/
def logAuthEventFromJson (authEvents : List SimpleAuthEvent) (jsonStr : String)
    (now : String) (nowUnix : Int) : Bool × List SimpleAuthEvent :=
  let timestamp := extractJsonValue jsonStr "timestamp"
  let isNewUserStr := extractJsonValue jsonStr "isNewUser"
  logAuthEvent authEvents
    { userId := extractJsonValue jsonStr "userId"
      email := extractJsonValue jsonStr "email"
      displayName := extractJsonValue jsonStr "displayName"
      eventType := extractJsonValue jsonStr "eventType"
      provider := extractJsonValue jsonStr "provider"
      timestamp := if timestamp = "" then now else timestamp
      sessionId := extractJsonValue jsonStr "sessionId"
      userAgent := extractJsonValue jsonStr "userAgent"
      platform := extractJsonValue jsonStr "platform"
      deviceType := extractJsonValue jsonStr "deviceType"
      browserName := extractJsonValue jsonStr "browserName"
      ipAddress := "127.0.0.1"
      currentUrl := extractJsonValue jsonStr "currentUrl"
      isNewUser := decide (isNewUserStr = "true")
      timestampUnix := nowUnix }

end SimpleAuthLogger

/-- The simplified `json` class of `json.hpp`: a map from keys to strings. -/
structure Json where
  stringData : List (String × String)

/-- The static `json::parse` of `json.hpp`: it ignores its argument and returns
the empty object. -/
def Json.parse (_str : String) : Json :=
  { stringData := [] }

/-- The lookup `stringData.find(key)`. -/
def Json.find (j : Json) (key : String) : Option String :=
  (j.stringData.find? fun p => p.1 = key).map fun p => p.2

/-- `json::value<std::string>(key, defaultValue)`. -/
def Json.valueString (j : Json) (key defaultValue : String) : String :=
  match j.find key with
  | some v => v
  | none => defaultValue

/-- `json::value<bool>(key, defaultValue)`. -/
def Json.valueBool (j : Json) (key : String) (defaultValue : Bool) : Bool :=
  match j.find key with
  | some v => decide (v = "true")
  | none => defaultValue

/-- `json::value<long long>(key, defaultValue)`; `stoll` is the library
conversion, `none` when it throws. -/
def Json.valueLongLong (stoll : String → Option Int) (j : Json) (key : String)
    (defaultValue : Int) : Int :=
  match j.find key with
  | some v =>
    match stoll v with
    | some n => n
    | none => defaultValue
  | none => defaultValue

/-- `AuthEvent::fromJson`. -/
def AuthEvent.fromJson (stoll : String → Option Int) (j : Json) : AuthEvent :=
  { userId := j.valueString "userId" ""
    email := j.valueString "email" ""
    displayName := j.valueString "displayName" ""
    eventType := j.valueString "eventType" ""
    provider := j.valueString "provider" ""
    timestamp := j.valueString "timestamp" ""
    sessionId := j.valueString "sessionId" ""
    userAgent := j.valueString "userAgent" ""
    platform := j.valueString "platform" ""
    deviceType := j.valueString "deviceType" ""
    browserName := j.valueString "browserName" ""
    ipAddress := j.valueString "ipAddress" ""
    currentUrl := j.valueString "currentUrl" ""
    isNewUser := j.valueBool "isNewUser" false
    timestampUnix := j.valueLongLong stoll "timestampUnix" 0 }

namespace AuthLogger

/-- `AuthLogger::logAuthEvent`. -/
def logAuthEvent (authEvents : List AuthEvent) (event : AuthEvent) : Bool × List AuthEvent :=
  (true, authEvents ++ [event])

/-- `AuthLogger::logAuthEventFromJson`, with the clock readings `now` and
`nowUnix`: the parsed event gets the server-side address, and the clock where
its timestamp is empty or its millisecond count is zero. -/
def logAuthEventFromJson (stoll : String → Option Int) (authEvents : List AuthEvent)
    (jsonStr : String) (now : String) (nowUnix : Int) : Bool × List AuthEvent :=
  let event := AuthEvent.fromJson stoll (Json.parse jsonStr)
  logAuthEvent authEvents
    { event with
      ipAddress := "127.0.0.1"
      timestamp := if event.timestamp = "" then now else event.timestamp
      timestampUnix := if event.timestampUnix = 0 then nowUnix else event.timestampUnix }

end AuthLogger

/-- One ingestion request: the body and the two clock readings taken while it
is handled. -/
structure LogRequest where
  body : String
  now : String
  nowUnix : Int

/-- The in-memory sequence of a `SimpleAuthLogger` after a run of
`logAuthEventFromJson` calls, first call first. -/
def SimpleAuthLogger.logAll (authEvents : List SimpleAuthEvent) (reqs : List LogRequest) :
    List SimpleAuthEvent :=
  reqs.foldl (fun s r => (SimpleAuthLogger.logAuthEventFromJson s r.body r.now r.nowUnix).2)
    authEvents

/-- The in-memory sequence of an `AuthLogger` after a run of
`logAuthEventFromJson` calls, first call first. -/
def AuthLogger.logAll (stoll : String → Option Int) (authEvents : List AuthEvent)
    (reqs : List LogRequest) : List AuthEvent :=
  reqs.foldl (fun s r => (AuthLogger.logAuthEventFromJson stoll s r.body r.now r.nowUnix).2)
    authEvents

/-- The numbers reported by `getAuthStatisticsJson` (the text also carries the
clock reading `lastUpdated`). -/
structure AuthStatistics where
  totalEvents : Nat
  signups : Nat
  logins : Nat
  googleAuth : Nat
  emailAuth : Nat
  mobileUsers : Nat
  desktopUsers : Nat
  uniqueUsers : Nat
deriving DecidableEq

/-- The local variables of `getAuthStatisticsJson` that the loop updates. -/
structure StatsState where
  signups : Nat
  logins : Nat
  googleAuth : Nat
  emailAuth : Nat
  mobileUsers : Nat
  desktopUsers : Nat
  uniqueUsers : List String

/-- `std::set<string>::insert`: nothing changes when the element is there. -/
def setInsert (s : List String) (x : String) : List String :=
  if x ∈ s then s else s ++ [x]

/-- One iteration of the loop of `getAuthStatisticsJson`, on the four fields of
the event it reads. -/
def statsStep (st : StatsState) (eventType provider deviceType userId : String) : StatsState :=
  let st1 : StatsState :=
    if eventType = "signup" then { st with signups := st.signups + 1 }
    else if eventType = "login" then { st with logins := st.logins + 1 }
    else st
  let st2 : StatsState :=
    if provider = "google" then { st1 with googleAuth := st1.googleAuth + 1 }
    else if provider = "email" then { st1 with emailAuth := st1.emailAuth + 1 }
    else st1
  let st3 : StatsState :=
    if deviceType = "mobile" then { st2 with mobileUsers := st2.mobileUsers + 1 }
    else if deviceType = "desktop" then { st2 with desktopUsers := st2.desktopUsers + 1 }
    else st2
  { st3 with uniqueUsers := setInsert st3.uniqueUsers userId }

/-- The loop `for (const auto& event : authEvents)` of `getAuthStatisticsJson`,
the same code in both loggers; the four arguments read the fields. -/
def statsLoop {α : Type} (eventType provider deviceType userId : α → String) :
    List α → StatsState → StatsState
  | [], st => st
  | event :: rest, st =>
    statsLoop eventType provider deviceType userId rest
      (statsStep st (eventType event) (provider event) (deviceType event) (userId event))

/-- The body of `getAuthStatisticsJson` over any event type. -/
def authStatistics {α : Type} (eventType provider deviceType userId : α → String)
    (authEvents : List α) : AuthStatistics :=
  let st := statsLoop eventType provider deviceType userId authEvents
    { signups := 0, logins := 0, googleAuth := 0, emailAuth := 0, mobileUsers := 0,
      desktopUsers := 0, uniqueUsers := [] }
  { totalEvents := authEvents.length
    signups := st.signups
    logins := st.logins
    googleAuth := st.googleAuth
    emailAuth := st.emailAuth
    mobileUsers := st.mobileUsers
    desktopUsers := st.desktopUsers
    uniqueUsers := st.uniqueUsers.length }

/-- `SimpleAuthLogger::getAuthStatisticsJson`: the numbers it reports. -/
def SimpleAuthLogger.getAuthStatisticsJson (authEvents : List SimpleAuthEvent) : AuthStatistics :=
  authStatistics (fun e => e.eventType) (fun e => e.provider) (fun e => e.deviceType)
    (fun e => e.userId) authEvents

/-- `AuthLogger::getAuthStatisticsJson`: the numbers it reports. -/
def AuthLogger.getAuthStatisticsJson (authEvents : List AuthEvent) : AuthStatistics :=
  authStatistics (fun e => e.eventType) (fun e => e.provider) (fun e => e.deviceType)
    (fun e => e.userId) authEvents

/-- The string fields of an event record, each with the key under which the
ingestion looks for it. -/
def stringFields : List (String × (SimpleAuthEvent → String)) :=
  [("userId", fun e => e.userId), ("email", fun e => e.email),
   ("displayName", fun e => e.displayName), ("eventType", fun e => e.eventType),
   ("provider", fun e => e.provider), ("timestamp", fun e => e.timestamp),
   ("sessionId", fun e => e.sessionId), ("userAgent", fun e => e.userAgent),
   ("platform", fun e => e.platform), ("deviceType", fun e => e.deviceType),
   ("browserName", fun e => e.browserName), ("ipAddress", fun e => e.ipAddress),
   ("currentUrl", fun e => e.currentUrl)]

/-- The string fields that the ingestion takes from the request body alone:
all but `timestamp` and `ipAddress`. -/
def clientFields : List (String × (SimpleAuthEvent → String)) :=
  [("userId", fun e => e.userId), ("email", fun e => e.email),
   ("displayName", fun e => e.displayName), ("eventType", fun e => e.eventType),
   ("provider", fun e => e.provider), ("sessionId", fun e => e.sessionId),
   ("userAgent", fun e => e.userAgent), ("platform", fun e => e.platform),
   ("deviceType", fun e => e.deviceType), ("browserName", fun e => e.browserName),
   ("currentUrl", fun e => e.currentUrl)]

/-- The request body of the end-to-end signup example. -/
def signupBody : String :=
  "\x7b\"userId\":\"u1\",\"email\":\"a@b.com\",\"eventType\":\"signup\",\"provider\":\"email\"\x7d"

/-- Two requests, the second with a later clock reading. -/
def sampleRequests : List LogRequest :=
  [⟨signupBody, "2024-01-01 00:00:00", 1704067200000⟩,
   ⟨"not json", "2024-01-01 00:00:01", 1704067201000⟩]

/-- `SimpleAuthEvent::toJsonString`. -/
def SimpleAuthEvent.toJsonString (e : SimpleAuthEvent) : String :=
  "\x7b\n" ++
  "  \"userId\": \"" ++ e.userId ++ "\",\n" ++
  "  \"email\": \"" ++ e.email ++ "\",\n" ++
  "  \"displayName\": \"" ++ e.displayName ++ "\",\n" ++
  "  \"eventType\": \"" ++ e.eventType ++ "\",\n" ++
  "  \"provider\": \"" ++ e.provider ++ "\",\n" ++
  "  \"timestamp\": \"" ++ e.timestamp ++ "\",\n" ++
  "  \"sessionId\": \"" ++ e.sessionId ++ "\",\n" ++
  "  \"userAgent\": \"" ++ e.userAgent ++ "\",\n" ++
  "  \"platform\": \"" ++ e.platform ++ "\",\n" ++
  "  \"deviceType\": \"" ++ e.deviceType ++ "\",\n" ++
  "  \"browserName\": \"" ++ e.browserName ++ "\",\n" ++
  "  \"ipAddress\": \"" ++ e.ipAddress ++ "\",\n" ++
  "  \"currentUrl\": \"" ++ e.currentUrl ++ "\",\n" ++
  "  \"isNewUser\": " ++ (if e.isNewUser then "true" else "false") ++ ",\n" ++
  "  \"timestampUnix\": " ++ toString e.timestampUnix ++ "\n" ++
  "\x7d"

/-- The header line written by `exportToCSV`, without its line end. -/
def csvHeader : String :=
  "UserId,Email,DisplayName,EventType,Provider,Timestamp,SessionId,UserAgent,Platform," ++
  "DeviceType,BrowserName,IPAddress,CurrentUrl,IsNewUser,TimestampUnix"

/-- The data row written by `SimpleAuthLogger::exportToCSV` for one event,
without its line end: only `userAgent` is put between double quotes. -/
def SimpleAuthLogger.csvRow (event : SimpleAuthEvent) : String :=
  event.userId ++ "," ++ event.email ++ "," ++ event.displayName ++ "," ++
  event.eventType ++ "," ++ event.provider ++ "," ++ event.timestamp ++ "," ++
  event.sessionId ++ "," ++ "\"" ++ event.userAgent ++ "\"," ++
  event.platform ++ "," ++ event.deviceType ++ "," ++ event.browserName ++ "," ++
  event.ipAddress ++ "," ++ event.currentUrl ++ "," ++
  (if event.isNewUser then "true" else "false") ++ "," ++ toString event.timestampUnix

/-- The write loop of `exportToCSV`. -/
def SimpleAuthLogger.csvRows : List SimpleAuthEvent → String
  | [] => ""
  | event :: rest => SimpleAuthLogger.csvRow event ++ "\n" ++ SimpleAuthLogger.csvRows rest

/-- `SimpleAuthLogger::exportToCSV`: the text written to the file. -/
def SimpleAuthLogger.exportToCSV (authEvents : List SimpleAuthEvent) : String :=
  csvHeader ++ "\n" ++ SimpleAuthLogger.csvRows authEvents

/-- The number of fields a CSV reader finds in one record: one more than the
number of commas that stand outside double quotes (`inQuotes` is the reader
state, flipped by every double quote). -/
def csvFieldCount : List Char → Bool → Nat
  | [], _ => 1
  | c :: rest, inQuotes =>
    if c = dquote then csvFieldCount rest (!inQuotes)
    else if c = ',' ∧ inQuotes = false then csvFieldCount rest inQuotes + 1
    else csvFieldCount rest inQuotes

/-- A record with `isNewUser = true` and no double quote in any field. -/
def newUserEvent : SimpleAuthEvent :=
  { userId := "u1", email := "a@b.com", displayName := "Ann", eventType := "signup",
    provider := "email", timestamp := "2024-01-01 00:00:00", sessionId := "s1",
    userAgent := "Mozilla/5.0", platform := "Linux", deviceType := "desktop",
    browserName := "Firefox", ipAddress := "127.0.0.1", currentUrl := "/login",
    isNewUser := true, timestampUnix := 1704067200000 }

/-- A record whose display name contains a comma. -/
def commaEvent : SimpleAuthEvent :=
  { newUserEvent with displayName := "Doe, John" }

/-! ## Request parser: query strings

Here `std::string` is a list of characters, one per byte, and
`std::map<std::string, std::string>` a list of key-value pairs with distinct
keys. -/

namespace HTTPServer

/-- The loop `while (std::getline(ss, pair, delim))`: the pieces it yields for
the unread rest of the stream, `cur` being the characters already extracted for
the current piece. At the end of the stream a piece is yielded only when some
character was extracted for it. -/
def getlineLoop (delim : Char) : List Char → List Char → List (List Char)
  | [], cur => if cur = [] then [] else [cur]
  | c :: cs, cur =>
    if c = delim then cur :: getlineLoop delim cs []
    else getlineLoop delim cs (cur ++ [c])

/-- The pieces that `parseQuery` reads from the query string, split at `&`. -/
def queryPieces (query : List Char) : List (List Char) :=
  getlineLoop '&' query []

/-- The assignment `params[key] = value`. -/
def mapSet : List (List Char × List Char) → List Char → List Char →
    List (List Char × List Char)
  | [], key, value => [(key, value)]
  | (k, v) :: rest, key, value =>
    if k = key then (key, value) :: rest else (k, v) :: mapSet rest key value

/-- The lookup `params.find(key)`. -/
def mapFind : List (List Char × List Char) → List Char → Option (List Char)
  | [], _ => none
  | (k, v) :: rest, key => if k = key then some v else mapFind rest key

/-- The read `params[key]`: the empty string for a key that is not there. -/
def mapGet (params : List (List Char × List Char)) (key : List Char) : List Char :=
  match mapFind params key with
  | some v => v
  | none => []

/-- `pair.find(c)`: the position of the first `c`. -/
def findChar (c : Char) : List Char → Option Nat
  | [] => none
  | x :: rest => if x = c then some 0 else (findChar c rest).map fun n => n + 1

/-- The body of the loop of `parseQuery` over the pieces. -/
def parseQueryLoop : List (List Char) → List (List Char × List Char) →
    List (List Char × List Char)
  | [], params => params
  | pair :: rest, params =>
    match findChar '=' pair with
    | some pos => parseQueryLoop rest (mapSet params (pair.take pos) (pair.drop (pos + 1)))
    | none => parseQueryLoop rest params

/-- `HTTPServer::parseQuery`. -/
def parseQuery (query : List Char) : List (List Char × List Char) :=
  parseQueryLoop (queryPieces query) []

/-- The value of a hexadecimal digit. -/
def hexDigit (c : Char) : Option Nat :=
  if '0' ≤ c ∧ c ≤ '9' then some (c.toNat - 48)
  else if 'a' ≤ c ∧ c ≤ 'f' then some (c.toNat - 87)
  else if 'A' ≤ c ∧ c ≤ 'F' then some (c.toNat - 55)
  else none

/-- The characters skipped by a formatted read. -/
def isSpace (c : Char) : Bool :=
  c = ' ' ∨ (9 ≤ c.toNat ∧ c.toNat ≤ 13)

/-- The `int` read by `ss << std::hex << str.substr(i + 1, 2); ss >> value` from
the two characters `a`, `b`: leading white space is skipped, a sign is accepted,
the hexadecimal digits that follow are read, and a failed read leaves `0`. -/
def hexPair (a b : Char) : Int :=
  match hexDigit a with
  | some x =>
    match hexDigit b with
    | some y => ((16 * x + y : Nat) : Int)
    | none => (x : Int)
  | none =>
    match hexDigit b with
    | some y =>
      if a = '-' then -(y : Int)
      else if a = '+' ∨ isSpace a = true then (y : Int)
      else 0
    | none => 0

/-- The conversion `static_cast<char>(value)`: the low eight bits. -/
def toByte (value : Int) : Char :=
  Char.ofNat (value % 256).toNat

/-- `HTTPServer::urlDecode`: a `%` with at least two characters behind it is
replaced, together with them, by the byte they spell; a `+` becomes a space. -/
def urlDecode : List Char → List Char
  | [] => []
  | [c] => [if c = '+' then ' ' else c]
  | [c, a] => (if c = '+' then ' ' else c) :: urlDecode [a]
  | c :: a :: b :: rest =>
    if c = '%' then toByte (hexPair a b) :: urlDecode rest
    else (if c = '+' then ' ' else c) :: urlDecode (a :: b :: rest)

/-- What the `GET /api/add-customer` handler takes from the query string:
`id` and `name` after `urlDecode`, and the three texts it hands to `std::stod`
(empty when the conversion is skipped). -/
structure AddCustomerParams where
  id : List Char
  name : List Char
  averagePurchaseValue : List Char
  purchaseFrequency : List Char
  customerLifespan : List Char
deriving DecidableEq

/-- The parameter reads of the `GET /api/add-customer` branch of
`handleAPIRequest`, for the query string that follows the `?` of the path. -/
def addCustomerParams (queryString : List Char) : AddCustomerParams :=
  let params := parseQuery queryString
  { id := urlDecode (mapGet params "id".data)
    name := urlDecode (mapGet params "name".data)
    averagePurchaseValue := mapGet params "averagePurchaseValue".data
    purchaseFrequency := mapGet params "purchaseFrequency".data
    customerLifespan := mapGet params "customerLifespan".data }

end HTTPServer

/-! ## Customer persistence and the request-serving engine

The library conversions `std::stod` and `operator<<` on a `double` are inputs
(`Lib`): no theorem depends on more of them than its hypotheses state. The
clock, the static files, and the store behind the server's `MongoDBAuthLogger`
(an external database) are inputs as well (`Env`). A `size_t` is a natural
number below `2 ^ 64`, with `npos = 2 ^ 64 - 1`. The file `customers.json` is
part of the server state; writing it always succeeds. A request is the text
read from the socket. -/

/-- The library conversions between text and `double`. -/
structure Lib where
  /-- The conversion `std::stod`, with `none` when it throws. -/
  stod : List Char → Option ℚ
  /-- The text `operator<<` writes for a `double`. -/
  showDouble : ℚ → List Char

/-- The backslash character. -/
def backslash : Char := Char.ofNat 92

/-- The value `std::string::npos`. -/
def npos : Nat := 2 ^ 64 - 1

/-- `s.find(pat, pos)` as a `size_t`. -/
def findPos (s pat : List Char) (pos : Nat) : Nat :=
  match strFind s pat pos with
  | some i => i
  | none => npos

/-- Addition of `size_t` values. -/
def sizeAdd (a b : Nat) : Nat := (a + b) % 2 ^ 64

/-- Subtraction of `size_t` values. -/
def sizeSub (a b : Nat) : Nat := (a + 2 ^ 64 - b % 2 ^ 64) % 2 ^ 64

namespace CLV

/-- `CLVCalculator::escapeString`: a backslash is put before every double
quote and backslash. -/
def escapeString : List Char → List Char
  | [] => []
  | c :: rest =>
    if c = dquote ∨ c = backslash then backslash :: c :: escapeString rest
    else c :: escapeString rest

/-- The text written by the loop of `saveToJSON` for the customers from
position `i` on: a comma follows every entry but the last. -/
def saveCustomers (lib : Lib) : List Customer → List Char
  | [] => []
  | customer :: rest =>
    "    \x7b\n".data ++
    "      \"id\": \"".data ++ escapeString customer.id.data ++ "\",\n".data ++
    "      \"name\": \"".data ++ escapeString customer.name.data ++ "\",\n".data ++
    "      \"averagePurchaseValue\": ".data ++ lib.showDouble customer.averagePurchaseValue ++
      ",\n".data ++
    "      \"purchaseFrequency\": ".data ++ lib.showDouble customer.purchaseFrequency ++
      ",\n".data ++
    "      \"customerLifespan\": ".data ++ lib.showDouble customer.customerLifespan ++
      ",\n".data ++
    "      \"clv\": ".data ++ lib.showDouble customer.clv ++ "\n".data ++
    "    \x7d".data ++ (if rest = [] then [] else ",".data) ++ "\n".data ++
    saveCustomers lib rest

/-- `CLVCalculator::saveToJSON`: the text written to the file; `now` is
`getCurrentTimestamp()`. The field `averageCLV` is the `clv` of the first
customer, `0` for the empty store. -/
def saveToJSON (lib : Lib) (now : List Char) (customers : List Customer) : List Char :=
  "\x7b\n".data ++
  "  \"customers\": [\n".data ++
  saveCustomers lib customers ++
  "  ],\n".data ++
  "  \"totalCustomers\": ".data ++ (toString customers.length).data ++ ",\n".data ++
  "  \"averageCLV\": ".data ++
    lib.showDouble (match customers with
      | [] => 0
      | first :: _ => first.calculateCLV) ++ ",\n".data ++
  "  \"timestamp\": \"".data ++ now ++ "\"\n".data ++
  "\x7d\n".data

/-- The text between the quotes at `start` and `stop`, read by `loadFromJSON`
when both were found; otherwise the variable keeps its empty value. -/
def quotedText (content : List Char) (start stop : Nat) : List Char :=
  if start ≠ npos ∧ stop ≠ npos then
    substr content (sizeAdd start 1) (sizeSub (sizeSub stop start) 1)
  else []

/-- The number read by `loadFromJSON` between `start` and the next comma: `0`
when there is no comma or `std::stod` throws. -/
def numberText (lib : Lib) (content : List Char) (start : Nat) : ℚ :=
  let stop := findPos content ",".data start
  if stop ≠ npos then
    match lib.stod (substr content start (sizeSub stop start)) with
    | some x => x
    | none => 0
  else 0

/-- The `while` loop of `loadFromJSON`, from position `pos`, with a budget of
iterations; `none` when the budget runs out. -/
def loadLoop (lib : Lib) (content : List Char) :
    Nat → Nat → List Customer → Option (List Customer)
  | 0, _, _ => none
  | fuel + 1, pos, customers =>
    let pos0 := findPos content "\"id\":".data pos
    if pos0 = npos then some customers
    else
      let idStart := findPos content [dquote] (sizeAdd pos0 6)
      let idEnd := findPos content [dquote] (sizeAdd idStart 1)
      let id := quotedText content idStart idEnd
      let pos1 := findPos content "\"name\":".data pos0
      let nameStart := findPos content [dquote] (sizeAdd pos1 8)
      let nameEnd := findPos content [dquote] (sizeAdd nameStart 1)
      let name := quotedText content nameStart nameEnd
      let pos2 := findPos content "\"averagePurchaseValue\":".data pos1
      let aov := numberText lib content (sizeAdd pos2 25)
      let pos3 := findPos content "\"purchaseFrequency\":".data pos2
      let freq := numberText lib content (sizeAdd pos3 22)
      let pos4 := findPos content "\"customerLifespan\":".data pos3
      let lifespan := numberText lib content (sizeAdd pos4 20)
      let customers1 :=
        if id ≠ [] ∧ name ≠ [] ∧ aov > 0 ∧ freq > 0 ∧ lifespan > 0 then
          customers ++ [Customer.new (String.mk id) (String.mk name) aov freq lifespan]
        else customers
      loadLoop lib content fuel (sizeAdd pos4 1) customers1

/-- `CLVCalculator::loadFromJSON` on the content of the file (`none` for a
file that cannot be opened): the store is cleared and refilled. The result is
`none` when the loop does not end within `|content| + 1` iterations. -/
def loadFromJSON (lib : Lib) (file : Option (List Char)) : Option (List Customer) :=
  match file with
  | none => some []
  | some content => loadLoop lib content (content.length + 1) 0 []

end CLV

/-- The value of a text made of decimal digits. -/
def digitsValue (s : List Char) : Nat :=
  s.foldl (fun n c => 10 * n + (c.toNat - 48)) 0

/-- A library instance for the examples. On the texts and values the examples
use it agrees with the C++ library: `stod` skips leading white space and reads
a text made of decimal digits (`none` for any other text, as for the empty
one), and a natural number below `10 ^ 6` is written as its decimal digits
(other values as the empty text). -/
def sampleLib : Lib where
  stod := fun s =>
    let t := s.dropWhile fun c => c = ' ' ∨ (9 ≤ c.toNat ∧ c.toNat ≤ 13)
    if t ≠ [] ∧ t.all Char.isDigit = true then some (Rat.ofInt (Int.ofNat (digitsValue t)))
    else none
  showDouble := fun q =>
    if q.den = 1 ∧ 0 ≤ q.num ∧ q.num < 1000000 then (toString q.num.toNat).data else []

namespace HTTPServer

/-- The server state that a request can read or change: the calculator's
customers, the content of the file `customers.json` (`none` while it does not
exist), and the store of the authentication logger. -/
structure ServerState (σ : Type) where
  customers : List CLV.Customer
  customersJson : Option (List Char)
  auth : σ

/-- What one request takes from outside the program: the library conversions,
the clock (`getCurrentTimestamp()` and `time(nullptr)`), the configured
origin, the static files as read by `readFile` (empty for a file that cannot be
opened), and the four operations of the authentication logger on its external
store. -/
structure Env (σ : Type) where
  lib : Lib
  now : List Char
  time : Int
  allowedOrigins : List Char
  readFile : List Char → List Char
  logAuthEventFromJson : σ → List Char → Bool × σ
  getAuthStatisticsJson : σ → List Char
  getRecentEvents : σ → Int → List SimpleAuthEvent
  exportToCSV : σ → List Char → Bool × σ

/-- The origin set by the constructor: `*` unless the environment variable
`ALLOWED_ORIGINS` is set to a non-empty text. -/
def configuredOrigins (originsEnv : Option (List Char)) : List Char :=
  match originsEnv with
  | some origins => if origins ≠ [] then origins else "*".data
  | none => "*".data

/-- The reason phrase chosen by the `switch` of `createResponse`, with its
leading blank. -/
def reasonPhrase (statusCode : Int) : List Char :=
  if statusCode = 200 then " OK".data
  else if statusCode = 404 then " Not Found".data
  else if statusCode = 500 then " Internal Server Error".data
  else " Unknown".data

/-- `HTTPServer::createResponse`. -/
def createResponse (allowedOrigins : List Char) (statusCode : Int)
    (contentType body : List Char) : List Char :=
  "HTTP/1.1 ".data ++ (toString statusCode).data ++ reasonPhrase statusCode ++ "\r\n".data ++
  "Content-Type: ".data ++ contentType ++ "\r\n".data ++
  "Content-Length: ".data ++ (toString body.length).data ++ "\r\n".data ++
  "Access-Control-Allow-Origin: ".data ++ allowedOrigins ++ "\r\n".data ++
  "Access-Control-Allow-Methods: GET, POST, PUT, DELETE, OPTIONS\r\n".data ++
  "Access-Control-Allow-Headers: Content-Type, Authorization\r\n".data ++
  "Connection: close\r\n".data ++
  "\r\n".data ++
  body

/-- `HTTPServer::getContentType`. -/
def getContentType (path : List Char) : List Char :=
  if strFind path ".html".data 0 ≠ none then "text/html".data
  else if strFind path ".css".data 0 ≠ none then "text/css".data
  else if strFind path ".js".data 0 ≠ none then "application/javascript".data
  else if strFind path ".json".data 0 ≠ none then "application/json".data
  else "text/plain".data

/-- The formatted read `stream >> word`: white space is skipped, then the
characters up to the next white space are taken; the result is the word and
the unread rest. A failed read gives the empty word. -/
def extractWord (s : List Char) : List Char × List Char :=
  let s1 := s.dropWhile isSpace
  (s1.takeWhile fun c => !isSpace c, s1.dropWhile fun c => !isSpace c)

/-- The success envelope of the two add-customer handlers. -/
def successEnvelope (lib : Lib) (id name : List Char) (aov freq lifespan : ℚ) : List Char :=
  "\x7b\n".data ++
  "  \"status\": \"success\",\n".data ++
  "  \"message\": \"Customer added successfully\",\n".data ++
  "  \"customer\": \x7b\n".data ++
  "    \"id\": \"".data ++ id ++ "\",\n".data ++
  "    \"name\": \"".data ++ name ++ "\",\n".data ++
  "    \"averagePurchaseValue\": ".data ++ lib.showDouble aov ++ ",\n".data ++
  "    \"purchaseFrequency\": ".data ++ lib.showDouble freq ++ ",\n".data ++
  "    \"customerLifespan\": ".data ++ lib.showDouble lifespan ++ ",\n".data ++
  "    \"clv\": ".data ++ lib.showDouble (aov * freq * lifespan) ++ "\n".data ++
  "  \x7d\n".data ++
  "\x7d".data

/-- An error envelope with the given message. -/
def errorEnvelope (message : List Char) : List Char :=
  "\x7b\n".data ++
  "  \"status\": \"error\",\n".data ++
  "  \"message\": \"".data ++ message ++ "\"\n".data ++
  "\x7d".data

/-- A success envelope with the given second line. -/
def messageEnvelope (status line : List Char) : List Char :=
  "\x7b\n".data ++
  "  \"status\": \"".data ++ status ++ "\",\n".data ++
  line ++
  "\x7d".data

/-- The tail shared by the two add-customer handlers: with a non-empty id and
name and three positive numbers the customer is handed to `addCustomer`, the
store is saved and the success envelope returned; otherwise the error envelope
with the given message. -/
def addCustomerReply {σ : Type} (env : Env σ) (state : ServerState σ)
    (id name : List Char) (aov freq lifespan : ℚ) (invalidMessage : List Char) :
    List Char × ServerState σ :=
  if id ≠ [] ∧ name ≠ [] ∧ aov > 0 ∧ freq > 0 ∧ lifespan > 0 then
    let customers :=
      CLV.addCustomer state.customers (String.mk id) (String.mk name) aov freq lifespan
    (successEnvelope env.lib id name aov freq lifespan,
     { state with
       customers := customers
       customersJson := some (CLV.saveToJSON env.lib env.now customers) })
  else (errorEnvelope invalidMessage, state)

/-- The quoted value read by the `POST /api/customers` handler after the first
occurrence of `key` (the key between quotes, with its colon, of length
`keyLength`): the text between the next two double quotes, empty when the key
or one of the quotes is missing. -/
def postQuoted (body key : List Char) (keyLength : Nat) : List Char :=
  match strFind body key 0 with
  | none => []
  | some pos =>
    match strFind body [dquote] (pos + keyLength) with
    | none => []
    | some start =>
      match strFind body [dquote] (start + 1) with
      | none => []
      | some stop => substr body (start + 1) (stop - start - 1)

/-- The number read by the `POST /api/customers` handler after the first
occurrence of `key`: the text from `offset` characters behind the start of the
key up to the next comma (or, without one, the next closing brace) goes to
`std::stod`; `0` when the key or the end is missing or the conversion throws. -/
def postNumber (lib : Lib) (body key : List Char) (offset : Nat) : ℚ :=
  match strFind body key 0 with
  | none => 0
  | some pos =>
    let start := pos + offset
    let stop :=
      match strFind body ",".data start with
      | some e => some e
      | none => strFind body "\x7d".data start
    match stop with
    | none => 0
    | some e =>
      match lib.stod (substr body start (e - start)) with
      | some x => x
      | none => 0

/-- The three numbers read by the `GET /api/add-customer` handler inside one
`try` block: a conversion that throws leaves its number and the later ones at
`0`; an empty text is not converted. -/
def queryNumbers (lib : Lib) (p : AddCustomerParams) : ℚ × ℚ × ℚ :=
  match (if p.averagePurchaseValue ≠ [] then lib.stod p.averagePurchaseValue else some 0) with
  | none => (0, 0, 0)
  | some aov =>
    match (if p.purchaseFrequency ≠ [] then lib.stod p.purchaseFrequency else some 0) with
    | none => (aov, 0, 0)
    | some freq =>
      match (if p.customerLifespan ≠ [] then lib.stod p.customerLifespan else some 0) with
      | none => (aov, freq, 0)
      | some lifespan => (aov, freq, lifespan)

/-- The query string of a path: what follows its first `?`, empty without
one. -/
def queryStringOf (path : List Char) : List Char :=
  match findChar '?' path with
  | some queryPos => path.drop (queryPos + 1)
  | none => []

/-- The customers text copied by the `GET /api/customers` handler from the
file: what stands between the first `[` at or after `"customers": [` and the
next `]`. -/
def customersArray (file : Option (List Char)) : List Char :=
  match file with
  | none => []
  | some content =>
    match strFind content "\"customers\": [".data 0 with
    | none => []
    | some start0 =>
      match strFind content "[".data start0 with
      | none => []
      | some start =>
        match strFind content "]".data start with
        | none => []
        | some stop => substr content (start + 1) (stop - start - 1)

/-- The lines written by the `GET /api/auth-logs` handler for the recent
events: a comma follows every entry but the last. -/
def authLogLines : List SimpleAuthEvent → List Char
  | [] => []
  | event :: rest =>
    "    ".data ++ event.toJsonString.data ++ (if rest = [] then [] else ",".data) ++
      "\n".data ++ authLogLines rest

/-- `HTTPServer::handleAPIRequest`: the response text and the state after the
call; `none` when the reload of the store by `/api/analytics` does not
return. -/
def handleAPIRequest {σ : Type} (env : Env σ) (state : ServerState σ)
    (method path body : List Char) : Option (List Char × ServerState σ) :=
  if path = "/api/customers".data ∧ method = "GET".data then
    some ("\x7b\n  \"customers\": [\n".data ++ customersArray state.customersJson ++
        "\n  ],\n".data ++ "  \"status\": \"success\"\n".data ++ "\x7d".data, state)
  else if path = "/api/customers".data ∧ method = "POST".data then
    some (addCustomerReply env state
      (postQuoted body "\"id\":".data 5) (postQuoted body "\"name\":".data 7)
      (postNumber env.lib body "\"averagePurchaseValue\":".data 24)
      (postNumber env.lib body "\"purchaseFrequency\":".data 20)
      (postNumber env.lib body "\"customerLifespan\":".data 19)
      "Invalid customer data".data)
  else if strFind path "/api/add-customer".data 0 = some 0 ∧ method = "GET".data then
    let p := addCustomerParams (queryStringOf path)
    let n := queryNumbers env.lib p
    some (addCustomerReply env state p.id p.name n.1 n.2.1 n.2.2
      "Invalid customer data - missing required fields".data)
  else if path = "/api/analytics".data ∧ method = "GET".data then
    match CLV.loadFromJSON env.lib state.customersJson with
    | none => none
    | some customers =>
      some ("\x7b\n".data ++ "  \"status\": \"success\",\n".data ++
          "  \"analytics\": \x7b\n".data ++
          "    \"totalCustomers\": ".data ++ (toString customers.length).data ++ ",\n".data ++
          "    \"message\": \"Analytics data retrieved\"\n".data ++
          "  \x7d\n".data ++ "\x7d".data,
        { state with customers := customers })
  else if path = "/api/log-auth".data ∧ method = "POST".data then
    let r := env.logAuthEventFromJson state.auth body
    some ((if r.1 = true then
        messageEnvelope "success".data
          "  \"message\": \"Authentication event logged successfully\"\n".data
      else
        messageEnvelope "error".data
          "  \"message\": \"Failed to log authentication event\"\n".data),
      { state with auth := r.2 })
  else if path = "/api/auth-stats".data ∧ method = "GET".data then
    some (messageEnvelope "success".data
      ("  \"authStatistics\": ".data ++ env.getAuthStatisticsJson state.auth ++ "\n".data),
      state)
  else if path = "/api/auth-logs".data ∧ method = "GET".data then
    let recentEvents := env.getRecentEvents state.auth 20
    some (messageEnvelope "success".data
      ("  \"authLogs\": [\n".data ++ authLogLines recentEvents ++ "  ],\n".data ++
        "  \"totalEvents\": ".data ++ (toString recentEvents.length).data ++ "\n".data),
      state)
  else if path = "/api/auth-export".data ∧ method = "GET".data then
    let filename := "auth_export_".data ++ (toString env.time).data ++ ".csv".data
    let r := env.exportToCSV state.auth filename
    some ((if r.1 = true then
        messageEnvelope "success".data
          ("  \"message\": \"Authentication logs exported successfully\",\n".data ++
            "  \"filename\": \"".data ++ filename ++ "\"\n".data)
      else
        messageEnvelope "error".data
          "  \"message\": \"Failed to export authentication logs\"\n".data),
      { state with auth := r.2 })
  else some (errorEnvelope "Endpoint not found".data, state)

/-- The loop of `handleClient` over the lines behind the request line: an empty
line or a lone carriage return switches to the body and is skipped; once in the
body every other line is appended as `std::getline` delivered it. -/
def bodyLoop : List (List Char) → Bool → List Char → List Char
  | [], _, body => body
  | headerLine :: rest, inBody, body =>
    if headerLine = ['\r'] ∨ headerLine = [] then bodyLoop rest true body
    else if inBody = true then bodyLoop rest inBody (body ++ headerLine)
    else bodyLoop rest inBody body

/-- The method and the path that `handleClient` reads from the first line of
the request. -/
def requestTarget (request : List Char) : List Char × List Char :=
  let line := (getlineLoop '\n' request []).headD []
  let m := extractWord line
  (m.1, (extractWord m.2).1)

/-- The body that `handleClient` hands to `handleAPIRequest`. -/
def requestBody (request : List Char) : List Char :=
  bodyLoop (getlineLoop '\n' request []).tail false []

/-- `HTTPServer::handleClient`: the response sent and the state after the
request; `none` when the handler does not return. -/
def handleClient {σ : Type} (env : Env σ) (state : ServerState σ) (request : List Char) :
    Option (List Char × ServerState σ) :=
  let method := (requestTarget request).1
  let path := (requestTarget request).2
  if method = "OPTIONS".data then
    some (createResponse env.allowedOrigins 200 "text/plain".data [], state)
  else if strFind path "/api/".data 0 = some 0 then
    match handleAPIRequest env state method path (requestBody request) with
    | none => none
    | some r => some (createResponse env.allowedOrigins 200 "application/json".data r.1, r.2)
  else
    let filePath := "../Frontend".data ++ (if path = "/".data then "/index.html".data else path)
    let content := env.readFile filePath
    if content ≠ [] then
      some (createResponse env.allowedOrigins 200 (getContentType filePath) content, state)
    else
      some (createResponse env.allowedOrigins 404 "text/html".data
        "<h1>404 Not Found</h1>".data, state)

/-- The pair (method, path) is served by one of the routes of
`handleAPIRequest`. -/
def routeMatched (method path : List Char) : Prop :=
  (path = "/api/customers".data ∧ method = "GET".data) ∨
  (path = "/api/customers".data ∧ method = "POST".data) ∨
  (List.IsPrefix "/api/add-customer".data path ∧ method = "GET".data) ∨
  (path = "/api/analytics".data ∧ method = "GET".data) ∨
  (path = "/api/log-auth".data ∧ method = "POST".data) ∨
  (path = "/api/auth-stats".data ∧ method = "GET".data) ∨
  (path = "/api/auth-logs".data ∧ method = "GET".data) ∨
  (path = "/api/auth-export".data ∧ method = "GET".data)

/-- The query string carries the value `value` under `key`: the last piece
with this key is `key=value`. -/
def Carries (query key value : List Char) : Prop :=
  ∃ pre post, queryPieces query = pre ++ (key ++ '=' :: value) :: post ∧
    ∀ p ∈ post, ∀ w, p ≠ key ++ '=' :: w

end HTTPServer

/-- An environment for the examples: the sample library, a fixed clock, the
default origin, no static file, and an authentication logger that stores
nothing. -/
def sampleEnv : HTTPServer.Env Unit where
  lib := sampleLib
  now := "2024-01-01 00:00:00".data
  time := 1704067200
  allowedOrigins := "*".data
  readFile := fun _ => []
  logAuthEventFromJson := fun s _ => (true, s)
  getAuthStatisticsJson := fun _ => "\x7b\x7d".data
  getRecentEvents := fun _ _ => []
  exportToCSV := fun s _ => (true, s)

/-- A server state holding the one customer of `aliceStore`, no file yet. -/
def sampleState : HTTPServer.ServerState Unit :=
  { customers := CLV.aliceStore, customersJson := none, auth := () }

/-- A preflight request. -/
def optionsRequest : List Char :=
  "OPTIONS /api/customers HTTP/1.1\r\nOrigin: http://localhost:3000\r\n\r\n".data

/-- A request to an address that is no route. -/
def deleteRequest : List Char :=
  "DELETE /api/customers HTTP/1.1\r\nHost: localhost\r\n\r\n".data

/-- A request whose lines end in CR LF and whose body spans three lines. -/
def crlfRequest : List Char :=
  ("POST /api/log-auth HTTP/1.1\r\nContent-Type: application/json\r\n\r\n" ++
    "\x7b\r\n\"userId\":\"u1\"\r\n\x7d\r\n").data

/-- The path of the end-to-end add-customer example. -/
def addCustomerPath : List Char :=
  ("/api/add-customer?id=c1&name=Alice&averagePurchaseValue=100" ++
    "&purchaseFrequency=4&customerLifespan=2").data

/-- A `POST /api/customers` body without white space behind the colons. -/
def compactBody : List Char :=
  ("\x7b\"id\":\"c1\",\"name\":\"Alice\",\"averagePurchaseValue\":100," ++
    "\"purchaseFrequency\":4,\"customerLifespan\":2\x7d").data

/-- The same body with one blank behind every colon and comma. -/
def spacedBody : List Char :=
  ("\x7b\"id\": \"c1\", \"name\": \"Alice\", \"averagePurchaseValue\": 100, " ++
    "\"purchaseFrequency\": 4, \"customerLifespan\": 2\x7d").data

/-! ## Bounds-checked run of the ranking engine -/

namespace CLV

/-- The call `swap(arr[a], arr[b])` of a bounds-checked run: `none` when one of
the two element accesses is outside `arr`. -/
def swapChecked (arr : List Customer) (a b : Int) : Option (List Customer) :=
  match getAt arr a, getAt arr b with
  | some x, some y => some ((arr.set a.toNat y).set b.toNat x)
  | _, _ => none

/-- The loop of `partition` in a bounds-checked run: the read `arr[j]` and the
swap fail when an index is outside `arr`. -/
def partitionLoopChecked (pivot : ℚ) :
    Nat → List Customer → Int → Int → Option (List Customer × Int)
  | 0, arr, i, _ => some (arr, i)
  | n + 1, arr, i, j =>
    match getAt arr j with
    | none => none
    | some c =>
      if c.clv > pivot then
        match swapChecked arr (i + 1) j with
        | none => none
        | some arr1 => partitionLoopChecked pivot n arr1 (i + 1) (j + 1)
      else
        partitionLoopChecked pivot n arr i (j + 1)

/-- `CLVCalculator::partition` in a bounds-checked run: the read of the pivot
`arr[high]`, the loop and the final swap each fail on an access outside
`arr`. -/
def partitionChecked (arr : List Customer) (low high : Int) : Option (List Customer × Int) :=
  match getAt arr high with
  | none => none
  | some pv =>
    match partitionLoopChecked pv.clv (high - low).toNat arr (low - 1) low with
    | none => none
    | some r =>
      match swapChecked r.1 (r.2 + 1) high with
      | none => none
      | some arr1 => some (arr1, r.2 + 1)

/-- `CLVCalculator::quicksort` in a bounds-checked run with a recursion budget:
`none` when an element access is out of bounds or when the budget is used up
with a call still to make. -/
def quicksortChecked : Nat → List Customer → Int → Int → Option (List Customer)
  | 0, arr, low, high => if low < high then none else some arr
  | fuel + 1, arr, low, high =>
    if low < high then
      match partitionChecked arr low high with
      | none => none
      | some p =>
        match quicksortChecked fuel p.1 low (p.2 - 1) with
        | none => none
        | some arr1 => quicksortChecked fuel arr1 (p.2 + 1) high
    else some arr

end CLV

/-! ## The customer store over IEEE 754 doubles

The score invariant speaks about the values a `double` holds, so for it the
store is embedded a second time, with `double` as IEEE 754 binary64: every
product is rounded to binary64, to nearest with ties to even (the default
rounding mode). -/

/-- The number of binary digits of `m`, counted in at most `fuel` halvings. -/
def bitLengthFuel : Nat → Nat → Nat
  | 0, _ => 0
  | fuel + 1, m => if m = 0 then 0 else bitLengthFuel fuel (m / 2) + 1

/-- The number of binary digits of `m`. -/
def bitLength (m : Nat) : Nat := bitLengthFuel m m

/-- A `double`: `finite negative m e` is the number `± m * 2 ^ e`, besides the
two infinities and NaN. -/
inductive Double where
  | finite (negative : Bool) (m : Nat) (e : Int)
  | inf (negative : Bool)
  | nan
deriving DecidableEq

namespace Double

/-- The number held by a finite `double`. -/
def value : Double → Option ℚ
  | finite negative m e => some ((if negative then -1 else 1) * (m : ℚ) * 2 ^ e)
  | _ => none

/-- The 53 leading binary digits of `m * 2 ^ e`, rounded to nearest with ties
to even, and their exponent; below `2 ^ (-1022)` the exponent stays at `-1074`
and fewer digits are kept. -/
def roundParts (m : Nat) (e : Int) : Nat × Int :=
  let e1 := max (e + bitLength m - 53) (-1074)
  if e1 ≤ e then (m, e)
  else
    let shift := (e1 - e).toNat
    let q := m / 2 ^ shift
    let rest := m % 2 ^ shift
    let half := 2 ^ (shift - 1)
    (if rest > half ∨ (rest = half ∧ q % 2 = 1) then q + 1 else q, e1)

/-- The `double` nearest to `± m * 2 ^ e`, ties to even; an infinity when the
rounded number reaches `2 ^ 1024`. -/
def round (negative : Bool) (m : Nat) (e : Int) : Double :=
  let r := roundParts m e
  if r.1 ≠ 0 ∧ r.2 + bitLength r.1 > 1024 then inf negative else finite negative r.1 r.2

/-- The product `x * y` of two `double`s. -/
def mul : Double → Double → Double
  | nan, _ => nan
  | _, nan => nan
  | inf s, inf t => inf (xor s t)
  | inf s, finite t n _ => if n = 0 then nan else inf (xor s t)
  | finite s m _, inf t => if m = 0 then nan else inf (xor s t)
  | finite s m e, finite t n k => round (xor s t) (m * n) (e + k)

/-- The comparison `x <= 0`. -/
def leZero : Double → Bool
  | finite negative m _ => negative || m == 0
  | inf negative => negative
  | nan => false

end Double

namespace CLV.Binary64

/-- The `Customer` struct of `clv_calculator.hpp`, its numbers as `double`s. -/
structure Customer where
  id : String
  name : String
  averagePurchaseValue : Double
  purchaseFrequency : Double
  customerLifespan : Double
  clv : Double
deriving DecidableEq

/-- `Customer::calculateCLV`: the expression
`averagePurchaseValue * purchaseFrequency * customerLifespan`, two `double`
products from left to right. -/
def Customer.calculateCLV (c : Customer) : Double :=
  (c.averagePurchaseValue.mul c.purchaseFrequency).mul c.customerLifespan

/-- The constructor `Customer::Customer`. -/
def Customer.new (customerId customerName : String) (aov freq lifespan : Double) : Customer :=
  let c : Customer :=
    { id := customerId, name := customerName, averagePurchaseValue := aov,
      purchaseFrequency := freq, customerLifespan := lifespan, clv := Double.finite false 0 0 }
  { c with clv := c.calculateCLV }

/-- The duplicate-id scan at the head of `addCustomer`. -/
def idExists (id : String) : List Customer → Bool
  | [] => false
  | customer :: rest => if customer.id = id then true else idExists id rest

/-- `CLVCalculator::addCustomer`: the store after the call. -/
def addCustomer (customers : List Customer) (id name : String)
    (avgPurchaseValue purchaseFrequency lifespan : Double) : List Customer :=
  if idExists id customers then customers
  else if avgPurchaseValue.leZero || purchaseFrequency.leZero || lifespan.leZero then customers
  else customers ++ [Customer.new id name avgPurchaseValue purchaseFrequency lifespan]

/-- The arguments of one `addCustomer` call. -/
structure AddCall where
  id : String
  name : String
  avgPurchaseValue : Double
  purchaseFrequency : Double
  lifespan : Double

/-- The store after a sequence of `addCustomer` calls, first call first. -/
def addAll (customers : List Customer) (calls : List AddCall) : List Customer :=
  calls.foldl
    (fun s c => addCustomer s c.id c.name c.avgPurchaseValue c.purchaseFrequency c.lifespan)
    customers

end CLV.Binary64

/-! ## Ranking engine: `partition`, `quicksort`, `displayTopCustomers` -/

namespace CLV

theorem cons_set_perm {α : Type} (x : α) :
    ∀ (t : List α) (k : Nat) (y : α), t[k]? = some y → (y :: t.set k x).Perm (x :: t)
  | [], k, y, h => by simp at h
  | z :: s, 0, y, h => by
    simp at h
    subst h
    simpa using List.Perm.swap x z s
  | z :: s, k + 1, y, h => by
    simp at h
    have ih := cons_set_perm x s k y h
    simp only [List.set_cons_succ]
    exact (List.Perm.swap z y _).trans ((ih.cons z).trans (List.Perm.swap x z s))

theorem set_set_perm_aux {α : Type} :
    ∀ (l : List α) (i j : Nat) (x y : α), l[i]? = some x → l[j]? = some y →
      ((l.set i y).set j x).Perm l
  | [], i, j, x, y, hi, _ => by simp at hi
  | z :: s, 0, 0, x, y, hi, hj => by
    simp at hi hj
    subst hi
    simp
  | z :: s, 0, j + 1, x, y, hi, hj => by
    simp at hi hj
    subst hi
    simpa using cons_set_perm z s j y hj
  | z :: s, i + 1, 0, x, y, hi, hj => by
    simp at hi hj
    subst hj
    simpa using cons_set_perm z s i x hi
  | z :: s, i + 1, j + 1, x, y, hi, hj => by
    simp at hi hj
    simpa using (set_set_perm_aux s i j x y hi hj).cons z

theorem swapAt_length (arr : List Customer) (a b : Int) :
    (swapAt arr a b).length = arr.length := by
  unfold swapAt
  split <;> simp

theorem swapAt_perm (arr : List Customer) (a b : Int) : (swapAt arr a b).Perm arr := by
  unfold swapAt
  split
  · rename_i x y hx hy
    unfold getAt at hx hy
    split at hx <;> [skip; simp at hx]
    split at hy <;> [skip; simp at hy]
    exact set_set_perm_aux arr _ _ x y hx hy
  · exact List.Perm.refl _

theorem getAt_isSome (arr : List Customer) (k : Int) (h0 : 0 ≤ k) (h1 : k < arr.length) :
    ∃ c, getAt arr k = some c := by
  have hk : k.toNat < arr.length := by omega
  exact ⟨arr[k.toNat], by simp [getAt, h0, List.getElem?_eq_getElem hk]⟩

theorem getAt_some_bounds {arr : List Customer} {k : Int} {c : Customer}
    (h : getAt arr k = some c) : 0 ≤ k ∧ k < arr.length := by
  unfold getAt at h
  split at h
  · rename_i h0
    have := (List.getElem?_eq_some_iff.1 h).1
    omega
  · simp at h

theorem getAt_swapAt (arr : List Customer) (a b k : Int) (x y : Customer)
    (hx : getAt arr a = some x) (hy : getAt arr b = some y) :
    getAt (swapAt arr a b) k =
      if k = b then some x else if k = a then some y else getAt arr k := by
  have ha := getAt_some_bounds hx
  have hb := getAt_some_bounds hy
  simp only [swapAt, hx, hy]
  unfold getAt
  by_cases hk : 0 ≤ k
  · simp only [hk, if_true, List.getElem?_set, List.length_set]
    by_cases hkb : k = b
    · subst hkb
      have : k.toNat < arr.length := by omega
      simp [this]
    · have h1 : ¬ b.toNat = k.toNat := by omega
      simp only [h1, if_false, hkb]
      by_cases hka : k = a
      · subst hka
        have : k.toNat < arr.length := by omega
        simp [this]
      · have h2 : ¬ a.toNat = k.toNat := by omega
        simp [h2, hka]
  · have h1 : k ≠ b := by omega
    have h2 : k ≠ a := by omega
    simp [hk, h1, h2]

theorem Shuffle.refl (low high : Int) (arr : List Customer) : Shuffle low high arr arr :=
  ⟨rfl, List.Perm.refl _, fun _ _ => rfl, fun _ h => h⟩

theorem Shuffle.trans {low high : Int} {a b c : List Customer}
    (h1 : Shuffle low high a b) (h2 : Shuffle low high b c) : Shuffle low high a c :=
  ⟨h2.length_eq.trans h1.length_eq, h2.perm.trans h1.perm,
   fun k hk => (h2.outside k hk).trans (h1.outside k hk),
   fun P hP => h2.inside P (h1.inside P hP)⟩

theorem Shuffle.mono {low high low2 high2 : Int} {a b : List Customer}
    (h : Shuffle low high a b) (hl : low2 ≤ low) (hh : high ≤ high2) :
    Shuffle low2 high2 a b := by
  refine ⟨h.length_eq, h.perm, fun k hk => h.outside k (by omega), ?_⟩
  intro P hP k c hk1 hk2 hc
  by_cases hin : low ≤ k ∧ k ≤ high
  · exact h.inside P (fun k2 c2 h1 h2 h3 => hP k2 c2 (by omega) (by omega) h3) k c hin.1 hin.2 hc
  · rw [h.outside k (by omega)] at hc
    exact hP k c hk1 hk2 hc

theorem Shuffle.swap {low high a b : Int} {arr : List Customer} {x y : Customer}
    (hx : getAt arr a = some x) (hy : getAt arr b = some y)
    (ha : low ≤ a ∧ a ≤ high) (hb : low ≤ b ∧ b ≤ high) :
    Shuffle low high arr (swapAt arr a b) := by
  refine ⟨swapAt_length _ _ _, swapAt_perm _ _ _, ?_, ?_⟩
  · intro k hk
    rw [getAt_swapAt arr a b k x y hx hy]
    have h1 : k ≠ b := by omega
    have h2 : k ≠ a := by omega
    simp [h1, h2]
  · intro P hP k c hk1 hk2 hc
    rw [getAt_swapAt arr a b k x y hx hy] at hc
    split at hc
    · rw [← Option.some.inj hc]
      exact hP a x ha.1 ha.2 hx
    · split at hc
      · rw [← Option.some.inj hc]
        exact hP b y hb.1 hb.2 hy
      · exact hP k c hk1 hk2 hc

theorem clvAt_of_getAt {arr : List Customer} {k : Int} {c : Customer}
    (h : getAt arr k = some c) : clvAt arr k = c.clv := by
  simp [clvAt, h]

/-- The index returned by the loop moves right by at most one per iteration. -/
theorem partitionLoop_index (pivot : ℚ) :
    ∀ (n : Nat) (arr : List Customer) (i j : Int),
      i ≤ (partitionLoop pivot n arr i j).2 ∧ (partitionLoop pivot n arr i j).2 ≤ i + n
  | 0, arr, i, j => by simp [partitionLoop]
  | n + 1, arr, i, j => by
    unfold partitionLoop
    split
    · have := partitionLoop_index pivot n (swapAt arr (i + 1) j) (i + 1) (j + 1)
      push_cast
      omega
    · have := partitionLoop_index pivot n arr i (j + 1)
      push_cast
      omega

/-- Loop invariant of `partition`: positions `low..i` hold entries above the
pivot, positions `i+1..j-1` entries not above it. -/
theorem partitionLoop_spec (pivot : ℚ) (low : Int) (hlow : 0 ≤ low) :
    ∀ (n : Nat) (arr : List Customer) (i j : Int),
      low - 1 ≤ i → i < j → j + n ≤ arr.length →
      RangeAll (fun c => pivot < c.clv) arr low i →
      RangeAll (fun c => c.clv ≤ pivot) arr (i + 1) (j - 1) →
      Shuffle low (j + n - 1) arr (partitionLoop pivot n arr i j).1 ∧
      RangeAll (fun c => pivot < c.clv) (partitionLoop pivot n arr i j).1 low
        (partitionLoop pivot n arr i j).2 ∧
      RangeAll (fun c => c.clv ≤ pivot) (partitionLoop pivot n arr i j).1
        ((partitionLoop pivot n arr i j).2 + 1) (j + n - 1)
  | 0, arr, i, j => by
    intro _ _ _ hA hB
    simp only [partitionLoop]
    refine ⟨Shuffle.refl _ _ _, hA, ?_⟩
    simpa using hB
  | n + 1, arr, i, j => by
    intro hi hij hlen hA hB
    push_cast at hlen
    obtain ⟨y, hy⟩ := getAt_isSome arr j (by omega) (by omega)
    obtain ⟨x, hx⟩ := getAt_isSome arr (i + 1) (by omega) (by omega)
    unfold partitionLoop
    split
    · rename_i hgt
      rw [clvAt_of_getAt hy] at hgt
      have hsw : Shuffle low (j + (n + 1 : Nat) - 1) arr (swapAt arr (i + 1) j) :=
        Shuffle.swap hx hy (by omega) (by push_cast; omega)
      have hA2 : RangeAll (fun c => pivot < c.clv) (swapAt arr (i + 1) j) low (i + 1) := by
        intro k c hk1 hk2 hc
        rw [getAt_swapAt arr (i + 1) j k x y hx hy] at hc
        split at hc
        · rename_i hkj
          have hji : j = i + 1 := by omega
          rw [hji] at hy
          rw [hx] at hy
          cases hy
          cases hc
          exact hgt
        · split at hc
          · cases hc
            exact hgt
          · exact hA k c hk1 (by omega) hc
      have hB2 : RangeAll (fun c => c.clv ≤ pivot) (swapAt arr (i + 1) j)
          (i + 1 + 1) (j + 1 - 1) := by
        intro k c hk1 hk2 hc
        rw [getAt_swapAt arr (i + 1) j k x y hx hy] at hc
        split at hc
        · rw [← Option.some.inj hc]
          exact hB (i + 1) x (by omega) (by omega) hx
        · split at hc
          · omega
          · exact hB k c (by omega) (by omega) hc
      have ih := partitionLoop_spec pivot low hlow n (swapAt arr (i + 1) j) (i + 1) (j + 1)
        (by omega) (by omega) (by rw [swapAt_length]; omega) hA2 hB2
      have e : j + 1 + (n : Int) - 1 = j + ((n + 1 : Nat) : Int) - 1 := by push_cast; omega
      rw [e] at ih
      exact ⟨hsw.trans ih.1, ih.2.1, ih.2.2⟩
    · rename_i hgt
      rw [clvAt_of_getAt hy] at hgt
      have hB2 : RangeAll (fun c => c.clv ≤ pivot) arr (i + 1) (j + 1 - 1) := by
        intro k c hk1 hk2 hc
        by_cases hkj : k = j
        · subst hkj
          rw [hy] at hc
          cases hc
          exact not_lt.1 hgt
        · exact hB k c hk1 (by omega) hc
      have ih := partitionLoop_spec pivot low hlow n arr i (j + 1)
        hi (by omega) (by omega) hA hB2
      have e : j + 1 + (n : Int) - 1 = j + ((n + 1 : Nat) : Int) - 1 := by push_cast; omega
      rw [e] at ih
      exact ih

theorem partition_index_bounds (arr : List Customer) (low high : Int) (h : low ≤ high) :
    low ≤ (partition arr low high).2 ∧ (partition arr low high).2 ≤ high := by
  have := partitionLoop_index (clvAt arr high) (high - low).toNat arr (low - 1) low
  simp only [partition]
  omega

/-- Postcondition of `partition` on a valid range: the range is rearranged
within itself, the pivot stands on the returned index, larger entries stand
before it and the others after it. -/
theorem partition_spec (arr : List Customer) (low high : Int)
    (h0 : 0 ≤ low) (hlh : low ≤ high) (hh : high < arr.length) :
    Shuffle low high arr (partition arr low high).1 ∧
    (∃ pv, getAt (partition arr low high).1 (partition arr low high).2 = some pv ∧
      RangeAll (fun c => pv.clv < c.clv) (partition arr low high).1 low
        ((partition arr low high).2 - 1) ∧
      RangeAll (fun c => c.clv ≤ pv.clv) (partition arr low high).1
        ((partition arr low high).2 + 1) high) := by
  obtain ⟨pv, hpv⟩ := getAt_isSome arr high (by omega) hh
  have hidx := partitionLoop_index (clvAt arr high) (high - low).toNat arr (low - 1) low
  have hspec := partitionLoop_spec (clvAt arr high) low h0 (high - low).toNat arr (low - 1) low
    (by omega) (by omega) (by omega)
    (fun k c h1 h2 _ => by omega) (fun k c h1 h2 _ => by omega)
  simp only [partition]
  generalize partitionLoop (clvAt arr high) (high - low).toNat arr (low - 1) low = r at hidx hspec
  obtain ⟨arr1, i1⟩ := r
  simp only at hidx hspec ⊢
  rw [clvAt_of_getAt hpv] at hspec
  have e : low + ((high - low).toNat : Int) - 1 = high - 1 := by omega
  rw [e] at hspec
  obtain ⟨hsh, hA, hB⟩ := hspec
  have hpv1 : getAt arr1 high = some pv := by rw [hsh.outside high (by omega)]; exact hpv
  obtain ⟨x, hx⟩ := getAt_isSome arr1 (i1 + 1) (by omega) (by rw [hsh.length_eq]; omega)
  have hget := fun k => getAt_swapAt arr1 (i1 + 1) high k x pv hx hpv1
  refine ⟨(hsh.mono (le_refl _) (by omega)).trans
    (Shuffle.swap hx hpv1 (by omega) (by omega)), pv, ?_, ?_, ?_⟩
  · rw [hget]
    by_cases hk : i1 + 1 = high
    · rw [hk] at hx
      rw [hx] at hpv1
      simp [hk, hpv1]
    · simp [hk]
  · intro k c hk1 hk2 hc
    rw [hget] at hc
    have h1 : k ≠ high := by omega
    have h2 : k ≠ i1 + 1 := by omega
    simp only [h1, h2, if_false] at hc
    exact hA k c hk1 (by omega) hc
  · intro k c hk1 hk2 hc
    rw [hget] at hc
    split at hc
    · rw [← Option.some.inj hc]
      exact hB (i1 + 1) x (by omega) (by omega) hx
    · have h2 : k ≠ i1 + 1 := by omega
      simp only [h2, if_false] at hc
      exact hB k c (by omega) (by omega) hc

/-- With a budget of at least the size of the range, `quicksortFuel` rearranges
the range within itself and leaves it in descending order of `clv`. -/
theorem quicksortFuel_spec :
    ∀ (fuel : Nat) (arr : List Customer) (low high : Int),
      0 ≤ low → high < arr.length → (high - low + 1).toNat ≤ fuel →
      Shuffle low high arr (quicksortFuel fuel arr low high) ∧
      SortedRange (quicksortFuel fuel arr low high) low high
  | 0, arr, low, high => by
    intro _ _ hf
    simp only [quicksortFuel]
    exact ⟨Shuffle.refl _ _ _, fun a b x y h1 h2 h3 _ _ => by omega⟩
  | fuel + 1, arr, low, high => by
    intro h0 hh hf
    unfold quicksortFuel
    split
    · rename_i hlt
      have hb := partition_index_bounds arr low high (by omega)
      obtain ⟨hsh, pv, hpv, hA, hB⟩ := partition_spec arr low high h0 (by omega) hh
      generalize partition arr low high = p at hb hsh hpv hA hB
      obtain ⟨arr0, pi⟩ := p
      simp only at hb hsh hpv hA hB ⊢
      obtain ⟨hsh1, hs1⟩ := quicksortFuel_spec fuel arr0 low (pi - 1) h0
        (by rw [hsh.length_eq]; omega) (by omega)
      generalize quicksortFuel fuel arr0 low (pi - 1) = arr1 at hsh1 hs1
      obtain ⟨hsh2, hs2⟩ := quicksortFuel_spec fuel arr1 (pi + 1) high (by omega)
        (by rw [hsh1.length_eq, hsh.length_eq]; omega) (by omega)
      generalize quicksortFuel fuel arr1 (pi + 1) high = arr2 at hsh2 hs2
      have hA1 := hsh1.inside _ hA
      have hB1 : RangeAll (fun c => c.clv ≤ pv.clv) arr1 (pi + 1) high := by
        intro k c hk1 hk2 hc
        rw [hsh1.outside k (by omega)] at hc
        exact hB k c hk1 hk2 hc
      have hB2 := hsh2.inside _ hB1
      have hpv2 : getAt arr2 pi = some pv := by
        rw [hsh2.outside pi (by omega), hsh1.outside pi (by omega)]
        exact hpv
      have hleft : ∀ k, k < pi + 1 → getAt arr2 k = getAt arr1 k :=
        fun k hk => hsh2.outside k (by omega)
      refine ⟨hsh.trans ((hsh1.mono (le_refl _) (by omega)).trans
        (hsh2.mono (by omega) (le_refl _))), ?_⟩
      intro a b x y ha hab hbh hx hy
      have hxa : a < pi → pv.clv < x.clv := fun h =>
        hA1 a x ha (by omega) (by rw [← hleft a (by omega)]; exact hx)
      have hyb : pi < b → y.clv ≤ pv.clv := fun h => hB2 b y (by omega) hbh hy
      rcases lt_trichotomy b pi with hbp | hbp | hbp
      · rw [hleft a (by omega)] at hx
        rw [hleft b (by omega)] at hy
        exact hs1 a b x y ha hab (by omega) hx hy
      · subst hbp
        rw [hpv2] at hy
        rw [← Option.some.inj hy]
        exact le_of_lt (hxa hab)
      · rcases lt_trichotomy a pi with hap | hap | hap
        · exact le_of_lt (lt_of_le_of_lt (hyb hbp) (hxa hap))
        · subst hap
          rw [hpv2] at hx
          rw [← Option.some.inj hx]
          exact hyb hbp
        · exact hs2 a b x y (by omega) hab hbh hx hy
    · exact ⟨Shuffle.refl _ _ _, fun a b x y h1 h2 h3 _ _ => by omega⟩

/-- The recursion budget is never exhausted: every budget of at least the size
of the range gives the same vector as `quicksort`. -/
theorem quicksortFuel_enough :
    ∀ (f1 f2 : Nat) (arr : List Customer) (low high : Int),
      (high - low + 1).toNat ≤ f1 → (high - low + 1).toNat ≤ f2 →
      quicksortFuel f1 arr low high = quicksortFuel f2 arr low high
  | 0, 0, arr, low, high => fun _ _ => rfl
  | 0, f2 + 1, arr, low, high => by
    intro h1 _
    have : ¬ low < high := by omega
    simp [quicksortFuel, this]
  | f1 + 1, 0, arr, low, high => by
    intro _ h2
    have : ¬ low < high := by omega
    simp [quicksortFuel, this]
  | f1 + 1, f2 + 1, arr, low, high => by
    intro h1 h2
    unfold quicksortFuel
    split
    · have hb := partition_index_bounds arr low high (by omega)
      generalize partition arr low high = p at hb
      simp only
      rw [quicksortFuel_enough f1 f2 p.1 low (p.2 - 1) (by omega) (by omega)]
      exact quicksortFuel_enough f1 f2 _ (p.2 + 1) high (by omega) (by omega)
    · rfl

/-- The recursion of the source: `quicksort` does nothing unless `low < high`,
and otherwise partitions and sorts the two sides. -/
theorem quicksort_eq (arr : List Customer) (low high : Int) :
    quicksort arr low high =
      if low < high then
        quicksort (quicksort (partition arr low high).1 low ((partition arr low high).2 - 1))
          ((partition arr low high).2 + 1) high
      else arr := by
  unfold quicksort
  split
  · rename_i hlt
    have hb := partition_index_bounds arr low high (by omega)
    obtain ⟨f, hf⟩ : ∃ f, (high - low + 1).toNat = f + 1 := ⟨(high - low).toNat, by omega⟩
    rw [hf]
    conv => lhs; unfold quicksortFuel
    simp only [hlt, if_true]
    rw [quicksortFuel_enough f _ (partition arr low high).1 low _ (by omega) (le_refl _)]
    exact quicksortFuel_enough f _ _ _ high (by omega) (le_refl _)
  · rename_i hlt
    cases h : (high - low + 1).toNat with
    | zero => rfl
    | succ f => simp [quicksortFuel, hlt]

theorem getAt_natCast (arr : List Customer) (i : Nat) : getAt arr (i : Int) = arr[i]? := by
  simp [getAt]

theorem sortedCopy_spec (customers : List Customer) :
    Shuffle 0 ((customers.length : Int) - 1) customers (sortedCopy customers) ∧
    SortedRange (sortedCopy customers) 0 ((customers.length : Int) - 1) :=
  quicksortFuel_spec _ customers 0 _ (le_refl _) (by omega) (le_refl _)

theorem sortedCopy_length (customers : List Customer) :
    (sortedCopy customers).length = customers.length :=
  (sortedCopy_spec customers).1.length_eq

theorem sortedCopy_index_sorted (customers : List Customer) (i j : Nat) (x y : Customer)
    (hij : i < j) (hx : (sortedCopy customers)[i]? = some x)
    (hy : (sortedCopy customers)[j]? = some y) : y.clv ≤ x.clv := by
  have hj := (List.getElem?_eq_some_iff.1 hy).1
  rw [sortedCopy_length] at hj
  exact (sortedCopy_spec customers).2 i j x y (by omega) (by omega) (by omega)
    (by rw [getAt_natCast]; exact hx) (by rw [getAt_natCast]; exact hy)

theorem filterMap_range_getElem_opt {α : Type} (l : List α) :
    ∀ k : Nat, (List.range k).filterMap (fun i => l[i]?) = l.take k
  | 0 => by simp
  | k + 1 => by
    rw [List.range_succ, List.filterMap_append, filterMap_range_getElem_opt l k, List.take_succ]
    cases h : l[k]? <;> simp [h]

theorem displayTopCustomers_eq_take (customers : List Customer) (n : Int) :
    displayTopCustomers customers n =
      (sortedCopy customers).take (min n (customers.length : Int)).toNat := by
  unfold displayTopCustomers
  split
  · rename_i h
    rw [List.isEmpty_iff] at h
    subst h
    have e : sortedCopy [] = [] := List.eq_nil_of_length_eq_zero (sortedCopy_length [])
    simp [e]
  · simp only [filterMap_range_getElem_opt, sortedCopy_length]

/-- C3, refuted as stated: the sort is not stable. In `tiedStore` the two
customers have equal `clv` and `t1` precedes `t2`, yet the sorted copy is
`[t2, t1]`, where `t1` does not precede `t2`. -/
theorem quicksort_not_stable :
    ¬ ∀ (customers : List Customer) (a b : Customer), a.clv = b.clv →
      Precedes a b customers → Precedes a b (sortedCopy customers) := by
  intro h
  have hs : sortedCopy tiedStore =
      [⟨"t2", "Eve", 1, 1, 1, 1⟩, ⟨"t1", "Dan", 1, 1, 1, 1⟩] := by decide
  obtain ⟨i, j, hij, hi, hj⟩ := h tiedStore ⟨"t1", "Dan", 1, 1, 1, 1⟩ ⟨"t2", "Eve", 1, 1, 1, 1⟩
    rfl ⟨0, 1, by decide, rfl, rfl⟩
  rw [hs] at hi hj
  match i, j, hij, hi, hj with
  | 0, _, _, hi, _ => simp at hi
  | 1, 0, hij, _, _ => omega
  | 1, 1, hij, _, _ => omega
  | 1, j + 2, _, _, hj => simp at hj
  | i + 2, _, _, hi, _ => simp at hi

/-- C3, amended: the sort orders by value only. In the sorted copy, an entry
with a strictly larger `clv` always stands before an entry with a strictly
smaller one, whatever their input order; entries of equal `clv` are not kept in
input order. -/
theorem sortedCopy_strict_order (customers : List Customer) (i j : Nat) (x y : Customer)
    (hx : (sortedCopy customers)[i]? = some x) (hy : (sortedCopy customers)[j]? = some y)
    (hlt : y.clv < x.clv) : i < j := by
  rcases lt_trichotomy i j with h | h | h
  · exact h
  · subst h
    rw [hx] at hy
    rw [Option.some.inj hy] at hlt
    exact absurd hlt (lt_irrefl _)
  · exact absurd hlt (not_lt.2 (sortedCopy_index_sorted customers j i y x h hy hx))

theorem sortedCopy_strict_order_witness :
    (sortedCopy sampleStore)[0]? = some ⟨"c2", "Bob", 3, 1, 1, 3⟩ ∧
    (sortedCopy sampleStore)[2]? = some ⟨"c1", "Alice", 1, 1, 1, 1⟩ ∧
    (1 : ℚ) < 3 ∧ 0 < 2 :=
  ⟨by decide, by decide, by decide,
   sortedCopy_strict_order sampleStore 0 2 ⟨"c2", "Bob", 3, 1, 1, 3⟩ ⟨"c1", "Alice", 1, 1, 1, 1⟩
     (by decide) (by decide) (by decide)⟩

/-- C4: for every non-empty store and every `n ≥ 0`, `displayTopCustomers(n)`
reports exactly `min(n, |customers|)` entries, they are the first
`min(n, |customers|)` entries of the quicksorted copy, and for
`n ≥ |customers|` the report is the whole sorted copy, every customer of the
store once. -/
theorem displayTopCustomers_count (customers : List Customer) (n : Int)
    (_hne : customers ≠ []) (_hn : 0 ≤ n) :
    (displayTopCustomers customers n).length = (min n (customers.length : Int)).toNat ∧
    displayTopCustomers customers n =
      (sortedCopy customers).take (min n (customers.length : Int)).toNat ∧
    ((customers.length : Int) ≤ n →
      displayTopCustomers customers n = sortedCopy customers ∧
      (displayTopCustomers customers n).Perm customers) := by
  rw [displayTopCustomers_eq_take]
  refine ⟨?_, rfl, fun h => ?_⟩
  · rw [List.length_take, sortedCopy_length]
    omega
  · have e : (sortedCopy customers).take (min n (customers.length : Int)).toNat =
        sortedCopy customers := by
      apply List.take_of_length_le
      rw [sortedCopy_length]
      omega
    rw [e]
    exact ⟨rfl, (sortedCopy_spec customers).1.perm⟩

theorem displayTopCustomers_count_witness :
    sampleStore ≠ [] ∧ (0 : Int) ≤ 2 ∧
    ((displayTopCustomers sampleStore 2).length = (min (2 : Int) (sampleStore.length : Int)).toNat ∧
    displayTopCustomers sampleStore 2 =
      (sortedCopy sampleStore).take (min (2 : Int) (sampleStore.length : Int)).toNat ∧
    ((sampleStore.length : Int) ≤ 2 →
      displayTopCustomers sampleStore 2 = sortedCopy sampleStore ∧
      (displayTopCustomers sampleStore 2).Perm sampleStore)) :=
  ⟨by decide, by decide, displayTopCustomers_count sampleStore 2 (by decide) (by decide)⟩

/-! ### Customer store: `addCustomer` -/

theorem idExists_iff (id : String) :
    ∀ customers : List Customer, idExists id customers = true ↔ ∃ c ∈ customers, c.id = id
  | [] => by simp [idExists]
  | customer :: rest => by
    unfold idExists
    by_cases h : customer.id = id
    · simp [h]
    · simp [h, idExists_iff id rest]

/-- The three outcomes of `addCustomer`. -/
theorem addCustomer_cases (customers : List Customer) (id name : String) (a f l : ℚ) :
    (addCustomer customers id name a f l = customers ∧
      (idExists id customers = true ∨ a ≤ 0 ∨ f ≤ 0 ∨ l ≤ 0)) ∨
    (addCustomer customers id name a f l = customers ++ [⟨id, name, a, f, l, a * f * l⟩] ∧
      idExists id customers = false ∧ 0 < a ∧ 0 < f ∧ 0 < l) := by
  unfold addCustomer
  by_cases h1 : idExists id customers = true
  · simp [h1]
  · by_cases h2 : a ≤ 0 ∨ f ≤ 0 ∨ l ≤ 0
    · simp [h1, h2]
    · right
      have h3 := h2
      push_neg at h3
      refine ⟨?_, Bool.eq_false_iff.2 h1, h3.1, h3.2.1, h3.2.2⟩
      simp only [h1, h2, if_false]
      rfl

/-- A property of stores that holds of the start store and is kept by every
`addCustomer` call holds after any sequence of calls. -/
theorem addAll_induction (P : List Customer → Prop)
    (hstep : ∀ s id name a f l, P s → P (addCustomer s id name a f l)) :
    ∀ (calls : List AddCall) (s : List Customer), P s → P (addAll s calls)
  | [], s, h => h
  | c :: rest, s, h => by
    simp only [addAll, List.foldl_cons]
    exact addAll_induction P hstep rest _ (hstep s _ _ _ _ _ h)

/-- C5: when some customer of the store already has the id, `addCustomer`
returns the store unchanged (same customers, same order, every field), whatever
the name and the three numeric inputs are. -/
theorem addCustomer_duplicate_id (customers : List Customer) (id name : String) (a f l : ℚ)
    (hdup : ∃ c ∈ customers, c.id = id) :
    addCustomer customers id name a f l = customers := by
  have h := (idExists_iff id customers).2 hdup
  simp [addCustomer, h]

theorem addCustomer_duplicate_id_witness :
    (∃ c ∈ aliceStore, c.id = "c1") ∧
    addCustomer aliceStore "c1" "Mallory" 5 5 5 = aliceStore :=
  ⟨⟨⟨"c1", "Alice", 100, 4, 2, 800⟩, by simp [aliceStore], rfl⟩,
   addCustomer_duplicate_id aliceStore "c1" "Mallory" 5 5 5
     ⟨⟨"c1", "Alice", 100, 4, 2, 800⟩, by simp [aliceStore], rfl⟩⟩

/-- C6: in every store built from the empty store by a sequence of
`addCustomer` calls, customers on two different positions have different
ids. -/
theorem addAll_ids_unique (calls : List AddCall) :
    (addAll [] calls).Pairwise (fun c d => c.id ≠ d.id) ∧
    ((addAll [] calls).map (fun c => c.id)).Nodup := by
  have h : (addAll [] calls).Pairwise (fun c d => c.id ≠ d.id) := by
    apply addAll_induction (fun s => s.Pairwise (fun c d => c.id ≠ d.id))
    · intro s id name a f l hs
      rcases addCustomer_cases s id name a f l with ⟨e, _⟩ | ⟨e, hid, _⟩
      · rw [e]; exact hs
      · rw [e, List.pairwise_append]
        refine ⟨hs, List.pairwise_singleton _ _, ?_⟩
        intro c hc d hd
        rw [List.mem_singleton] at hd
        subst hd
        intro hcd
        have := (idExists_iff id s).2 ⟨c, hc, hcd⟩
        rw [hid] at this
        cases this
    · exact List.Pairwise.nil
  exact ⟨h, by rw [List.Nodup, List.pairwise_map]; exact h⟩

/-- C8: `addCustomer(id, name, a, f, l)` changes the store if and only if no
stored customer has that id and `a`, `f`, `l` are all positive; when it does,
the new store is the old one with the single customer
`(id, name, a, f, l, clv = a*f*l)` appended at the end; when one of `a`, `f`,
`l` is not positive the store is unchanged. -/
theorem addCustomer_changes_iff (customers : List Customer) (id name : String) (a f l : ℚ) :
    (addCustomer customers id name a f l ≠ customers ↔
      (¬ ∃ c ∈ customers, c.id = id) ∧ 0 < a ∧ 0 < f ∧ 0 < l) ∧
    (addCustomer customers id name a f l ≠ customers →
      addCustomer customers id name a f l =
        customers ++ [⟨id, name, a, f, l, a * f * l⟩]) ∧
    (a ≤ 0 ∨ f ≤ 0 ∨ l ≤ 0 → addCustomer customers id name a f l = customers) := by
  rcases addCustomer_cases customers id name a f l with ⟨e, h⟩ | ⟨e, hid, ha, hf, hl⟩
  · refine ⟨⟨fun hne => absurd e hne, fun ⟨h1, h2, h3, h4⟩ => ?_⟩,
      fun hne => absurd e hne, fun _ => e⟩
    rcases h with h | h | h | h
    · exact absurd ((idExists_iff id customers).1 h) h1
    · exact absurd h2 (not_lt.2 h)
    · exact absurd h3 (not_lt.2 h)
    · exact absurd h4 (not_lt.2 h)
  · have hno : ¬ ∃ c ∈ customers, c.id = id := by
      intro hex
      have := (idExists_iff id customers).2 hex
      rw [hid] at this
      cases this
    have hne : addCustomer customers id name a f l ≠ customers := by
      rw [e]
      intro h
      have := congrArg List.length h
      simp at this
    refine ⟨⟨fun _ => ⟨hno, ha, hf, hl⟩, fun _ => hne⟩, fun _ => e, fun h => ?_⟩
    rcases h with h | h | h
    · exact absurd ha (not_lt.2 h)
    · exact absurd hf (not_lt.2 h)
    · exact absurd hl (not_lt.2 h)

/-! ### Summary statistics: `displayAnalytics` -/

/-- What the loop of `displayAnalytics` leaves in its three accumulators. -/
theorem analyticsLoop_spec :
    ∀ (l : List Customer) (t h lo : ℚ),
      (analyticsLoop l (t, h, lo)).1 = t + (l.map (fun c => c.clv)).sum ∧
      (h ≤ (analyticsLoop l (t, h, lo)).2.1 ∧
        (∀ c ∈ l, c.clv ≤ (analyticsLoop l (t, h, lo)).2.1) ∧
        ((analyticsLoop l (t, h, lo)).2.1 = h ∨
          ∃ c ∈ l, c.clv = (analyticsLoop l (t, h, lo)).2.1)) ∧
      ((analyticsLoop l (t, h, lo)).2.2 ≤ lo ∧
        (∀ c ∈ l, (analyticsLoop l (t, h, lo)).2.2 ≤ c.clv) ∧
        ((analyticsLoop l (t, h, lo)).2.2 = lo ∨
          ∃ c ∈ l, c.clv = (analyticsLoop l (t, h, lo)).2.2))
  | [], t, h, lo => by simp [analyticsLoop]
  | customer :: rest, t, h, lo => by
    simp only [analyticsLoop]
    obtain ⟨h1, ⟨h2, h3, h4⟩, h5, h6, h7⟩ := analyticsLoop_spec rest (t + customer.clv)
      (if customer.clv > h then customer.clv else h)
      (if customer.clv < lo then customer.clv else lo)
    generalize analyticsLoop rest (t + customer.clv,
      if customer.clv > h then customer.clv else h,
      if customer.clv < lo then customer.clv else lo) = r at h1 h2 h3 h4 h5 h6 h7
    have hmax : h ≤ (if customer.clv > h then customer.clv else h) ∧
        customer.clv ≤ (if customer.clv > h then customer.clv else h) := by
      split
      · rename_i hgt; exact ⟨le_of_lt hgt, le_refl _⟩
      · rename_i hgt; exact ⟨le_refl _, not_lt.1 hgt⟩
    have hmin : (if customer.clv < lo then customer.clv else lo) ≤ lo ∧
        (if customer.clv < lo then customer.clv else lo) ≤ customer.clv := by
      split
      · rename_i hlt; exact ⟨le_of_lt hlt, le_refl _⟩
      · rename_i hlt; exact ⟨le_refl _, not_lt.1 hlt⟩
    refine ⟨?_, ⟨le_trans hmax.1 h2, ?_, ?_⟩, le_trans h5 hmin.1, ?_, ?_⟩
    · rw [h1, List.map_cons, List.sum_cons]; ring
    · intro c hc
      rcases List.mem_cons.1 hc with hc | hc
      · rw [hc]; exact le_trans hmax.2 h2
      · exact h3 c hc
    · rcases h4 with h4 | ⟨c, hc, hce⟩
      · by_cases hgt : customer.clv > h
        · right
          exact ⟨customer, List.mem_cons_self _ _, by rw [h4, if_pos hgt]⟩
        · left
          rw [h4, if_neg hgt]
      · exact Or.inr ⟨c, List.mem_cons_of_mem _ hc, hce⟩
    · intro c hc
      rcases List.mem_cons.1 hc with hc | hc
      · rw [hc]; exact le_trans h5 hmin.2
      · exact h6 c hc
    · rcases h7 with h7 | ⟨c, hc, hce⟩
      · by_cases hlt : customer.clv < lo
        · right
          exact ⟨customer, List.mem_cons_self _ _, by rw [h7, if_pos hlt]⟩
        · left
          rw [h7, if_neg hlt]
      · exact Or.inr ⟨c, List.mem_cons_of_mem _ hc, hce⟩

/-- C9: for every non-empty store whose `clv` values are all positive,
`displayAnalytics` computes a summary with count `|customers|`, total the sum
of all `clv`, average `total / count`, highest the maximum `clv` (attained by a
customer, and no customer above it) and lowest the minimum `clv`. -/
theorem displayAnalytics_summary (customers : List Customer) (hne : customers ≠ [])
    (hpos : ∀ c ∈ customers, 0 < c.clv) :
    ∃ s, displayAnalytics customers = some s ∧
      s.totalCustomers = customers.length ∧
      s.totalCLV = (customers.map (fun c => c.clv)).sum ∧
      s.averageCLV = s.totalCLV / (s.totalCustomers : ℚ) ∧
      ((∃ c ∈ customers, c.clv = s.highestCLV) ∧ ∀ c ∈ customers, c.clv ≤ s.highestCLV) ∧
      ((∃ c ∈ customers, c.clv = s.lowestCLV) ∧ ∀ c ∈ customers, s.lowestCLV ≤ c.clv) := by
  match customers, hne, hpos with
  | first :: rest, _, hpos =>
    obtain ⟨h1, ⟨h2, h3, h4⟩, h5, h6, h7⟩ := analyticsLoop_spec (first :: rest) 0 0 first.clv
    refine ⟨_, rfl, rfl, ?_, rfl, ⟨?_, h3⟩, ?_, h6⟩
    · simp only [h1, zero_add]
    · rcases h4 with h4 | h4
      · have := h3 first (List.mem_cons_self _ _)
        rw [h4] at this
        exact absurd (hpos first (List.mem_cons_self _ _)) (not_lt.2 this)
      · exact h4
    · rcases h7 with h7 | h7
      · exact ⟨first, List.mem_cons_self _ _, h7.symm⟩
      · exact h7

theorem displayAnalytics_summary_witness :
    sampleStore ≠ [] ∧ (∀ c ∈ sampleStore, 0 < c.clv) ∧
    ∃ s, displayAnalytics sampleStore = some s ∧
      s.totalCustomers = sampleStore.length ∧
      s.totalCLV = (sampleStore.map (fun c => c.clv)).sum ∧
      s.averageCLV = s.totalCLV / (s.totalCustomers : ℚ) ∧
      ((∃ c ∈ sampleStore, c.clv = s.highestCLV) ∧ ∀ c ∈ sampleStore, c.clv ≤ s.highestCLV) ∧
      ((∃ c ∈ sampleStore, c.clv = s.lowestCLV) ∧ ∀ c ∈ sampleStore, s.lowestCLV ≤ c.clv) :=
  ⟨by decide, by decide, displayAnalytics_summary sampleStore (by decide) (by decide)⟩

end CLV

/-! ## Event store: `getRecentEvents` -/

/-- The copy loop appends the `n` stored records from position `i` on. -/
theorem recentLoop_eq {α : Type} (authEvents : List α) :
    ∀ (n i : Nat) (recent : List α), i + n ≤ authEvents.length →
      recentLoop authEvents n i recent = recent ++ (authEvents.drop i).take n
  | 0, i, recent, _ => by simp [recentLoop]
  | n + 1, i, recent, h => by
    have hi : i < authEvents.length := by omega
    have hd : authEvents.drop i = authEvents[i] :: authEvents.drop (i + 1) :=
      List.drop_eq_getElem_cons hi
    simp only [recentLoop, List.getElem?_eq_getElem hi]
    rw [recentLoop_eq authEvents n (i + 1) _ (by omega), hd, List.take_succ_cons,
      List.append_assoc, List.singleton_append]

/-- With a limit `≥ 0` the start index and the loop give the stored sequence
without its first `size - limit` records. -/
theorem recentLoop_window {α : Type} (authEvents : List α) (limit : Int) (h : 0 ≤ limit) :
    recentLoop authEvents
        (authEvents.length - (max 0 ((authEvents.length : Int) - limit)).toNat)
        (max 0 ((authEvents.length : Int) - limit)).toNat [] =
      authEvents.drop (authEvents.length - limit.toNat) := by
  have e : (max 0 ((authEvents.length : Int) - limit)).toNat =
      authEvents.length - limit.toNat := by omega
  rw [e, recentLoop_eq authEvents _ _ [] (by omega)]
  simp

/-- C10: for every event store of `m` records and every limit `n ≥ 0`,
`getRecentEvents(n)` (both loggers) returns all `m` records in insertion order
when `m < n`, and when `m ≥ n` exactly the last `n` records in insertion order:
the stored sequence without its first `m - n` records, a suffix of length
`n`. -/
theorem getRecentEvents_window (n : Int) (hn : 0 ≤ n) :
    (∀ authEvents : List SimpleAuthEvent,
      ((authEvents.length : Int) < n →
        SimpleAuthLogger.getRecentEvents authEvents n = authEvents) ∧
      (n ≤ (authEvents.length : Int) →
        SimpleAuthLogger.getRecentEvents authEvents n =
          authEvents.drop (authEvents.length - n.toNat) ∧
        (SimpleAuthLogger.getRecentEvents authEvents n).length = n.toNat ∧
        List.IsSuffix (SimpleAuthLogger.getRecentEvents authEvents n) authEvents)) ∧
    (∀ authEvents : List AuthEvent,
      ((authEvents.length : Int) < n →
        AuthLogger.getRecentEvents authEvents n = authEvents) ∧
      (n ≤ (authEvents.length : Int) →
        AuthLogger.getRecentEvents authEvents n =
          authEvents.drop (authEvents.length - n.toNat) ∧
        (AuthLogger.getRecentEvents authEvents n).length = n.toNat ∧
        List.IsSuffix (AuthLogger.getRecentEvents authEvents n) authEvents)) := by
  constructor
  · intro authEvents
    have e : SimpleAuthLogger.getRecentEvents authEvents n =
        authEvents.drop (authEvents.length - n.toNat) := recentLoop_window authEvents n hn
    rw [e]
    refine ⟨fun h => ?_, fun h => ⟨rfl, ?_, List.drop_suffix _ _⟩⟩
    · have : authEvents.length - n.toNat = 0 := by omega
      rw [this, List.drop_zero]
    · rw [List.length_drop]; omega
  · intro authEvents
    have e : AuthLogger.getRecentEvents authEvents n =
        authEvents.drop (authEvents.length - n.toNat) := recentLoop_window authEvents n hn
    rw [e]
    refine ⟨fun h => ?_, fun h => ⟨rfl, ?_, List.drop_suffix _ _⟩⟩
    · have : authEvents.length - n.toNat = 0 := by omega
      rw [this, List.drop_zero]
    · rw [List.length_drop]; omega

theorem getRecentEvents_window_witness :
    (0 : Int) ≤ 2 ∧ (2 : Int) ≤ (sampleEvents.length : Int) ∧
    (SimpleAuthLogger.getRecentEvents sampleEvents 2 =
        sampleEvents.drop (sampleEvents.length - (2 : Int).toNat) ∧
      (SimpleAuthLogger.getRecentEvents sampleEvents 2).length = (2 : Int).toNat ∧
      List.IsSuffix (SimpleAuthLogger.getRecentEvents sampleEvents 2) sampleEvents) :=
  ⟨by decide, by decide,
   ((getRecentEvents_window 2 (by decide)).1 sampleEvents).2 (by decide)⟩

/-! ## Event store: statistics -/

theorem setInsert_nodup (s : List String) (x : String) (h : s.Nodup) : (setInsert s x).Nodup := by
  unfold setInsert
  split
  · exact h
  · rename_i hx
    rw [List.nodup_append]
    exact ⟨h, List.nodup_singleton x, by
      intro a ha hb
      rw [List.mem_singleton] at hb
      subst hb
      exact hx ha⟩

theorem mem_setInsert (s : List String) (x y : String) :
    y ∈ setInsert s x ↔ y ∈ s ∨ y = x := by
  unfold setInsert
  split
  · rename_i hx
    constructor
    · exact Or.inl
    · rintro (h | h)
      · exact h
      · rw [h]; exact hx
  · simp

/-- The counters of one loop iteration. -/
theorem statsStep_fields (st : StatsState) (t p d u : String) :
    (statsStep st t p d u).signups = st.signups + (if t = "signup" then 1 else 0) ∧
    (statsStep st t p d u).logins = st.logins + (if t = "login" then 1 else 0) ∧
    (statsStep st t p d u).googleAuth = st.googleAuth + (if p = "google" then 1 else 0) ∧
    (statsStep st t p d u).emailAuth = st.emailAuth + (if p = "email" then 1 else 0) ∧
    (statsStep st t p d u).mobileUsers = st.mobileUsers + (if d = "mobile" then 1 else 0) ∧
    (statsStep st t p d u).desktopUsers = st.desktopUsers + (if d = "desktop" then 1 else 0) ∧
    (statsStep st t p d u).uniqueUsers = setInsert st.uniqueUsers u := by
  have h1 : ("signup" : String) ≠ "login" := by decide
  have h2 : ("google" : String) ≠ "email" := by decide
  have h3 : ("mobile" : String) ≠ "desktop" := by decide
  unfold statsStep
  refine ⟨?_, ?_, ?_, ?_, ?_, ?_, ?_⟩
  · by_cases a : t = "signup" <;> by_cases b : t = "login" <;>
      by_cases c : p = "google" <;> by_cases e : p = "email" <;>
      by_cases f : d = "mobile" <;> by_cases g : d = "desktop" <;> simp [a, b, c, e, f, g]
  · by_cases a : t = "signup"
    · subst a
      by_cases c : p = "google" <;> by_cases e : p = "email" <;>
        by_cases f : d = "mobile" <;> by_cases g : d = "desktop" <;> simp [h1, c, e, f, g]
    · by_cases b : t = "login" <;>
        by_cases c : p = "google" <;> by_cases e : p = "email" <;>
        by_cases f : d = "mobile" <;> by_cases g : d = "desktop" <;> simp [a, b, c, e, f, g]
  · by_cases a : t = "signup" <;> by_cases b : t = "login" <;>
      by_cases c : p = "google" <;> by_cases e : p = "email" <;>
      by_cases f : d = "mobile" <;> by_cases g : d = "desktop" <;> simp [a, b, c, e, f, g]
  · by_cases c : p = "google"
    · subst c
      by_cases a : t = "signup" <;> by_cases b : t = "login" <;>
        by_cases f : d = "mobile" <;> by_cases g : d = "desktop" <;> simp [h2, a, b, f, g]
    · by_cases a : t = "signup" <;> by_cases b : t = "login" <;>
        by_cases e : p = "email" <;>
        by_cases f : d = "mobile" <;> by_cases g : d = "desktop" <;> simp [a, b, c, e, f, g]
  · by_cases a : t = "signup" <;> by_cases b : t = "login" <;>
      by_cases c : p = "google" <;> by_cases e : p = "email" <;>
      by_cases f : d = "mobile" <;> by_cases g : d = "desktop" <;> simp [a, b, c, e, f, g]
  · by_cases f : d = "mobile"
    · subst f
      by_cases a : t = "signup" <;> by_cases b : t = "login" <;>
        by_cases c : p = "google" <;> by_cases e : p = "email" <;> simp [h3, a, b, c, e]
    · by_cases a : t = "signup" <;> by_cases b : t = "login" <;>
        by_cases c : p = "google" <;> by_cases e : p = "email" <;>
        by_cases g : d = "desktop" <;> simp [a, b, c, e, f, g]
  · by_cases a : t = "signup" <;> by_cases b : t = "login" <;>
      by_cases c : p = "google" <;> by_cases e : p = "email" <;>
      by_cases f : d = "mobile" <;> by_cases g : d = "desktop" <;> simp [a, b, c, e, f, g]

/-- What the loop of `getAuthStatisticsJson` leaves in its counters and in its
set of user ids. -/
theorem statsLoop_spec {α : Type} (ft fp fd fu : α → String) :
    ∀ (l : List α) (st : StatsState),
      (statsLoop ft fp fd fu l st).signups = st.signups + l.countP (fun e => ft e = "signup") ∧
      (statsLoop ft fp fd fu l st).logins = st.logins + l.countP (fun e => ft e = "login") ∧
      (statsLoop ft fp fd fu l st).googleAuth =
        st.googleAuth + l.countP (fun e => fp e = "google") ∧
      (statsLoop ft fp fd fu l st).emailAuth = st.emailAuth + l.countP (fun e => fp e = "email") ∧
      (statsLoop ft fp fd fu l st).mobileUsers =
        st.mobileUsers + l.countP (fun e => fd e = "mobile") ∧
      (statsLoop ft fp fd fu l st).desktopUsers =
        st.desktopUsers + l.countP (fun e => fd e = "desktop") ∧
      (st.uniqueUsers.Nodup → (statsLoop ft fp fd fu l st).uniqueUsers.Nodup) ∧
      (∀ u, u ∈ (statsLoop ft fp fd fu l st).uniqueUsers ↔
        u ∈ st.uniqueUsers ∨ u ∈ l.map fu)
  | [], st => by simp [statsLoop]
  | e :: rest, st => by
    obtain ⟨h1, h2, h3, h4, h5, h6, h7⟩ := statsStep_fields st (ft e) (fp e) (fd e) (fu e)
    obtain ⟨i1, i2, i3, i4, i5, i6, i7, i8⟩ := statsLoop_spec ft fp fd fu rest
      (statsStep st (ft e) (fp e) (fd e) (fu e))
    simp only [statsLoop, List.countP_cons, decide_eq_true_eq]
    refine ⟨by omega, by omega, by omega, by omega, by omega, by omega, ?_, ?_⟩
    · intro hn
      exact i7 (by rw [h7]; exact setInsert_nodup _ _ hn)
    · intro u
      rw [i8 u, h7, mem_setInsert, List.map_cons, List.mem_cons]
      tauto

/-- The numbers of `getAuthStatisticsJson` as counts over the stored events. -/
theorem authStatistics_counts {α : Type} (ft fp fd fu : α → String) (l : List α) :
    (authStatistics ft fp fd fu l).totalEvents = l.length ∧
    (authStatistics ft fp fd fu l).signups = l.countP (fun e => ft e = "signup") ∧
    (authStatistics ft fp fd fu l).logins = l.countP (fun e => ft e = "login") ∧
    (authStatistics ft fp fd fu l).googleAuth = l.countP (fun e => fp e = "google") ∧
    (authStatistics ft fp fd fu l).emailAuth = l.countP (fun e => fp e = "email") ∧
    (authStatistics ft fp fd fu l).mobileUsers = l.countP (fun e => fd e = "mobile") ∧
    (authStatistics ft fp fd fu l).desktopUsers = l.countP (fun e => fd e = "desktop") ∧
    (authStatistics ft fp fd fu l).uniqueUsers = (l.map fu).toFinset.card := by
  have h := statsLoop_spec ft fp fd fu l
    { signups := 0, logins := 0, googleAuth := 0, emailAuth := 0, mobileUsers := 0,
      desktopUsers := 0, uniqueUsers := [] }
  simp only [Nat.zero_add, List.not_mem_nil, false_or] at h
  obtain ⟨i1, i2, i3, i4, i5, i6, i7, i8⟩ := h
  refine ⟨rfl, i1, i2, i3, i4, i5, i6, ?_⟩
  show (statsLoop ft fp fd fu l _).uniqueUsers.length = _
  rw [← List.toFinset_card_of_nodup (i7 List.nodup_nil)]
  congr 1
  ext u
  rw [List.mem_toFinset, List.mem_toFinset]
  exact i8 u

/-- The two counters of a pairing never exceed the number of events together;
when they reach it every event falls in one of the two buckets. -/
theorem countP_pair_le {α : Type} (f : α → String) (a b : String) (hab : a ≠ b) :
    ∀ l : List α,
      l.countP (fun e => f e = a) + l.countP (fun e => f e = b) ≤ l.length ∧
      (l.countP (fun e => f e = a) + l.countP (fun e => f e = b) = l.length →
        ∀ e ∈ l, f e = a ∨ f e = b)
  | [] => by simp
  | x :: rest => by
    obtain ⟨h1, h2⟩ := countP_pair_le f a b hab rest
    simp only [List.countP_cons, decide_eq_true_eq, List.length_cons, List.mem_cons]
    by_cases ha : f x = a
    · have hb : ¬ f x = b := fun h => hab (ha.symm.trans h)
      rw [if_pos ha, if_neg hb]
      refine ⟨by omega, fun heq e he => ?_⟩
      rcases he with he | he
      · rw [he]; exact Or.inl ha
      · exact h2 (by omega) e he
    · by_cases hb : f x = b
      · rw [if_neg ha, if_pos hb]
        refine ⟨by omega, fun heq e he => ?_⟩
        rcases he with he | he
        · rw [he]; exact Or.inr hb
        · exact h2 (by omega) e he
      · rw [if_neg ha, if_neg hb]
        exact ⟨by omega, fun heq => by omega⟩

/-- C11: for every sequence of stored events (either logger),
`getAuthStatisticsJson` reports `totalEvents` = the number of events, `signups`
and `logins` = the number of events whose `eventType` is exactly `"signup"` and
`"login"`, `googleAuth` and `emailAuth` = the number whose `provider` is exactly
`"google"` and `"email"`, `mobileUsers` and `desktopUsers` = the number whose
`deviceType` is exactly `"mobile"` and `"desktop"`, and `uniqueUsers` = the
number of distinct `userId` values; so an event with any other value of a field
adds one to `totalEvents` and nothing to the two buckets of that field. -/
theorem getAuthStatisticsJson_counts :
    (∀ l : List SimpleAuthEvent,
      (SimpleAuthLogger.getAuthStatisticsJson l).totalEvents = l.length ∧
      (SimpleAuthLogger.getAuthStatisticsJson l).signups =
        l.countP (fun e => e.eventType = "signup") ∧
      (SimpleAuthLogger.getAuthStatisticsJson l).logins =
        l.countP (fun e => e.eventType = "login") ∧
      (SimpleAuthLogger.getAuthStatisticsJson l).googleAuth =
        l.countP (fun e => e.provider = "google") ∧
      (SimpleAuthLogger.getAuthStatisticsJson l).emailAuth =
        l.countP (fun e => e.provider = "email") ∧
      (SimpleAuthLogger.getAuthStatisticsJson l).mobileUsers =
        l.countP (fun e => e.deviceType = "mobile") ∧
      (SimpleAuthLogger.getAuthStatisticsJson l).desktopUsers =
        l.countP (fun e => e.deviceType = "desktop") ∧
      (SimpleAuthLogger.getAuthStatisticsJson l).uniqueUsers =
        (l.map (fun e => e.userId)).toFinset.card) ∧
    (∀ l : List AuthEvent,
      (AuthLogger.getAuthStatisticsJson l).totalEvents = l.length ∧
      (AuthLogger.getAuthStatisticsJson l).signups =
        l.countP (fun e => e.eventType = "signup") ∧
      (AuthLogger.getAuthStatisticsJson l).logins =
        l.countP (fun e => e.eventType = "login") ∧
      (AuthLogger.getAuthStatisticsJson l).googleAuth =
        l.countP (fun e => e.provider = "google") ∧
      (AuthLogger.getAuthStatisticsJson l).emailAuth =
        l.countP (fun e => e.provider = "email") ∧
      (AuthLogger.getAuthStatisticsJson l).mobileUsers =
        l.countP (fun e => e.deviceType = "mobile") ∧
      (AuthLogger.getAuthStatisticsJson l).desktopUsers =
        l.countP (fun e => e.deviceType = "desktop") ∧
      (AuthLogger.getAuthStatisticsJson l).uniqueUsers =
        (l.map (fun e => e.userId)).toFinset.card) ∧
    (∀ (l : List SimpleAuthEvent) (e : SimpleAuthEvent),
      (SimpleAuthLogger.getAuthStatisticsJson (l ++ [e])).totalEvents =
        (SimpleAuthLogger.getAuthStatisticsJson l).totalEvents + 1 ∧
      (e.eventType ≠ "signup" → e.eventType ≠ "login" →
        (SimpleAuthLogger.getAuthStatisticsJson (l ++ [e])).signups =
          (SimpleAuthLogger.getAuthStatisticsJson l).signups ∧
        (SimpleAuthLogger.getAuthStatisticsJson (l ++ [e])).logins =
          (SimpleAuthLogger.getAuthStatisticsJson l).logins) ∧
      (e.provider ≠ "google" → e.provider ≠ "email" →
        (SimpleAuthLogger.getAuthStatisticsJson (l ++ [e])).googleAuth =
          (SimpleAuthLogger.getAuthStatisticsJson l).googleAuth ∧
        (SimpleAuthLogger.getAuthStatisticsJson (l ++ [e])).emailAuth =
          (SimpleAuthLogger.getAuthStatisticsJson l).emailAuth) ∧
      (e.deviceType ≠ "mobile" → e.deviceType ≠ "desktop" →
        (SimpleAuthLogger.getAuthStatisticsJson (l ++ [e])).mobileUsers =
          (SimpleAuthLogger.getAuthStatisticsJson l).mobileUsers ∧
        (SimpleAuthLogger.getAuthStatisticsJson (l ++ [e])).desktopUsers =
          (SimpleAuthLogger.getAuthStatisticsJson l).desktopUsers)) := by
  refine ⟨fun l => authStatistics_counts _ _ _ _ l, fun l => authStatistics_counts _ _ _ _ l,
    fun l e => ?_⟩
  obtain ⟨a0, a1, a2, a3, a4, a5, a6, _⟩ := authStatistics_counts (fun e : SimpleAuthEvent =>
    e.eventType) (fun e => e.provider) (fun e => e.deviceType) (fun e => e.userId) l
  obtain ⟨b0, b1, b2, b3, b4, b5, b6, _⟩ := authStatistics_counts (fun e : SimpleAuthEvent =>
    e.eventType) (fun e => e.provider) (fun e => e.deviceType) (fun e => e.userId) (l ++ [e])
  simp only [SimpleAuthLogger.getAuthStatisticsJson]
  rw [a0, a1, a2, a3, a4, a5, a6, b0, b1, b2, b3, b4, b5, b6]
  simp only [List.countP_append, List.countP_cons, List.countP_nil, decide_eq_true_eq,
    List.length_append, List.length_singleton]
  refine ⟨trivial, fun h1 h2 => ?_, fun h1 h2 => ?_, fun h1 h2 => ?_⟩ <;> simp [h1, h2]

/-- C12: for every sequence of stored events the statistics satisfy
`signups + logins ≤ totalEvents`, with equality only if every event has
`eventType` `"signup"` or `"login"`, and `uniqueUsers ≤ totalEvents`. -/
theorem getAuthStatisticsJson_bounds (l : List SimpleAuthEvent) :
    (SimpleAuthLogger.getAuthStatisticsJson l).signups +
        (SimpleAuthLogger.getAuthStatisticsJson l).logins ≤
      (SimpleAuthLogger.getAuthStatisticsJson l).totalEvents ∧
    ((SimpleAuthLogger.getAuthStatisticsJson l).signups +
        (SimpleAuthLogger.getAuthStatisticsJson l).logins =
      (SimpleAuthLogger.getAuthStatisticsJson l).totalEvents →
      ∀ e ∈ l, e.eventType = "signup" ∨ e.eventType = "login") ∧
    (SimpleAuthLogger.getAuthStatisticsJson l).uniqueUsers ≤
      (SimpleAuthLogger.getAuthStatisticsJson l).totalEvents := by
  obtain ⟨a0, a1, a2, _, _, _, _, a7⟩ := authStatistics_counts (fun e : SimpleAuthEvent =>
    e.eventType) (fun e => e.provider) (fun e => e.deviceType) (fun e => e.userId) l
  obtain ⟨h1, h2⟩ := countP_pair_le (fun e : SimpleAuthEvent => e.eventType) "signup" "login"
    (by decide) l
  simp only [SimpleAuthLogger.getAuthStatisticsJson]
  rw [a0, a1, a2, a7]
  refine ⟨h1, h2, ?_⟩
  calc (l.map (fun e => e.userId)).toFinset.card
      ≤ (l.map (fun e => e.userId)).length := List.toFinset_card_le _
    _ = l.length := List.length_map _ _

/-! ## Event store: ingestion -/

/-- The scan finds nothing exactly when the pattern does not occur. -/
theorem findIn_eq_none_iff (pat : List Char) :
    ∀ (s : List Char) (i : Nat), findIn pat s i = none ↔ ¬ List.IsInfix pat s
  | [], i => by
    unfold findIn
    by_cases h : pat = []
    · subst h; simp
    · have : ¬ List.IsInfix pat [] := by
        rw [List.infix_nil]; exact h
      cases pat with
      | nil => exact absurd rfl h
      | cons a t => simp [List.isPrefixOf]
  | c :: cs, i => by
    unfold findIn
    by_cases h : pat.isPrefixOf (c :: cs) = true
    · rw [if_pos h]
      have hp : List.IsPrefix pat (c :: cs) := List.isPrefixOf_iff_prefix.1 h
      simp [hp.isInfix]
    · rw [if_neg h, findIn_eq_none_iff pat cs (i + 1), List.infix_cons_iff]
      have hp : ¬ List.IsPrefix pat (c :: cs) := fun hp => h (List.isPrefixOf_iff_prefix.2 hp)
      tauto

theorem strFind_zero_eq_none_iff (s pat : List Char) :
    strFind s pat 0 = none ↔ ¬ List.IsInfix pat s := by
  simp [strFind, findIn_eq_none_iff]

namespace SimpleAuthLogger

/-- A key that does not occur in the body as `"key":` is extracted as the
empty string. -/
theorem extractJsonValue_absent (json key : String)
    (h : ¬ List.IsInfix (searchKey key) json.data) : extractJsonValue json key = "" := by
  unfold extractJsonValue
  rw [(strFind_zero_eq_none_iff _ _).2 h]

/-- The single record that `logAuthEventFromJson` appends. -/
theorem logAuthEventFromJson_eq (authEvents : List SimpleAuthEvent) (jsonStr now : String)
    (nowUnix : Int) :
    ∃ e, logAuthEventFromJson authEvents jsonStr now nowUnix = (true, authEvents ++ [e]) ∧
      e.userId = extractJsonValue jsonStr "userId" ∧
      e.eventType = extractJsonValue jsonStr "eventType" ∧
      e.provider = extractJsonValue jsonStr "provider" ∧
      e.deviceType = extractJsonValue jsonStr "deviceType" ∧
      e.timestamp = (if extractJsonValue jsonStr "timestamp" = "" then now
        else extractJsonValue jsonStr "timestamp") ∧
      e.ipAddress = "127.0.0.1" ∧
      e.isNewUser = decide (extractJsonValue jsonStr "isNewUser" = "true") ∧
      e.timestampUnix = nowUnix ∧
      ∀ kf ∈ clientFields, kf.2 e = extractJsonValue jsonStr kf.1 := by
  refine ⟨_, rfl, rfl, rfl, rfl, rfl, rfl, rfl, rfl, rfl, ?_⟩
  intro kf hkf
  simp only [clientFields, List.mem_cons, List.mem_singleton, List.not_mem_nil, or_false] at hkf
  rcases hkf with h | h | h | h | h | h | h | h | h | h | h <;> subst h <;> rfl

theorem logAll_append (authEvents : List SimpleAuthEvent) (reqs : List LogRequest)
    (r : LogRequest) :
    logAll authEvents (reqs ++ [r]) =
      (logAuthEventFromJson (logAll authEvents reqs) r.body r.now r.nowUnix).2 := by
  simp [logAll, List.foldl_append]

/-- The millisecond counts stored by a run of ingestions are the clock
readings, in order; every stored timestamp is non-empty when every clock
string is. -/
theorem logAll_spec (authEvents : List SimpleAuthEvent) :
    ∀ reqs : List LogRequest,
      (logAll authEvents reqs).map (fun e => e.timestampUnix) =
        authEvents.map (fun e => e.timestampUnix) ++ reqs.map (fun r => r.nowUnix) ∧
      ((∀ e ∈ authEvents, e.timestamp ≠ "") → (∀ r ∈ reqs, r.now ≠ "") →
        ∀ e ∈ logAll authEvents reqs, e.timestamp ≠ "") := by
  intro reqs
  induction reqs using List.reverseRecOn with
  | nil => exact ⟨by simp [logAll], fun h _ => by simpa [logAll] using h⟩
  | append_singleton reqs r ih =>
    obtain ⟨e, he, _, _, _, _, hts, _, _, hu, _⟩ :=
      logAuthEventFromJson_eq (logAll authEvents reqs) r.body r.now r.nowUnix
    rw [logAll_append, he]
    refine ⟨?_, fun h1 h2 x hx => ?_⟩
    · simp only [List.map_append, List.map_cons, List.map_nil, ih.1, hu, List.append_assoc]
    · rw [List.mem_append, List.mem_singleton] at hx
      rcases hx with hx | hx
      · exact ih.2 h1 (fun r hr => h2 r (List.mem_append_left _ hr)) x hx
      · rw [hx, hts]
        split
        · exact h2 r (by simp)
        · assumption

end SimpleAuthLogger

namespace AuthLogger

/-- The single record that `logAuthEventFromJson` appends: `json::parse`
returns the empty object, so every field read from it is its default. -/
theorem logAuthEventFromJson_parsed (stoll : String → Option Int) (authEvents : List AuthEvent)
    (jsonStr now : String) (nowUnix : Int) :
    ∃ e, logAuthEventFromJson stoll authEvents jsonStr now nowUnix =
        (true, authEvents ++ [e]) ∧
      e.timestamp = now ∧ e.ipAddress = "127.0.0.1" ∧ e.timestampUnix = nowUnix :=
  ⟨_, rfl, rfl, rfl, rfl⟩

theorem logAll_parsed_append (stoll : String → Option Int) (authEvents : List AuthEvent)
    (reqs : List LogRequest) (r : LogRequest) :
    logAll stoll authEvents (reqs ++ [r]) =
      (logAuthEventFromJson stoll (logAll stoll authEvents reqs) r.body r.now r.nowUnix).2 := by
  simp [logAll, List.foldl_append]

theorem logAll_parsed_spec (stoll : String → Option Int) (authEvents : List AuthEvent) :
    ∀ reqs : List LogRequest,
      (logAll stoll authEvents reqs).map (fun e => e.timestampUnix) =
        authEvents.map (fun e => e.timestampUnix) ++ reqs.map (fun r => r.nowUnix) ∧
      ((∀ e ∈ authEvents, e.timestamp ≠ "") → (∀ r ∈ reqs, r.now ≠ "") →
        ∀ e ∈ logAll stoll authEvents reqs, e.timestamp ≠ "") := by
  intro reqs
  induction reqs using List.reverseRecOn with
  | nil => exact ⟨by simp [logAll], fun h _ => by simpa [logAll] using h⟩
  | append_singleton reqs r ih =>
    obtain ⟨e, he, hts, _, hu⟩ :=
      logAuthEventFromJson_parsed stoll (logAll stoll authEvents reqs) r.body r.now r.nowUnix
    rw [logAll_parsed_append, he]
    refine ⟨?_, fun h1 h2 x hx => ?_⟩
    · simp only [List.map_append, List.map_cons, List.map_nil, ih.1, hu, List.append_assoc]
    · rw [List.mem_append, List.mem_singleton] at hx
      rcases hx with hx | hx
      · exact ih.2 h1 (fun r hr => h2 r (List.mem_append_left _ hr)) x hx
      · rw [hx, hts]
        exact h2 r (by simp)

end AuthLogger

/-- C13: the stored `ipAddress` never depends on the client payload. For every
two request bodies (whatever fields they carry), stores and clock readings, the
records appended by `logAuthEventFromJson` (either logger) have the same
`ipAddress`, the server-side value `"127.0.0.1"`. -/
theorem logAuthEventFromJson_ipAddress (stoll : String → Option Int)
    (s1 s2 : List SimpleAuthEvent) (a1 a2 : List AuthEvent) (b1 b2 now1 now2 : String)
    (u1 u2 : Int) :
    (∃ e1 e2,
      (SimpleAuthLogger.logAuthEventFromJson s1 b1 now1 u1).2 = s1 ++ [e1] ∧
      (SimpleAuthLogger.logAuthEventFromJson s2 b2 now2 u2).2 = s2 ++ [e2] ∧
      e1.ipAddress = e2.ipAddress ∧ e1.ipAddress = "127.0.0.1") ∧
    (∃ e1 e2,
      (AuthLogger.logAuthEventFromJson stoll a1 b1 now1 u1).2 = a1 ++ [e1] ∧
      (AuthLogger.logAuthEventFromJson stoll a2 b2 now2 u2).2 = a2 ++ [e2] ∧
      e1.ipAddress = e2.ipAddress ∧ e1.ipAddress = "127.0.0.1") := by
  obtain ⟨e1, h1, _, _, _, _, _, i1, _⟩ := SimpleAuthLogger.logAuthEventFromJson_eq s1 b1 now1 u1
  obtain ⟨e2, h2, _, _, _, _, _, i2, _⟩ := SimpleAuthLogger.logAuthEventFromJson_eq s2 b2 now2 u2
  obtain ⟨f1, g1, _, j1, _⟩ := AuthLogger.logAuthEventFromJson_parsed stoll a1 b1 now1 u1
  obtain ⟨f2, g2, _, j2, _⟩ := AuthLogger.logAuthEventFromJson_parsed stoll a2 b2 now2 u2
  exact ⟨⟨e1, e2, by rw [h1], by rw [h2], by rw [i1, i2], i1⟩,
    ⟨f1, f2, by rw [g1], by rw [g2], by rw [j1, j2], j1⟩⟩

/-- C14: for every request body in which `"timestamp":` does not occur and every
clock reading, the record appended by `logAuthEventFromJson` has the clock
string as `timestamp` and the clock count as `timestampUnix` (for `AuthLogger`,
whose `json::parse` returns the empty object, for every body). Hence after any
run of ingestions with non-empty clock strings and non-zero clock counts every
stored record has a non-empty `timestamp` and a non-zero `timestampUnix`, and
with a non-decreasing clock the stored `timestampUnix` values are
non-decreasing in insertion order. -/
theorem logAuthEventFromJson_timestamps (stoll : String → Option Int) :
    (∀ (authEvents : List SimpleAuthEvent) (body now : String) (nowUnix : Int),
      ¬ List.IsInfix (SimpleAuthLogger.searchKey "timestamp") body.data →
      ∃ e, (SimpleAuthLogger.logAuthEventFromJson authEvents body now nowUnix).2 =
          authEvents ++ [e] ∧ e.timestamp = now ∧ e.timestampUnix = nowUnix) ∧
    (∀ (authEvents : List AuthEvent) (body now : String) (nowUnix : Int),
      ∃ e, (AuthLogger.logAuthEventFromJson stoll authEvents body now nowUnix).2 =
          authEvents ++ [e] ∧ e.timestamp = now ∧ e.timestampUnix = nowUnix) ∧
    (∀ reqs : List LogRequest, (∀ r ∈ reqs, r.now ≠ "" ∧ r.nowUnix ≠ 0) →
      (∀ e ∈ SimpleAuthLogger.logAll [] reqs, e.timestamp ≠ "" ∧ e.timestampUnix ≠ 0) ∧
      (∀ e ∈ AuthLogger.logAll stoll [] reqs, e.timestamp ≠ "" ∧ e.timestampUnix ≠ 0)) ∧
    (∀ reqs : List LogRequest, (reqs.map (fun r => r.nowUnix)).Pairwise (fun a b => a ≤ b) →
      ((SimpleAuthLogger.logAll [] reqs).map (fun e => e.timestampUnix)).Pairwise
        (fun a b => a ≤ b) ∧
      ((AuthLogger.logAll stoll [] reqs).map (fun e => e.timestampUnix)).Pairwise
        (fun a b => a ≤ b)) := by
  refine ⟨?_, ?_, ?_, ?_⟩
  · intro authEvents body now nowUnix habs
    obtain ⟨e, he, _, _, _, _, hts, _, _, hu, _⟩ :=
      SimpleAuthLogger.logAuthEventFromJson_eq authEvents body now nowUnix
    refine ⟨e, by rw [he], ?_, hu⟩
    rw [hts, SimpleAuthLogger.extractJsonValue_absent body "timestamp" habs, if_pos rfl]
  · intro authEvents body now nowUnix
    obtain ⟨e, he, hts, _, hu⟩ :=
      AuthLogger.logAuthEventFromJson_parsed stoll authEvents body now nowUnix
    exact ⟨e, by rw [he], hts, hu⟩
  · intro reqs hclock
    obtain ⟨m1, n1⟩ := SimpleAuthLogger.logAll_spec [] reqs
    obtain ⟨m2, n2⟩ := AuthLogger.logAll_parsed_spec stoll [] reqs
    refine ⟨fun e he => ⟨n1 (by simp) (fun r hr => (hclock r hr).1) e he, ?_⟩,
      fun e he => ⟨n2 (by simp) (fun r hr => (hclock r hr).1) e he, ?_⟩⟩
    · have hmem : e.timestampUnix ∈ (SimpleAuthLogger.logAll [] reqs).map
          (fun e => e.timestampUnix) := List.mem_map_of_mem _ he
      rw [m1, List.map_nil, List.nil_append, List.mem_map] at hmem
      obtain ⟨r, hr, hre⟩ := hmem
      rw [← hre]
      exact (hclock r hr).2
    · have hmem : e.timestampUnix ∈ (AuthLogger.logAll stoll [] reqs).map
          (fun e => e.timestampUnix) := List.mem_map_of_mem _ he
      rw [m2, List.map_nil, List.nil_append, List.mem_map] at hmem
      obtain ⟨r, hr, hre⟩ := hmem
      rw [← hre]
      exact (hclock r hr).2
  · intro reqs hmono
    rw [(SimpleAuthLogger.logAll_spec [] reqs).1, (AuthLogger.logAll_parsed_spec stoll [] reqs).1]
    exact ⟨by simpa using hmono, by simpa using hmono⟩

theorem logAuthEventFromJson_timestamps_witness :
    (∀ r ∈ sampleRequests, r.now ≠ "" ∧ r.nowUnix ≠ 0) ∧
    (sampleRequests.map (fun r => r.nowUnix)).Pairwise (fun a b => a ≤ b) ∧
    (∀ e ∈ SimpleAuthLogger.logAll [] sampleRequests,
      e.timestamp ≠ "" ∧ e.timestampUnix ≠ 0) ∧
    ((SimpleAuthLogger.logAll [] sampleRequests).map (fun e => e.timestampUnix)).Pairwise
      (fun a b => a ≤ b) :=
  ⟨by decide, by decide,
   ((logAuthEventFromJson_timestamps (fun _ => none)).2.2.1 sampleRequests (by decide)).1,
   ((logAuthEventFromJson_timestamps (fun _ => none)).2.2.2 sampleRequests (by decide)).1⟩

/-- C15, refuted as stated: not every string field whose key is absent from the
body is stored empty. For the empty body the key `"ipAddress":` does not occur,
yet the stored `ipAddress` is `"127.0.0.1"` (and the stored `timestamp` is the
clock string). -/
theorem logAuthEventFromJson_absent_not_empty :
    ¬ ∀ (authEvents : List SimpleAuthEvent) (body now : String) (nowUnix : Int),
      ∀ kf ∈ stringFields, ¬ List.IsInfix (SimpleAuthLogger.searchKey kf.1) body.data →
        ∀ e, (SimpleAuthLogger.logAuthEventFromJson authEvents body now nowUnix).2 =
          authEvents ++ [e] → kf.2 e = "" := by
  intro h
  obtain ⟨e, he, _, _, _, _, _, hip, _⟩ := SimpleAuthLogger.logAuthEventFromJson_eq [] "" "" 0
  have h1 := h [] "" "" 0 ("ipAddress", fun e => e.ipAddress) (by simp [stringFields])
    (by rw [show ("" : String).data = [] from rfl, List.infix_nil]
        simp [SimpleAuthLogger.searchKey]) e (by rw [he])
  rw [show (("ipAddress", fun e => e.ipAddress) : String × (SimpleAuthEvent → String)).2 e =
    e.ipAddress from rfl, hip] at h1
  exact absurd h1 (by decide)

/-- C15, amended: for every string body (valid JSON or not),
`SimpleAuthLogger::logAuthEventFromJson` reports success and appends exactly
one record at the end of the in-memory sequence, the earlier records unchanged.
Every client field (`userId`, `email`, `displayName`, `eventType`, `provider`,
`sessionId`, `userAgent`, `platform`, `deviceType`, `browserName`, `currentUrl`)
whose key does not occur in the body as `"key":` is stored as the empty string,
and `isNewUser` as `false`; an absent `timestamp` is stored as the clock string,
`ipAddress` is always `"127.0.0.1"` and `timestampUnix` the clock count. -/
theorem logAuthEventFromJson_total (authEvents : List SimpleAuthEvent) (body now : String)
    (nowUnix : Int) :
    (SimpleAuthLogger.logAuthEventFromJson authEvents body now nowUnix).1 = true ∧
    ∃ e, (SimpleAuthLogger.logAuthEventFromJson authEvents body now nowUnix).2 =
        authEvents ++ [e] ∧
      (∀ kf ∈ clientFields, ¬ List.IsInfix (SimpleAuthLogger.searchKey kf.1) body.data →
        kf.2 e = "") ∧
      (¬ List.IsInfix (SimpleAuthLogger.searchKey "isNewUser") body.data →
        e.isNewUser = false) ∧
      (¬ List.IsInfix (SimpleAuthLogger.searchKey "timestamp") body.data →
        e.timestamp = now) ∧
      e.ipAddress = "127.0.0.1" ∧ e.timestampUnix = nowUnix := by
  obtain ⟨e, he, _, _, _, _, hts, hip, hnew, hu, hf⟩ :=
    SimpleAuthLogger.logAuthEventFromJson_eq authEvents body now nowUnix
  refine ⟨by rw [he], e, by rw [he], ?_, ?_, ?_, hip, hu⟩
  · intro kf hkf habs
    rw [hf kf hkf, SimpleAuthLogger.extractJsonValue_absent body kf.1 habs]
  · intro habs
    rw [hnew, SimpleAuthLogger.extractJsonValue_absent body "isNewUser" habs]
    decide
  · intro habs
    rw [hts, SimpleAuthLogger.extractJsonValue_absent body "timestamp" habs, if_pos rfl]

/-- C16: starting from the empty event store, logging the signup body with
`logAuthEventFromJson` succeeds, and the statistics computed afterwards report
`totalEvents = 1`, `signups = 1`, `emailAuth = 1`, `uniqueUsers = 1`,
`logins = 0` and `googleAuth = 0`, whatever the clock reads. -/
theorem signup_end_to_end (now : String) (nowUnix : Int) :
    (SimpleAuthLogger.logAuthEventFromJson [] signupBody now nowUnix).1 = true ∧
    (SimpleAuthLogger.getAuthStatisticsJson
      (SimpleAuthLogger.logAuthEventFromJson [] signupBody now nowUnix).2).totalEvents = 1 ∧
    (SimpleAuthLogger.getAuthStatisticsJson
      (SimpleAuthLogger.logAuthEventFromJson [] signupBody now nowUnix).2).signups = 1 ∧
    (SimpleAuthLogger.getAuthStatisticsJson
      (SimpleAuthLogger.logAuthEventFromJson [] signupBody now nowUnix).2).emailAuth = 1 ∧
    (SimpleAuthLogger.getAuthStatisticsJson
      (SimpleAuthLogger.logAuthEventFromJson [] signupBody now nowUnix).2).uniqueUsers = 1 ∧
    (SimpleAuthLogger.getAuthStatisticsJson
      (SimpleAuthLogger.logAuthEventFromJson [] signupBody now nowUnix).2).logins = 0 ∧
    (SimpleAuthLogger.getAuthStatisticsJson
      (SimpleAuthLogger.logAuthEventFromJson [] signupBody now nowUnix).2).googleAuth = 0 := by
  obtain ⟨e, he, hu, ht, hp, _⟩ :=
    SimpleAuthLogger.logAuthEventFromJson_eq [] signupBody now nowUnix
  have ht1 : e.eventType = "signup" := by rw [ht]; decide
  have hp1 : e.provider = "email" := by rw [hp]; decide
  obtain ⟨a0, a1, a2, a3, a4, _, _, a7⟩ := authStatistics_counts
    (fun e : SimpleAuthEvent => e.eventType) (fun e => e.provider) (fun e => e.deviceType)
    (fun e => e.userId) [e]
  rw [he]
  simp only [SimpleAuthLogger.getAuthStatisticsJson, List.nil_append]
  rw [a0, a1, a2, a3, a4, a7]
  simp [ht1, hp1]

/-! ## Request parser: query strings -/

namespace HTTPServer

theorem findChar_append (c : Char) :
    ∀ (k v : List Char), c ∉ k → findChar c (k ++ c :: v) = some k.length
  | [], v, _ => by simp [findChar]
  | x :: k, v, h => by
    have hx : x ≠ c := fun e => h (by rw [e]; exact List.mem_cons_self _ _)
    have hk : c ∉ k := fun e => h (List.mem_cons_of_mem _ e)
    simp [findChar, hx, findChar_append c k v hk]

theorem findChar_some (c : Char) :
    ∀ (l : List Char) (n : Nat), findChar c l = some n →
      l = l.take n ++ c :: l.drop (n + 1) ∧ c ∉ l.take n
  | [], n, h => by simp [findChar] at h
  | x :: rest, n, h => by
    unfold findChar at h
    by_cases hx : x = c
    · rw [if_pos hx] at h
      cases h
      simp [hx]
    · rw [if_neg hx] at h
      cases hf : findChar c rest with
      | none => rw [hf] at h; simp at h
      | some m =>
        rw [hf] at h
        simp only [Option.map_some'] at h
        cases h
        obtain ⟨h1, h2⟩ := findChar_some c rest m hf
        refine ⟨?_, ?_⟩
        · simp only [List.take_succ_cons, List.drop_succ_cons, List.cons_append]
          rw [← h1]
        · simp only [List.take_succ_cons, List.mem_cons, not_or]
          exact ⟨fun e => hx e.symm, h2⟩

theorem findChar_none (c : Char) :
    ∀ l : List Char, findChar c l = none → c ∉ l
  | [], _ => by simp
  | x :: rest, h => by
    unfold findChar at h
    by_cases hx : x = c
    · rw [if_pos hx] at h; cases h
    · rw [if_neg hx] at h
      cases hf : findChar c rest with
      | none =>
        simp only [List.mem_cons, not_or]
        exact ⟨fun e => hx e.symm, findChar_none c rest hf⟩
      | some m => rw [hf] at h; simp at h

theorem mapFind_mapSet_self :
    ∀ (m : List (List Char × List Char)) (k v : List Char), mapFind (mapSet m k v) k = some v
  | [], k, v => by simp [mapSet, mapFind]
  | (a, b) :: rest, k, v => by
    unfold mapSet
    by_cases h : a = k
    · simp [h, mapFind]
    · simp [h, mapFind, mapFind_mapSet_self rest k v]

theorem mapFind_mapSet_ne :
    ∀ (m : List (List Char × List Char)) (k v key : List Char), k ≠ key →
      mapFind (mapSet m k v) key = mapFind m key
  | [], k, v, key, h => by simp [mapSet, mapFind, h]
  | (a, b) :: rest, k, v, key, h => by
    unfold mapSet
    by_cases ha : a = k
    · have hak : ¬ a = key := fun e => h (ha.symm.trans e)
      simp [ha, mapFind, h]
    · by_cases hk : a = key
      · subst hk
        simp [ha, mapFind]
      · simp [ha, mapFind, hk, mapFind_mapSet_ne rest k v key h]

/-- One step of the loop on a piece `k=v` whose key holds no `=`. -/
theorem parseQueryLoop_cons_pair (k v : List Char) (rest : List (List Char))
    (params : List (List Char × List Char)) (hk : '=' ∉ k) :
    parseQueryLoop ((k ++ '=' :: v) :: rest) params =
      parseQueryLoop rest (mapSet params k v) := by
  simp [parseQueryLoop, findChar_append '=' k v hk]

theorem parseQueryLoop_append :
    ∀ (pre rest : List (List Char)) (params : List (List Char × List Char)),
      parseQueryLoop (pre ++ rest) params = parseQueryLoop rest (parseQueryLoop pre params)
  | [], rest, params => rfl
  | p :: pre, rest, params => by
    simp only [List.cons_append, parseQueryLoop]
    cases findChar '=' p with
    | none => exact parseQueryLoop_append pre rest params
    | some pos => exact parseQueryLoop_append pre rest _

/-- Pieces that do not have the key leave its entry as it was. -/
theorem parseQueryLoop_other (key : List Char) :
    ∀ (ps : List (List Char)) (params : List (List Char × List Char)),
      (∀ p ∈ ps, ∀ w, p ≠ key ++ '=' :: w) →
      mapFind (parseQueryLoop ps params) key = mapFind params key
  | [], params, _ => rfl
  | p :: ps, params, h => by
    have hps : ∀ q ∈ ps, ∀ w, q ≠ key ++ '=' :: w := fun q hq => h q (List.mem_cons_of_mem _ hq)
    simp only [parseQueryLoop]
    cases hf : findChar '=' p with
    | none => exact parseQueryLoop_other key ps params hps
    | some pos =>
      simp only []
      rw [parseQueryLoop_other key ps _ hps]
      apply mapFind_mapSet_ne
      intro hkey
      obtain ⟨h1, _⟩ := findChar_some '=' p pos hf
      rw [hkey] at h1
      exact h p (List.mem_cons_self _ _) _ h1

/-- Every entry of the result comes from the start map or from a piece `k=v`
whose key holds no `=`. -/
theorem parseQueryLoop_sound (key v : List Char) :
    ∀ (ps : List (List Char)) (params : List (List Char × List Char)),
      mapFind (parseQueryLoop ps params) key = some v →
      mapFind params key = some v ∨ ∃ p ∈ ps, p = key ++ '=' :: v ∧ '=' ∉ key
  | [], params, h => Or.inl h
  | p :: ps, params, h => by
    simp only [parseQueryLoop] at h
    cases hf : findChar '=' p with
    | none =>
      rw [hf] at h
      rcases parseQueryLoop_sound key v ps params h with h1 | ⟨q, hq, hq2⟩
      · exact Or.inl h1
      · exact Or.inr ⟨q, List.mem_cons_of_mem _ hq, hq2⟩
    | some pos =>
      rw [hf] at h
      simp only [] at h
      obtain ⟨e1, e2⟩ := findChar_some '=' p pos hf
      rcases parseQueryLoop_sound key v ps _ h with h1 | ⟨q, hq, hq2⟩
      · by_cases hk : p.take pos = key
        · rw [hk, mapFind_mapSet_self] at h1
          right
          refine ⟨p, List.mem_cons_self _ _, ?_, ?_⟩
          · rw [← Option.some.inj h1, ← hk]; exact e1
          · rw [← hk]; exact e2
        · rw [mapFind_mapSet_ne _ _ _ _ hk] at h1
          exact Or.inl h1
      · exact Or.inr ⟨q, List.mem_cons_of_mem _ hq, hq2⟩

/-- The value under a key is that of the last piece with this key. -/
theorem parseQuery_last (query key v : List Char) (pre post : List (List Char))
    (hq : queryPieces query = pre ++ (key ++ '=' :: v) :: post) (hk : '=' ∉ key)
    (hpost : ∀ p ∈ post, ∀ w, p ≠ key ++ '=' :: w) :
    mapFind (parseQuery query) key = some v := by
  unfold parseQuery
  rw [hq, parseQueryLoop_append, parseQueryLoop_cons_pair _ _ _ _ hk,
    parseQueryLoop_other key post _ hpost, mapFind_mapSet_self]

/-- A key that no piece has is not in the map. -/
theorem parseQuery_absent (query key : List Char)
    (h : ∀ p ∈ queryPieces query, ∀ w, p ≠ key ++ '=' :: w) :
    mapFind (parseQuery query) key = none := by
  unfold parseQuery
  rw [parseQueryLoop_other key _ _ h]
  rfl

end HTTPServer

namespace HTTPServer

/-- The pieces yielded by the `getline` loop hold no delimiter, and joined by
the delimiter they give back the text read, up to one final delimiter. -/
theorem getlineLoop_spec (delim : Char) :
    ∀ (s cur : List Char), delim ∉ cur →
      (∀ p ∈ getlineLoop delim s cur, delim ∉ p) ∧
      (List.intercalate [delim] (getlineLoop delim s cur) = cur ++ s ∨
        List.intercalate [delim] (getlineLoop delim s cur) ++ [delim] = cur ++ s)
  | [], cur, hcur => by
    unfold getlineLoop
    by_cases h : cur = []
    · subst h
      simp [List.intercalate]
    · rw [if_neg h]
      refine ⟨fun p hp => ?_, Or.inl ?_⟩
      · rw [List.mem_singleton] at hp
        rw [hp]; exact hcur
      · simp [List.intercalate]
  | c :: cs, cur, hcur => by
    unfold getlineLoop
    by_cases h : c = delim
    · rw [if_pos h]
      obtain ⟨ih1, ih2⟩ := getlineLoop_spec delim cs [] (by simp)
      refine ⟨fun p hp => ?_, ?_⟩
      · rcases List.mem_cons.1 hp with hp | hp
        · rw [hp]; exact hcur
        · exact ih1 p hp
      · cases hL : getlineLoop delim cs [] with
        | nil =>
          rw [hL] at ih2
          rcases ih2 with ih2 | ih2
          · right
            simp only [List.intercalate, List.intersperse, List.flatten, List.nil_append] at ih2
            rw [← ih2, h]
            simp [List.intercalate]
          · simp only [List.intercalate, List.intersperse, List.flatten, List.nil_append] at ih2
            rw [← ih2] at hL
            simp [getlineLoop] at hL
        | cons x rest =>
          rw [hL] at ih2
          have e : List.intercalate [delim] (cur :: x :: rest) =
              cur ++ delim :: List.intercalate [delim] (x :: rest) := by
            simp [List.intercalate, List.intersperse]
          rw [e, h]
          rcases ih2 with ih2 | ih2
          · left
            rw [ih2, List.nil_append]
          · right
            rw [List.append_assoc, List.cons_append, ih2, List.nil_append]
    · rw [if_neg h]
      have hc : delim ∉ cur ++ [c] := by
        simp only [List.mem_append, List.mem_singleton, not_or]
        exact ⟨hcur, fun e => h e.symm⟩
      obtain ⟨ih1, ih2⟩ := getlineLoop_spec delim cs (cur ++ [c]) hc
      refine ⟨ih1, ?_⟩
      simpa using ih2

end HTTPServer

/-! ## Claims on serialisation and on the query string -/

set_option maxRecDepth 100000 in
/-- C17, the defect: `newUserEvent` has `isNewUser = true` and no double quote in
any field; ingesting its `toJsonString` stores a record with the same string
fields but with `isNewUser = false`, whatever the clock reads. The flag is
written without quotes, so `extractJsonValue` returns the next quoted text,
`timestampUnix`, which is not `true`. -/
theorem toJsonString_roundtrip_isNewUser (now : String) (nowUnix : Int) :
    newUserEvent.isNewUser = true ∧
    SimpleAuthLogger.extractJsonValue newUserEvent.toJsonString "isNewUser" = "timestampUnix" ∧
    ∃ e, (SimpleAuthLogger.logAuthEventFromJson [] newUserEvent.toJsonString now nowUnix).2 =
        [e] ∧
      e.isNewUser = false ∧
      (∀ kf ∈ clientFields, kf.2 e = kf.2 newUserEvent) ∧
      e.timestamp = newUserEvent.timestamp := by
  have hflag : SimpleAuthLogger.extractJsonValue newUserEvent.toJsonString "isNewUser" =
      "timestampUnix" := by decide
  have hfields : ∀ kf ∈ clientFields,
      SimpleAuthLogger.extractJsonValue newUserEvent.toJsonString kf.1 = kf.2 newUserEvent := by
    decide
  have hts : SimpleAuthLogger.extractJsonValue newUserEvent.toJsonString "timestamp" =
      newUserEvent.timestamp := by decide
  obtain ⟨e, he, _, _, _, _, h5, _, h7, _, h9⟩ :=
    SimpleAuthLogger.logAuthEventFromJson_eq [] newUserEvent.toJsonString now nowUnix
  refine ⟨rfl, hflag, e, by rw [he]; rfl, ?_, ?_, ?_⟩
  · rw [h7, hflag]; decide
  · intro kf hkf
    rw [h9 kf hkf, hfields kf hkf]
  · rw [h5, hts]
    exact if_neg (by decide)

set_option maxRecDepth 100000 in
/-- C18, the defect: the row that `exportToCSV` writes for `commaEvent`, whose
display name is `Doe, John`, carries the name unquoted, so a CSV reader finds
16 fields in it, not 15. -/
theorem exportToCSV_comma_row :
    SimpleAuthLogger.exportToCSV [commaEvent] =
      csvHeader ++ "\n" ++ SimpleAuthLogger.csvRow commaEvent ++ "\n" ∧
    SimpleAuthLogger.csvRow commaEvent =
      "u1,a@b.com,Doe, John,signup,email,2024-01-01 00:00:00,s1,\"Mozilla/5.0\",Linux," ++
      "desktop,Firefox,127.0.0.1,/login,true,1704067200000" ∧
    csvFieldCount csvHeader.data false = 15 ∧
    csvFieldCount (SimpleAuthLogger.csvRow commaEvent).data false = 16 := by
  refine ⟨by decide, by decide, by decide, by decide⟩

namespace HTTPServer

/-- C19, refuted as stated: in `a=1&a=2` the piece `a=1` does not map `a` to
`1`; the map holds `a -> 2`. -/
theorem parseQuery_duplicate_key :
    ¬ ∀ (q p k v : List Char), p ∈ queryPieces q → p = k ++ '=' :: v → '=' ∉ k →
      mapFind (parseQuery q) k = some v := by
  intro h
  have h1 := h "a=1&a=2".data "a=1".data "a".data "1".data (by decide) (by decide) (by decide)
  exact absurd h1 (by decide)

/-- C19, amended: for every query string, `parseQuery` reads the pieces between
the `&` (no piece holds an `&`; joined by `&` they give back the query, up to
one final `&`) and splits each piece at its first `=`. A piece `k=v` (`v` may
hold `=`) maps `k` to `v` provided no later piece has the key `k`: the last
piece with a key gives its value. A piece without `=` contributes no entry, and
every entry `k -> v` of the map comes from a piece `k=v`. -/
theorem parseQuery_spec (query : List Char) :
    (∀ p ∈ queryPieces query, '&' ∉ p) ∧
    (List.intercalate ['&'] (queryPieces query) = query ∨
      List.intercalate ['&'] (queryPieces query) ++ ['&'] = query) ∧
    (∀ (pre post : List (List Char)) (k v : List Char),
      queryPieces query = pre ++ (k ++ '=' :: v) :: post → '=' ∉ k →
      (∀ p ∈ post, ∀ w, p ≠ k ++ '=' :: w) → mapFind (parseQuery query) k = some v) ∧
    (∀ k v : List Char, mapFind (parseQuery query) k = some v →
      ∃ p ∈ queryPieces query, p = k ++ '=' :: v ∧ '=' ∉ k) ∧
    ((∀ p ∈ queryPieces query, '=' ∉ p) → parseQuery query = []) := by
  obtain ⟨h1, h2⟩ := getlineLoop_spec '&' query [] (by simp)
  refine ⟨h1, by simpa using h2, fun pre post k v hq hk hpost =>
    parseQuery_last query k v pre post hq hk hpost, fun k v h => ?_, fun h => ?_⟩
  · rcases parseQueryLoop_sound k v (queryPieces query) [] h with h0 | h0
    · simp [mapFind] at h0
    · exact h0
  · unfold parseQuery
    generalize queryPieces query = ps at h
    induction ps with
    | nil => rfl
    | cons p ps ih =>
      have hp : findChar '=' p = none := by
        cases hf : findChar '=' p with
        | none => rfl
        | some pos =>
          obtain ⟨e1, _⟩ := findChar_some '=' p pos hf
          exact absurd (by rw [e1]; simp) (h p (List.mem_cons_self _ _))
      simp only [parseQueryLoop, hp]
      exact ih (fun q hq => h q (List.mem_cons_of_mem _ hq))

theorem parseQuery_spec_witness :
    queryPieces "a=1&b&a=2&c=x=y".data =
      ["a=1".data, "b".data] ++ ("a".data ++ '=' :: "2".data) :: ["c=x=y".data] ∧
    '=' ∉ "a".data ∧
    (∀ p ∈ ["c=x=y".data], ∀ w, p ≠ "a".data ++ '=' :: w) ∧
    mapFind (parseQuery "a=1&b&a=2&c=x=y".data) "a".data = some "2".data :=
  ⟨by decide, by decide, by simp,
   (parseQuery_spec "a=1&b&a=2&c=x=y".data).2.2.1 ["a=1".data, "b".data] ["c=x=y".data]
     "a".data "2".data (by decide) (by decide) (by simp)⟩

/-- C20, refuted as stated. Keys are not decoded: in `%69d=c1` the key decodes
to `id`, yet the handler reads an empty `id`. Numeric values are not decoded:
for `averagePurchaseValue=%31%30%30` the handler hands `%31%30%30` to the
conversion, not the decoded `100`. -/
theorem addCustomerParams_not_decoded :
    (¬ ∀ (q k v : List Char), queryPieces q = [k ++ '=' :: v] → '=' ∉ k →
      urlDecode k = "id".data → (addCustomerParams q).id = urlDecode v) ∧
    (¬ ∀ (q v : List Char), queryPieces q = ["averagePurchaseValue".data ++ '=' :: v] →
      (addCustomerParams q).averagePurchaseValue = urlDecode v) := by
  constructor
  · intro h
    have h1 := h "%69d=c1".data "%69d".data "c1".data (by decide) (by decide) (by decide)
    exact absurd h1 (by decide)
  · intro h
    have h1 := h "averagePurchaseValue=%31%30%30".data "%31%30%30".data (by decide)
    exact absurd h1 (by decide)

/-- C20, amended: the handler of `GET /api/add-customer` matches the five
parameter names against the undecoded keys of the query string and takes, for
each name, the value of the last piece with that key. Percent-encoding and `+`
are decoded (by `urlDecode`) in the values of `id` and `name` only; the values
of `averagePurchaseValue`, `purchaseFrequency` and `customerLifespan` are used
undecoded. A name that is the key of no piece reads as the empty string. -/
theorem addCustomerParams_spec (query : List Char) :
    (∀ (pre post : List (List Char)) (key v : List Char),
      queryPieces query = pre ++ (key ++ '=' :: v) :: post →
      (∀ p ∈ post, ∀ w, p ≠ key ++ '=' :: w) →
      (key = "id".data → (addCustomerParams query).id = urlDecode v) ∧
      (key = "name".data → (addCustomerParams query).name = urlDecode v) ∧
      (key = "averagePurchaseValue".data →
        (addCustomerParams query).averagePurchaseValue = v) ∧
      (key = "purchaseFrequency".data → (addCustomerParams query).purchaseFrequency = v) ∧
      (key = "customerLifespan".data → (addCustomerParams query).customerLifespan = v)) ∧
    (∀ key : List Char, (∀ p ∈ queryPieces query, ∀ w, p ≠ key ++ '=' :: w) →
      (key = "id".data → (addCustomerParams query).id = []) ∧
      (key = "name".data → (addCustomerParams query).name = []) ∧
      (key = "averagePurchaseValue".data →
        (addCustomerParams query).averagePurchaseValue = []) ∧
      (key = "purchaseFrequency".data → (addCustomerParams query).purchaseFrequency = []) ∧
      (key = "customerLifespan".data → (addCustomerParams query).customerLifespan = [])) := by
  constructor
  · intro pre post key v hq hpost
    have hget : ∀ k : List Char, key = k → '=' ∉ k → mapGet (parseQuery query) k = v := by
      intro k hk hne
      subst hk
      simp only [mapGet, parseQuery_last query key v pre post hq hne hpost]
    refine ⟨fun h => ?_, fun h => ?_, fun h => ?_, fun h => ?_, fun h => ?_⟩
    · simp only [addCustomerParams, hget _ h (by decide)]
    · simp only [addCustomerParams, hget _ h (by decide)]
    · simp only [addCustomerParams, hget _ h (by decide)]
    · simp only [addCustomerParams, hget _ h (by decide)]
    · simp only [addCustomerParams, hget _ h (by decide)]
  · intro key habs
    have hget : ∀ k : List Char, key = k → mapGet (parseQuery query) k = [] := by
      intro k hk
      subst hk
      simp only [mapGet, parseQuery_absent query key habs]
    refine ⟨fun h => ?_, fun h => ?_, fun h => ?_, fun h => ?_, fun h => ?_⟩
    · simp only [addCustomerParams, hget _ h]; rfl
    · simp only [addCustomerParams, hget _ h]; rfl
    · simp only [addCustomerParams, hget _ h]
    · simp only [addCustomerParams, hget _ h]
    · simp only [addCustomerParams, hget _ h]

theorem addCustomerParams_spec_witness :
    queryPieces "id=c%31&name=A+B&averagePurchaseValue=%31".data =
      [] ++ ("id".data ++ '=' :: "c%31".data) ::
        ["name=A+B".data, "averagePurchaseValue=%31".data] ∧
    (addCustomerParams "id=c%31&name=A+B&averagePurchaseValue=%31".data).id = "c1".data :=
  ⟨by decide,
   ((addCustomerParams_spec "id=c%31&name=A+B&averagePurchaseValue=%31".data).1 []
     ["name=A+B".data, "averagePurchaseValue=%31".data] "id".data "c%31".data
     (by decide) (by simp)).1 rfl⟩

end HTTPServer

/-! ## Request-serving engine: responses, dispatch, body extraction -/

theorem findIn_ge (pat : List Char) :
    ∀ (s : List Char) (i k : Nat), findIn pat s i = some k → i ≤ k
  | [], i, k, h => by
    unfold findIn at h
    split at h
    · cases h; exact Nat.le_refl _
    · cases h
  | c :: cs, i, k, h => by
    unfold findIn at h
    split at h
    · cases h; exact Nat.le_refl _
    · exact Nat.le_of_succ_le (findIn_ge pat cs (i + 1) k h)

/-- A search from the start answers `0` exactly when the text begins with the
pattern. -/
theorem strFind_zero_iff (s pat : List Char) :
    strFind s pat 0 = some 0 ↔ List.IsPrefix pat s := by
  unfold strFind
  simp only [Nat.not_lt_zero, if_false, List.drop_zero]
  cases s with
  | nil =>
    unfold findIn
    rw [← List.isPrefixOf_iff_prefix]
    by_cases h : pat.isPrefixOf [] = true
    · simp [h]
    · simp [h]
  | cons c cs =>
    unfold findIn
    rw [← List.isPrefixOf_iff_prefix]
    by_cases h : pat.isPrefixOf (c :: cs) = true
    · simp [h]
    · simp only [h, if_false]
      constructor
      · intro h1
        have := findIn_ge pat cs 1 0 h1
        omega
      · intro h1
        exact absurd h1 (by simp)

namespace HTTPServer

set_option maxRecDepth 100000 in
/-- C21: for every raw request whose method token is `OPTIONS`, whatever else
it holds, `handleClient` answers with status `200 OK`, the content type
`text/plain`, `Content-Length: 0`, the CORS headers and an empty body, and the
server state (stores and files) is the one before the request: no route
handler runs. -/
theorem handleClient_options {σ : Type} (env : Env σ) (state : ServerState σ)
    (request : List Char) (h : (requestTarget request).1 = "OPTIONS".data) :
    handleClient env state request =
      some (createResponse env.allowedOrigins 200 "text/plain".data [], state) ∧
    createResponse env.allowedOrigins 200 "text/plain".data [] =
      ("HTTP/1.1 200 OK\r\nContent-Type: text/plain\r\nContent-Length: 0\r\n" ++
        "Access-Control-Allow-Origin: ").data ++ env.allowedOrigins ++ "\r\n".data ++
      "Access-Control-Allow-Methods: GET, POST, PUT, DELETE, OPTIONS\r\n".data ++
      "Access-Control-Allow-Headers: Content-Type, Authorization\r\n".data ++
      "Connection: close\r\n".data ++ "\r\n".data := by
  constructor
  · unfold handleClient
    simp only [h, if_true]
  · rw [createResponse, List.append_nil]
    rfl

theorem handleClient_options_witness :
    (requestTarget optionsRequest).1 = "OPTIONS".data ∧
    handleClient sampleEnv sampleState optionsRequest =
      some (createResponse sampleEnv.allowedOrigins 200 "text/plain".data [], sampleState) :=
  ⟨by decide, (handleClient_options sampleEnv sampleState optionsRequest (by decide)).1⟩

end HTTPServer

namespace HTTPServer

/-- A pair (method, path) that no route serves falls through to the
not-found envelope and leaves the state alone. -/
theorem handleAPIRequest_unmatched {σ : Type} (env : Env σ) (state : ServerState σ)
    (method path body : List Char) (h : ¬ routeMatched method path) :
    handleAPIRequest env state method path body =
      some (errorEnvelope "Endpoint not found".data, state) := by
  simp only [routeMatched, not_or] at h
  obtain ⟨h1, h2, h3, h4, h5, h6, h7, h8⟩ := h
  rw [← strFind_zero_iff] at h3
  unfold handleAPIRequest
  rw [if_neg h1, if_neg h2, if_neg h3, if_neg h4, if_neg h5, if_neg h6, if_neg h7, if_neg h8]

set_option maxRecDepth 100000 in
/-- C22: for every request whose method is not `OPTIONS`, whose path starts with
`/api/` and whose (method, path) matches none of the routes, `handleClient`
answers with status `200 OK`, content type `application/json` and the error
envelope with status `error` and message `Endpoint not found`, and the server
state is unchanged. -/
theorem handleClient_unmatched {σ : Type} (env : Env σ) (state : ServerState σ)
    (request : List Char) (hm : (requestTarget request).1 ≠ "OPTIONS".data)
    (hp : List.IsPrefix "/api/".data (requestTarget request).2)
    (hr : ¬ routeMatched (requestTarget request).1 (requestTarget request).2) :
    handleClient env state request =
      some (createResponse env.allowedOrigins 200 "application/json".data
        (errorEnvelope "Endpoint not found".data), state) ∧
    List.IsPrefix "HTTP/1.1 200 OK\r\nContent-Type: application/json\r\n".data
      (createResponse env.allowedOrigins 200 "application/json".data
        (errorEnvelope "Endpoint not found".data)) ∧
    errorEnvelope "Endpoint not found".data =
      "\x7b\n  \"status\": \"error\",\n  \"message\": \"Endpoint not found\"\n\x7d".data ∧
    List.IsSuffix (errorEnvelope "Endpoint not found".data)
      (createResponse env.allowedOrigins 200 "application/json".data
        (errorEnvelope "Endpoint not found".data)) := by
  refine ⟨?_, ?_, by decide, ?_⟩
  · unfold handleClient
    rw [if_neg hm, if_pos ((strFind_zero_iff _ _).2 hp),
      handleAPIRequest_unmatched env state _ _ _ hr]
  · refine ⟨"Content-Length: ".data ++ (toString
        (errorEnvelope "Endpoint not found".data).length).data ++ "\r\n".data ++
      "Access-Control-Allow-Origin: ".data ++ env.allowedOrigins ++ "\r\n".data ++
      "Access-Control-Allow-Methods: GET, POST, PUT, DELETE, OPTIONS\r\n".data ++
      "Access-Control-Allow-Headers: Content-Type, Authorization\r\n".data ++
      "Connection: close\r\n".data ++ "\r\n".data ++
      errorEnvelope "Endpoint not found".data, ?_⟩
    simp only [createResponse, List.append_assoc]
    rfl
  · exact ⟨_, rfl⟩

theorem handleClient_unmatched_witness :
    (requestTarget deleteRequest).1 ≠ "OPTIONS".data ∧
    List.IsPrefix "/api/".data (requestTarget deleteRequest).2 ∧
    ¬ routeMatched (requestTarget deleteRequest).1 (requestTarget deleteRequest).2 ∧
    handleClient sampleEnv sampleState deleteRequest =
      some (createResponse sampleEnv.allowedOrigins 200 "application/json".data
        (errorEnvelope "Endpoint not found".data), sampleState) :=
  ⟨by decide, by decide, by unfold routeMatched; decide,
   (handleClient_unmatched sampleEnv sampleState deleteRequest (by decide) (by decide)
     (by unfold routeMatched; decide)).1⟩

set_option maxRecDepth 100000 in
/-- C23: for every status code, content type and body, `createResponse` returns
the lines, each ended by CR LF: a status line (`HTTP/1.1`, the code in decimal
and its reason phrase), then exactly the six headers `Content-Type` (the given
type), `Content-Length` (the length of the body in decimal digits),
`Access-Control-Allow-Origin` (the configured origin, `*` when none is
configured), `Access-Control-Allow-Methods`, `Access-Control-Allow-Headers` and
`Connection: close`, then an empty line, then the body unchanged. -/
theorem createResponse_format (allowedOrigins : List Char) (statusCode : Int)
    (contentType body : List Char) :
    createResponse allowedOrigins statusCode contentType body =
      List.intercalate "\r\n".data
        ["HTTP/1.1 ".data ++ (toString statusCode).data ++ reasonPhrase statusCode,
         "Content-Type: ".data ++ contentType,
         "Content-Length: ".data ++ Nat.toDigits 10 body.length,
         "Access-Control-Allow-Origin: ".data ++ allowedOrigins,
         "Access-Control-Allow-Methods: GET, POST, PUT, DELETE, OPTIONS".data,
         "Access-Control-Allow-Headers: Content-Type, Authorization".data,
         "Connection: close".data,
         [],
         body] ∧
    reasonPhrase 200 = " OK".data ∧ reasonPhrase 404 = " Not Found".data ∧
    configuredOrigins none = "*".data ∧ configuredOrigins (some []) = "*".data ∧
    (∀ origins : List Char, origins ≠ [] → configuredOrigins (some origins) = origins) := by
  refine ⟨?_, by decide, by decide, rfl, rfl, fun origins h => ?_⟩
  · simp only [createResponse, List.intercalate, List.intersperse, List.flatten,
      List.append_assoc, List.append_nil, List.nil_append]
    rfl
  · simp [configuredOrigins, h]

set_option maxRecDepth 100000 in
/-- C26, the defect: for `crlfRequest`, whose lines all end in CR LF, the body
handed to the route handler keeps the carriage return of every non-empty body
line: it is not the body with its line terminators stripped. -/
theorem requestBody_keeps_cr :
    requestBody crlfRequest = "\x7b\r\"userId\":\"u1\"\r\x7d\r".data ∧
    '\r' ∈ requestBody crlfRequest ∧
    requestBody crlfRequest ≠ "\x7b\"userId\":\"u1\"\x7d".data := by
  refine ⟨by decide, by decide, by decide⟩

end HTTPServer

namespace HTTPServer

theorem urlDecode_ne_nil : ∀ s : List Char, s ≠ [] → urlDecode s ≠ []
  | [], h => absurd rfl h
  | [c], _ => by simp [urlDecode]
  | [c, a], _ => by simp [urlDecode]
  | c :: a :: b :: rest, _ => by
    unfold urlDecode
    split <;> simp

/-- A value carried under a key is what the handler reads from the map. -/
theorem mapGet_of_carries (query key value : List Char) (hk : '=' ∉ key)
    (h : Carries query key value) : mapGet (parseQuery query) key = value := by
  obtain ⟨pre, post, hq, hpost⟩ := h
  simp only [mapGet, parseQuery_last query key value pre post hq hk hpost]

/-- The reply of the shared tail when the five values are acceptable. -/
theorem addCustomerReply_success {σ : Type} (env : Env σ) (state : ServerState σ)
    (id name : List Char) (a f l : ℚ) (msg : List Char)
    (hid : id ≠ []) (hname : name ≠ []) (ha : 0 < a) (hf : 0 < f) (hl : 0 < l) :
    addCustomerReply env state id name a f l msg =
      (successEnvelope env.lib id name a f l,
       { state with
         customers := CLV.addCustomer state.customers (String.mk id) (String.mk name) a f l
         customersJson := some (CLV.saveToJSON env.lib env.now
           (CLV.addCustomer state.customers (String.mk id) (String.mk name) a f l)) }) := by
  unfold addCustomerReply
  rw [if_pos ⟨hid, hname, ha, hf, hl⟩]

/-- The numbers read from the query when the three texts convert. -/
theorem queryNumbers_of_stod (lib : Lib) (p : AddCustomerParams) (a f l : ℚ)
    (ha : lib.stod p.averagePurchaseValue = some a) (ha0 : p.averagePurchaseValue ≠ [])
    (hf : lib.stod p.purchaseFrequency = some f) (hf0 : p.purchaseFrequency ≠ [])
    (hl : lib.stod p.customerLifespan = some l) (hl0 : p.customerLifespan ≠ []) :
    queryNumbers lib p = (a, f, l) := by
  unfold queryNumbers
  simp only [ha0, hf0, hl0, ne_eq, not_false_eq_true, if_true, ha, hf, hl]

/-- The success envelope shows the product of the three numbers as `clv`. -/
theorem successEnvelope_clv (lib : Lib) (id name : List Char) (a f l : ℚ) :
    List.IsInfix ("\"clv\": ".data ++ lib.showDouble (a * f * l))
      (successEnvelope lib id name a f l) := by
  refine ⟨"\x7b\n".data ++
    "  \"status\": \"success\",\n".data ++
    "  \"message\": \"Customer added successfully\",\n".data ++
    "  \"customer\": \x7b\n".data ++
    "    \"id\": \"".data ++ id ++ "\",\n".data ++
    "    \"name\": \"".data ++ name ++ "\",\n".data ++
    "    \"averagePurchaseValue\": ".data ++ lib.showDouble a ++ ",\n".data ++
    "    \"purchaseFrequency\": ".data ++ lib.showDouble f ++ ",\n".data ++
    "    \"customerLifespan\": ".data ++ lib.showDouble l ++ ",\n".data ++ "    ".data,
    "\n".data ++ "  \x7d\n".data ++ "\x7d".data, ?_⟩
  simp only [successEnvelope, List.append_assoc]
  rfl

/-- The `GET /api/add-customer` route on a path that starts with its
address. -/
theorem handleAPIRequest_get_add {σ : Type} (env : Env σ) (state : ServerState σ)
    (path body : List Char) (hp : List.IsPrefix "/api/add-customer".data path) :
    handleAPIRequest env state "GET".data path body =
      some (addCustomerReply env state (addCustomerParams (queryStringOf path)).id
        (addCustomerParams (queryStringOf path)).name
        (queryNumbers env.lib (addCustomerParams (queryStringOf path))).1
        (queryNumbers env.lib (addCustomerParams (queryStringOf path))).2.1
        (queryNumbers env.lib (addCustomerParams (queryStringOf path))).2.2
        "Invalid customer data - missing required fields".data) := by
  have h1 : path ≠ "/api/customers".data := by
    intro e
    rw [e] at hp
    exact absurd hp (by decide)
  unfold handleAPIRequest
  rw [if_neg (fun h => h1 h.1), if_neg (fun h => h1 h.1),
    if_pos ⟨(strFind_zero_iff _ _).2 hp, rfl⟩]

/-- The `POST /api/customers` route. -/
theorem handleAPIRequest_post_customers {σ : Type} (env : Env σ) (state : ServerState σ)
    (body : List Char) :
    handleAPIRequest env state "POST".data "/api/customers".data body =
      some (addCustomerReply env state
        (postQuoted body "\"id\":".data 5) (postQuoted body "\"name\":".data 7)
        (postNumber env.lib body "\"averagePurchaseValue\":".data 24)
        (postNumber env.lib body "\"purchaseFrequency\":".data 20)
        (postNumber env.lib body "\"customerLifespan\":".data 19)
        "Invalid customer data".data) := by
  unfold handleAPIRequest
  rw [if_neg (fun h => absurd h.2 (by decide)), if_pos ⟨rfl, rfl⟩]

theorem queryStringOf_add_customer (query : List Char) :
    queryStringOf ("/api/add-customer".data ++ '?' :: query) = query := by
  unfold queryStringOf
  rw [findChar_append '?' "/api/add-customer".data query (by decide)]
  rfl

end HTTPServer

namespace HTTPServer

/-- C24: for every `GET` request to `/api/add-customer` whose query carries a
non-empty id and name and three texts that `std::stod` reads as positive
numbers `a`, `f`, `l`, the handler returns the success envelope, whose `clv`
is the text of `a * f * l`, and hands the customer to `addCustomer`. In
particular, with a library that reads `100`, `4`, `2` and writes `800` as such,
the path of the end-to-end example yields a body containing `"clv": 800`. -/
theorem add_customer_get_success {σ : Type} (env : Env σ) (state : ServerState σ)
    (body : List Char) :
    (∀ (query i n sa sf sl : List Char) (a f l : ℚ),
      Carries query "id".data i → i ≠ [] →
      Carries query "name".data n → n ≠ [] →
      Carries query "averagePurchaseValue".data sa → sa ≠ [] → env.lib.stod sa = some a →
      Carries query "purchaseFrequency".data sf → sf ≠ [] → env.lib.stod sf = some f →
      Carries query "customerLifespan".data sl → sl ≠ [] → env.lib.stod sl = some l →
      0 < a → 0 < f → 0 < l →
      handleAPIRequest env state "GET".data ("/api/add-customer".data ++ '?' :: query) body =
        some (successEnvelope env.lib (urlDecode i) (urlDecode n) a f l,
          { state with
            customers := CLV.addCustomer state.customers (String.mk (urlDecode i))
              (String.mk (urlDecode n)) a f l
            customersJson := some (CLV.saveToJSON env.lib env.now
              (CLV.addCustomer state.customers (String.mk (urlDecode i))
                (String.mk (urlDecode n)) a f l)) }) ∧
      List.IsInfix ("\"clv\": ".data ++ env.lib.showDouble (a * f * l))
        (successEnvelope env.lib (urlDecode i) (urlDecode n) a f l)) ∧
    (env.lib.stod "100".data = some 100 → env.lib.stod "4".data = some 4 →
      env.lib.stod "2".data = some 2 → env.lib.showDouble 800 = "800".data →
      ∃ r, handleAPIRequest env state "GET".data addCustomerPath body = some r ∧
        List.IsInfix "\"clv\": 800".data r.1) := by
  have general : ∀ (query i n sa sf sl : List Char) (a f l : ℚ),
      Carries query "id".data i → i ≠ [] →
      Carries query "name".data n → n ≠ [] →
      Carries query "averagePurchaseValue".data sa → sa ≠ [] → env.lib.stod sa = some a →
      Carries query "purchaseFrequency".data sf → sf ≠ [] → env.lib.stod sf = some f →
      Carries query "customerLifespan".data sl → sl ≠ [] → env.lib.stod sl = some l →
      0 < a → 0 < f → 0 < l →
      handleAPIRequest env state "GET".data ("/api/add-customer".data ++ '?' :: query) body =
        some (successEnvelope env.lib (urlDecode i) (urlDecode n) a f l,
          { state with
            customers := CLV.addCustomer state.customers (String.mk (urlDecode i))
              (String.mk (urlDecode n)) a f l
            customersJson := some (CLV.saveToJSON env.lib env.now
              (CLV.addCustomer state.customers (String.mk (urlDecode i))
                (String.mk (urlDecode n)) a f l)) }) := by
    intro query i n sa sf sl a f l ci hi cn hn ca ha0 ha cf hf0 hf cl hl0 hl pa pf pl
    have e1 : (addCustomerParams query).id = urlDecode i := by
      simp only [addCustomerParams, mapGet_of_carries query _ i (by decide) ci]
    have e2 : (addCustomerParams query).name = urlDecode n := by
      simp only [addCustomerParams, mapGet_of_carries query _ n (by decide) cn]
    have e3 : (addCustomerParams query).averagePurchaseValue = sa := by
      simp only [addCustomerParams, mapGet_of_carries query _ sa (by decide) ca]
    have e4 : (addCustomerParams query).purchaseFrequency = sf := by
      simp only [addCustomerParams, mapGet_of_carries query _ sf (by decide) cf]
    have e5 : (addCustomerParams query).customerLifespan = sl := by
      simp only [addCustomerParams, mapGet_of_carries query _ sl (by decide) cl]
    have en : queryNumbers env.lib (addCustomerParams query) = (a, f, l) :=
      queryNumbers_of_stod env.lib _ a f l (by rw [e3]; exact ha) (by rw [e3]; exact ha0)
        (by rw [e4]; exact hf) (by rw [e4]; exact hf0) (by rw [e5]; exact hl)
        (by rw [e5]; exact hl0)
    rw [handleAPIRequest_get_add env state _ body ⟨'?' :: query, rfl⟩,
      queryStringOf_add_customer, en, e1, e2,
      addCustomerReply_success env state _ _ a f l _ (urlDecode_ne_nil i hi)
        (urlDecode_ne_nil n hn) pa pf pl]
  refine ⟨fun query i n sa sf sl a f l ci hi cn hn ca ha0 ha cf hf0 hf cl hl0 hl pa pf pl =>
    ⟨general query i n sa sf sl a f l ci hi cn hn ca ha0 ha cf hf0 hf cl hl0 hl pa pf pl,
     successEnvelope_clv _ _ _ a f l⟩, ?_⟩
  intro h100 h4 h2 h800
  have hpath : addCustomerPath = "/api/add-customer".data ++ '?' ::
      "id=c1&name=Alice&averagePurchaseValue=100&purchaseFrequency=4&customerLifespan=2".data := by
    decide
  have hpieces : queryPieces
      "id=c1&name=Alice&averagePurchaseValue=100&purchaseFrequency=4&customerLifespan=2".data =
      ["id=c1".data, "name=Alice".data, "averagePurchaseValue=100".data,
       "purchaseFrequency=4".data, "customerLifespan=2".data] := by decide
  have h := general _ "c1".data "Alice".data "100".data "4".data "2".data 100 4 2
    ⟨[], ["name=Alice".data, "averagePurchaseValue=100".data, "purchaseFrequency=4".data,
      "customerLifespan=2".data], hpieces, by simp⟩ (by decide)
    ⟨["id=c1".data], ["averagePurchaseValue=100".data, "purchaseFrequency=4".data,
      "customerLifespan=2".data], hpieces, by simp⟩ (by decide)
    ⟨["id=c1".data, "name=Alice".data], ["purchaseFrequency=4".data,
      "customerLifespan=2".data], hpieces, by simp⟩ (by decide) h100
    ⟨["id=c1".data, "name=Alice".data, "averagePurchaseValue=100".data],
      ["customerLifespan=2".data], hpieces, by simp⟩ (by decide) h4
    ⟨["id=c1".data, "name=Alice".data, "averagePurchaseValue=100".data,
      "purchaseFrequency=4".data], [], hpieces, by simp⟩ (by decide) h2
    (by norm_num) (by norm_num) (by norm_num)
  rw [hpath, h]
  refine ⟨_, rfl, ?_⟩
  have hc := successEnvelope_clv env.lib (urlDecode "c1".data) (urlDecode "Alice".data) 100 4 2
  rw [show (100 : ℚ) * 4 * 2 = 800 by norm_num, h800] at hc
  exact hc

theorem add_customer_get_success_witness :
    sampleEnv.lib.stod "100".data = some 100 ∧ sampleEnv.lib.stod "4".data = some 4 ∧
    sampleEnv.lib.stod "2".data = some 2 ∧ sampleEnv.lib.showDouble 800 = "800".data ∧
    ∃ r, handleAPIRequest sampleEnv sampleState "GET".data addCustomerPath [] = some r ∧
      List.IsInfix "\"clv\": 800".data r.1 :=
  ⟨by decide, by decide, by decide, by decide,
   (add_customer_get_success sampleEnv sampleState []).2 (by decide) (by decide) (by decide)
     (by decide)⟩

end HTTPServer

namespace HTTPServer

set_option maxRecDepth 100000 in
/-- C25, the defect: for `compactBody`, a valid customer object without white
space behind the colons, the `POST /api/customers` handler hands `00` to
`std::stod` as the average purchase value (it starts reading one character
behind the colon, so the first digit of `100` is lost) and returns the error
envelope `Invalid customer data`, the state unchanged. The same object with a
blank behind every colon is accepted. -/
theorem post_customers_compact_body {σ : Type} (env : Env σ) (state : ServerState σ)
    (h00 : env.lib.stod "00".data = some 0) :
    postQuoted compactBody "\"id\":".data 5 = "c1".data ∧
    postQuoted compactBody "\"name\":".data 7 = "Alice".data ∧
    postNumber env.lib compactBody "\"averagePurchaseValue\":".data 24 = 0 ∧
    handleAPIRequest env state "POST".data "/api/customers".data compactBody =
      some (errorEnvelope "Invalid customer data".data, state) ∧
    (env.lib.stod "100".data = some 100 → env.lib.stod " 4".data = some 4 →
      env.lib.stod " 2".data = some 2 →
      (handleAPIRequest env state "POST".data "/api/customers".data spacedBody).map
          (fun r => r.1) =
        some (successEnvelope env.lib "c1".data "Alice".data 100 4 2)) := by
  have e1 : strFind compactBody "\"averagePurchaseValue\":".data 0 = some 26 := by decide
  have e2 : strFind compactBody ",".data (26 + 24) = some 52 := by decide
  have e3 : substr compactBody (26 + 24) (52 - (26 + 24)) = "00".data := by decide
  have hn : postNumber env.lib compactBody "\"averagePurchaseValue\":".data 24 = 0 := by
    simp only [postNumber, e1, e2, e3, h00]
  refine ⟨by decide, by decide, hn, ?_, ?_⟩
  · rw [handleAPIRequest_post_customers, hn]
    unfold addCustomerReply
    rw [if_neg (fun h => absurd h.2.2.1 (lt_irrefl 0))]
  · intro h100 h4 h2
    have a1 : strFind spacedBody "\"averagePurchaseValue\":".data 0 = some 30 := by decide
    have a2 : strFind spacedBody ",".data (30 + 24) = some 57 := by decide
    have a3 : substr spacedBody (30 + 24) (57 - (30 + 24)) = "100".data := by decide
    have f1 : strFind spacedBody "\"purchaseFrequency\":".data 0 = some 59 := by decide
    have f2 : strFind spacedBody ",".data (59 + 20) = some 81 := by decide
    have f3 : substr spacedBody (59 + 20) (81 - (59 + 20)) = " 4".data := by decide
    have l1 : strFind spacedBody "\"customerLifespan\":".data 0 = some 83 := by decide
    have l2 : strFind spacedBody ",".data (83 + 19) = none := by decide
    have l3 : strFind spacedBody "\x7d".data (83 + 19) = some 104 := by decide
    have l4 : substr spacedBody (83 + 19) (104 - (83 + 19)) = " 2".data := by decide
    have na : postNumber env.lib spacedBody "\"averagePurchaseValue\":".data 24 = 100 := by
      simp only [postNumber, a1, a2, a3, h100]
    have nf : postNumber env.lib spacedBody "\"purchaseFrequency\":".data 20 = 4 := by
      simp only [postNumber, f1, f2, f3, h4]
    have nl : postNumber env.lib spacedBody "\"customerLifespan\":".data 19 = 2 := by
      simp only [postNumber, l1, l2, l3, l4, h2]
    have qi : postQuoted spacedBody "\"id\":".data 5 = "c1".data := by decide
    have qn : postQuoted spacedBody "\"name\":".data 7 = "Alice".data := by decide
    rw [handleAPIRequest_post_customers, na, nf, nl, qi, qn,
      addCustomerReply_success env state _ _ 100 4 2 _ (by decide) (by decide)
        (by norm_num) (by norm_num) (by norm_num)]
    rfl

theorem post_customers_compact_body_witness :
    sampleEnv.lib.stod "00".data = some 0 ∧
    handleAPIRequest sampleEnv sampleState "POST".data "/api/customers".data compactBody =
      some (errorEnvelope "Invalid customer data".data, sampleState) :=
  ⟨by decide, (post_customers_compact_body sampleEnv sampleState (by decide)).2.2.2.1⟩

/-- The text of the success envelope. -/
theorem successEnvelope_text (lib : Lib) (id name : List Char) (a f l : ℚ) :
    successEnvelope lib id name a f l =
      ("\x7b\n  \"status\": \"success\",\n  \"message\": \"Customer added successfully\",\n" ++
        "  \"customer\": \x7b\n    \"id\": \"").data ++ id ++
      "\",\n    \"name\": \"".data ++ name ++
      "\",\n    \"averagePurchaseValue\": ".data ++ lib.showDouble a ++
      ",\n    \"purchaseFrequency\": ".data ++ lib.showDouble f ++
      ",\n    \"customerLifespan\": ".data ++ lib.showDouble l ++
      ",\n    \"clv\": ".data ++ lib.showDouble (a * f * l) ++ "\n  \x7d\n\x7d".data := by
  simp only [successEnvelope, List.append_assoc]
  rfl

/-- C30: the two add-customer handlers decide their envelope from the request
alone. The response text is the same for every server state. Whenever the id
and the name read from the request are non-empty and the three numbers read
are positive, the response is the envelope with status `success`, the message
`Customer added successfully`, the five values read, and the line `"clv": `
followed by the printed product `a * f * l`; the state afterwards holds
`addCustomer` of the old store, and when a customer with that id is already in
the store, the store is left unchanged while the response is this same success
envelope. -/
theorem add_customer_reply_from_request {σ : Type} (env : Env σ) (body : List Char) :
    (∀ (s1 s2 : ServerState σ) (path : List Char),
      List.IsPrefix "/api/add-customer".data path →
      (handleAPIRequest env s1 "POST".data "/api/customers".data body).map (fun r => r.1) =
        (handleAPIRequest env s2 "POST".data "/api/customers".data body).map (fun r => r.1) ∧
      (handleAPIRequest env s1 "GET".data path body).map (fun r => r.1) =
        (handleAPIRequest env s2 "GET".data path body).map (fun r => r.1)) ∧
    (∀ (state : ServerState σ) (id name : List Char) (a f l : ℚ),
      id = postQuoted body "\"id\":".data 5 → name = postQuoted body "\"name\":".data 7 →
      a = postNumber env.lib body "\"averagePurchaseValue\":".data 24 →
      f = postNumber env.lib body "\"purchaseFrequency\":".data 20 →
      l = postNumber env.lib body "\"customerLifespan\":".data 19 →
      id ≠ [] → name ≠ [] → 0 < a → 0 < f → 0 < l →
      ∃ st, handleAPIRequest env state "POST".data "/api/customers".data body =
          some (("\x7b\n  \"status\": \"success\",\n" ++
              "  \"message\": \"Customer added successfully\",\n" ++
              "  \"customer\": \x7b\n    \"id\": \"").data ++ id ++
            "\",\n    \"name\": \"".data ++ name ++
            "\",\n    \"averagePurchaseValue\": ".data ++ env.lib.showDouble a ++
            ",\n    \"purchaseFrequency\": ".data ++ env.lib.showDouble f ++
            ",\n    \"customerLifespan\": ".data ++ env.lib.showDouble l ++
            ",\n    \"clv\": ".data ++ env.lib.showDouble (a * f * l) ++
            "\n  \x7d\n\x7d".data, st) ∧
        st.customers =
          CLV.addCustomer state.customers (String.mk id) (String.mk name) a f l ∧
        ((∃ c ∈ state.customers, c.id = String.mk id) → st.customers = state.customers)) ∧
    (∀ (state : ServerState σ) (path id name : List Char) (a f l : ℚ),
      List.IsPrefix "/api/add-customer".data path →
      id = (addCustomerParams (queryStringOf path)).id →
      name = (addCustomerParams (queryStringOf path)).name →
      a = (queryNumbers env.lib (addCustomerParams (queryStringOf path))).1 →
      f = (queryNumbers env.lib (addCustomerParams (queryStringOf path))).2.1 →
      l = (queryNumbers env.lib (addCustomerParams (queryStringOf path))).2.2 →
      id ≠ [] → name ≠ [] → 0 < a → 0 < f → 0 < l →
      ∃ st, handleAPIRequest env state "GET".data path body =
          some (("\x7b\n  \"status\": \"success\",\n" ++
              "  \"message\": \"Customer added successfully\",\n" ++
              "  \"customer\": \x7b\n    \"id\": \"").data ++ id ++
            "\",\n    \"name\": \"".data ++ name ++
            "\",\n    \"averagePurchaseValue\": ".data ++ env.lib.showDouble a ++
            ",\n    \"purchaseFrequency\": ".data ++ env.lib.showDouble f ++
            ",\n    \"customerLifespan\": ".data ++ env.lib.showDouble l ++
            ",\n    \"clv\": ".data ++ env.lib.showDouble (a * f * l) ++
            "\n  \x7d\n\x7d".data, st) ∧
        st.customers =
          CLV.addCustomer state.customers (String.mk id) (String.mk name) a f l ∧
        ((∃ c ∈ state.customers, c.id = String.mk id) → st.customers = state.customers)) := by
  have hdup : ∀ (customers : List CLV.Customer) (id name : String) (a f l : ℚ),
      (∃ c ∈ customers, c.id = id) → CLV.addCustomer customers id name a f l = customers := by
    intro customers id name a f l h
    simp [CLV.addCustomer, (CLV.idExists_iff id customers).2 h]
  have hfst : ∀ (s1 s2 : ServerState σ) (id name : List Char) (a f l : ℚ) (msg : List Char),
      (addCustomerReply env s1 id name a f l msg).1 =
        (addCustomerReply env s2 id name a f l msg).1 := by
    intro s1 s2 id name a f l msg
    unfold addCustomerReply
    split <;> rfl
  refine ⟨fun s1 s2 path hp => ⟨?_, ?_⟩,
    fun state id name a f l eid ename ea ef el hi hn ha hf hl => ?_,
    fun state path id name a f l hp eid ename ea ef el hi hn ha hf hl => ?_⟩
  · rw [handleAPIRequest_post_customers, handleAPIRequest_post_customers]
    simp only [Option.map_some', hfst s1 s2]
  · rw [handleAPIRequest_get_add env s1 path body hp,
      handleAPIRequest_get_add env s2 path body hp]
    simp only [Option.map_some', hfst s1 s2]
  · rw [handleAPIRequest_post_customers, ← eid, ← ename, ← ea, ← ef, ← el,
      addCustomerReply_success env state _ _ _ _ _ _ hi hn ha hf hl, successEnvelope_text]
    exact ⟨_, rfl, rfl, fun h => hdup _ _ _ _ _ _ h⟩
  · rw [handleAPIRequest_get_add env state path body hp, ← eid, ← ename, ← ea, ← ef, ← el,
      addCustomerReply_success env state _ _ _ _ _ _ hi hn ha hf hl, successEnvelope_text]
    exact ⟨_, rfl, rfl, fun h => hdup _ _ _ _ _ _ h⟩

set_option maxRecDepth 100000 in
theorem add_customer_reply_from_request_witness :
    List.IsPrefix "/api/add-customer".data addCustomerPath ∧
    (∃ c ∈ sampleState.customers, c.id = String.mk "c1".data) ∧
    sampleEnv.lib.showDouble (100 * 4 * 2) = "800".data ∧
    ∃ st, handleAPIRequest sampleEnv sampleState "GET".data addCustomerPath [] =
        some (("\x7b\n  \"status\": \"success\",\n" ++
            "  \"message\": \"Customer added successfully\",\n" ++
            "  \"customer\": \x7b\n    \"id\": \"").data ++ "c1".data ++
          "\",\n    \"name\": \"".data ++ "Alice".data ++
          "\",\n    \"averagePurchaseValue\": ".data ++ sampleEnv.lib.showDouble 100 ++
          ",\n    \"purchaseFrequency\": ".data ++ sampleEnv.lib.showDouble 4 ++
          ",\n    \"customerLifespan\": ".data ++ sampleEnv.lib.showDouble 2 ++
          ",\n    \"clv\": ".data ++ sampleEnv.lib.showDouble (100 * 4 * 2) ++
          "\n  \x7d\n\x7d".data, st) ∧
      st.customers = sampleState.customers := by
  have hid : ∃ c ∈ sampleState.customers, c.id = String.mk "c1".data :=
    ⟨⟨"c1", "Alice", 100, 4, 2, 800⟩, by simp [sampleState, CLV.aliceStore], by decide⟩
  obtain ⟨st, h1, _, h3⟩ := (add_customer_reply_from_request sampleEnv []).2.2 sampleState
    addCustomerPath "c1".data "Alice".data 100 4 2 (by decide) (by decide) (by decide)
    (by decide) (by decide) (by decide) (by decide) (by decide) (by decide) (by decide)
    (by decide)
  exact ⟨by decide, hid, by with_unfolding_all decide, st, h1, h3 hid⟩

end HTTPServer

/-! ## Ranking engine: partition postcondition, bounds and termination -/

namespace CLV

theorem swapChecked_eq {arr : List Customer} {a b : Int} {x y : Customer}
    (hx : getAt arr a = some x) (hy : getAt arr b = some y) :
    swapChecked arr a b = some (swapAt arr a b) := by
  simp only [swapChecked, swapAt, hx, hy]

theorem partitionLoop_length (pivot : ℚ) :
    ∀ (n : Nat) (arr : List Customer) (i j : Int),
      (partitionLoop pivot n arr i j).1.length = arr.length
  | 0, arr, i, j => rfl
  | n + 1, arr, i, j => by
    unfold partitionLoop
    split
    · rw [partitionLoop_length pivot n, swapAt_length]
    · exact partitionLoop_length pivot n arr i (j + 1)

theorem partition_length (arr : List Customer) (low high : Int) :
    (partition arr low high).1.length = arr.length := by
  simp only [partition, swapAt_length, partitionLoop_length]

theorem quicksortFuel_length :
    ∀ (fuel : Nat) (arr : List Customer) (low high : Int),
      (quicksortFuel fuel arr low high).length = arr.length
  | 0, arr, low, high => rfl
  | fuel + 1, arr, low, high => by
    unfold quicksortFuel
    split
    · simp only [quicksortFuel_length fuel, partition_length]
    · rfl

/-- On a valid range every access of the loop of `partition` is in bounds: the
checked loop returns what the loop returns. -/
theorem partitionLoopChecked_eq (pivot : ℚ) :
    ∀ (n : Nat) (arr : List Customer) (i j : Int),
      0 ≤ i + 1 → i < j → j + n ≤ arr.length →
      partitionLoopChecked pivot n arr i j = some (partitionLoop pivot n arr i j)
  | 0, arr, i, j => fun _ _ _ => rfl
  | n + 1, arr, i, j => by
    intro hi hij hlen
    push_cast at hlen
    obtain ⟨y, hy⟩ := getAt_isSome arr j (by omega) (by omega)
    obtain ⟨x, hx⟩ := getAt_isSome arr (i + 1) (by omega) (by omega)
    unfold partitionLoopChecked partitionLoop
    simp only [hy, clvAt_of_getAt hy]
    split
    · simp only [swapChecked_eq hx hy]
      exact partitionLoopChecked_eq pivot n _ (i + 1) (j + 1) (by omega) (by omega)
        (by rw [swapAt_length]; omega)
    · exact partitionLoopChecked_eq pivot n arr i (j + 1) hi (by omega) (by omega)

/-- On a valid range every access of `partition` is in bounds. -/
theorem partitionChecked_eq (arr : List Customer) (low high : Int)
    (h0 : 0 ≤ low) (hlh : low ≤ high) (hh : high < arr.length) :
    partitionChecked arr low high = some (partition arr low high) := by
  obtain ⟨pv, hpv⟩ := getAt_isSome arr high (by omega) hh
  have hidx := partitionLoop_index (clvAt arr high) (high - low).toNat arr (low - 1) low
  have hlen := partitionLoop_length (clvAt arr high) (high - low).toNat arr (low - 1) low
  have hloop := partitionLoopChecked_eq (clvAt arr high) (high - low).toNat arr (low - 1) low
    (by omega) (by omega) (by omega)
  unfold partitionChecked partition
  rw [clvAt_of_getAt hpv] at hidx hlen hloop ⊢
  simp only [hpv, hloop]
  generalize partitionLoop pv.clv (high - low).toNat arr (low - 1) low = r at hidx hlen
  obtain ⟨x, hx⟩ := getAt_isSome r.1 (r.2 + 1) (by omega) (by rw [hlen]; omega)
  obtain ⟨y, hy⟩ := getAt_isSome r.1 high (by omega) (by rw [hlen]; omega)
  simp only [swapChecked_eq hx hy]

/-- With a budget of at least the size of the range, the checked run of
`quicksort` never fails. -/
theorem quicksortChecked_eq :
    ∀ (fuel : Nat) (arr : List Customer) (low high : Int),
      0 ≤ low → high < arr.length → (high - low + 1).toNat ≤ fuel →
      quicksortChecked fuel arr low high = some (quicksortFuel fuel arr low high)
  | 0, arr, low, high => by
    intro _ _ hf
    have : ¬ low < high := by omega
    simp [quicksortChecked, quicksortFuel, this]
  | fuel + 1, arr, low, high => by
    intro h0 hh hf
    unfold quicksortChecked quicksortFuel
    split
    · rename_i hlt
      have hb := partition_index_bounds arr low high (by omega)
      have hl := partition_length arr low high
      simp only [partitionChecked_eq arr low high h0 (by omega) hh]
      generalize partition arr low high = p at hb hl
      have h1 := quicksortChecked_eq fuel p.1 low (p.2 - 1) h0 (by rw [hl]; omega) (by omega)
      simp only [h1]
      exact quicksortChecked_eq fuel _ (p.2 + 1) high (by omega)
        (by rw [quicksortFuel_length, hl]; omega) (by omega)
    · rfl

/-- C28: for every vector `arr` and every call `quicksort(arr, low, high)` with
`0 ≤ low` and `high < |arr|` (the empty ranges `high = low - 1` included), the
bounds-checked run with a recursion budget of at least `high - low + 1` ends
with a result, the vector that `quicksort` returns: no element access of
`quicksort` or `partition` is out of bounds and the recursion terminates within
the budget. The call of `displayTopCustomers` is one of these. -/
theorem quicksortChecked_total (fuel : Nat) (arr : List Customer) (low high : Int)
    (h0 : 0 ≤ low) (hh : high < arr.length) (hf : (high - low + 1).toNat ≤ fuel) :
    quicksortChecked fuel arr low high = some (quicksort arr low high) ∧
    (low ≤ high → partitionChecked arr low high = some (partition arr low high)) ∧
    quicksortChecked arr.length arr 0 ((arr.length : Int) - 1) = some (sortedCopy arr) := by
  refine ⟨?_, fun hlh => partitionChecked_eq arr low high h0 hlh hh, ?_⟩
  · rw [quicksortChecked_eq fuel arr low high h0 hh hf]
    exact congrArg some (quicksortFuel_enough _ _ arr low high hf (le_refl _))
  · rw [quicksortChecked_eq arr.length arr 0 _ (le_refl _) (by omega) (by omega)]
    exact congrArg some (quicksortFuel_enough _ _ arr 0 _ (by omega) (le_refl _))

theorem quicksortChecked_total_witness :
    (0 : Int) ≤ 0 ∧ (2 : Int) < sampleStore.length ∧ ((2 : Int) - 0 + 1).toNat ≤ 3 ∧
    quicksortChecked 3 sampleStore 0 2 =
      some [⟨"c2", "Bob", 3, 1, 1, 3⟩, ⟨"c3", "Carol", 2, 1, 1, 2⟩,
        ⟨"c1", "Alice", 1, 1, 1, 1⟩] ∧
    quicksortChecked 3 sampleStore 0 2 = some (quicksort sampleStore 0 2) :=
  ⟨by decide, by decide, by decide, by decide,
    (quicksortChecked_total 3 sampleStore 0 2 (by decide) (by decide) (by decide)).1⟩

end CLV

/-! ## Customer persistence: `saveToJSON` and `loadFromJSON` -/

namespace CLV

set_option maxRecDepth 100000 in
/-- C29, the defect: `loadFromJSON` does not read back what `saveToJSON`
wrote. It starts reading `averagePurchaseValue` and `purchaseFrequency` one
character late, behind the first digit. The store `aliceStore` (id `c1`, name
`Alice`, inputs 100, 4, 2) is written and reloaded as the empty store: the
texts handed to `std::stod` are `00` and the empty text. A customer with the
inputs 250, 12, 3 comes back with the inputs 50, 2, 3 and the `clv` 300. -/
theorem loadFromJSON_saveToJSON_differs :
    loadFromJSON sampleLib
        (some (saveToJSON sampleLib "2024-01-01 00:00:00".data aliceStore)) = some [] ∧
    loadFromJSON sampleLib
        (some (saveToJSON sampleLib "2024-01-01 00:00:00".data
          [⟨"c9", "Zed", 250, 12, 3, 9000⟩])) =
      some [⟨"c9", "Zed", 50, 2, 3, 300⟩] := by
  constructor <;> with_unfolding_all decide

end CLV

/-! ## Score invariant over IEEE 754 doubles -/

namespace Double

end Double

namespace CLV.Binary64

end CLV.Binary64
